import Mathlib

/-! # salt_sploit_installer: profile resolution and save-data provisioning

A shallow embedding of `source/main.c`.  C strings live in byte buffers
(`List Nat`, one `Nat` per `char`), pointers into a buffer are indices, and the
C library calls the program makes (`fgets`, `strtok`, `sscanf`, `strncat`, ...)
are modelled after ISO C and the newlib implementation used on the target
(32-bit ARM: `int`, `long` and `size_t` are 32 bits wide).
-/

set_option autoImplicit false
set_option linter.unnecessarySimpa false

namespace SaltSploit

/-! ## Bytes, buffers and C strings -/

/-- Character codes of a string literal. -/
def bytes (s : String) : List Nat := s.toList.map Char.toNat

/-- Read of `m[p]`; a read past the modelled buffer yields 0. -/
def peek (m : List Nat) (p : Nat) : Nat := m.getD p 0

/-- The C string that starts at index `p` of `m` (up to the first NUL). -/
def cstr (m : List Nat) (p : Nat) : List Nat := (m.drop p).takeWhile (fun c => c != 0)

/-- C `strlen(&m[p])`. -/
def strlen (m : List Nat) (p : Nat) : Nat := (cstr m p).length

/-- C `isxdigit`. -/
def isxdigit (c : Nat) : Bool :=
  (48 ≤ c && c ≤ 57) || (65 ≤ c && c ≤ 70) || (97 ≤ c && c ≤ 102)

/-- C `isdigit`. -/
def isdigit (c : Nat) : Bool := 48 ≤ c && c ≤ 57

/-- C `isspace` in the C locale. -/
def isspace (c : Nat) : Bool := c == 32 || (9 ≤ c && c ≤ 13)

/-- Value of a digit character in any base up to 16. -/
def digitVal (c : Nat) : Nat :=
  if 48 ≤ c ∧ c ≤ 57 then c - 48
  else if 65 ≤ c ∧ c ≤ 70 then c - 55
  else if 97 ≤ c ∧ c ≤ 102 then c - 87
  else 0

/-- Value of a digit string in the given base, most significant digit first. -/
def numVal (base : Nat) (ds : List Nat) : Nat := ds.foldl (fun a c => a * base + digitVal c) 0

/-! ## C library models -/

/-- Result of one `strtok` call: the buffer (a delimiter may have been
overwritten with NUL), the saved continuation pointer and the returned token. -/
structure Tok where
  mem : List Nat
  last : Option Nat
  ret : Option Nat
deriving DecidableEq, Repr

/-- C `strtok(s, delim)` for a one-character delimiter string `d`, following
newlib: `s = none` continues from the saved pointer `last`; leading delimiters
are skipped; the token ends at the next delimiter (overwritten with NUL, the
saved pointer moves behind it) or at the terminating NUL (saved pointer becomes
NULL). -/
def strtok (m : List Nat) (s : Option Nat) (last : Option Nat) (d : Nat) : Tok :=
  match s.orElse (fun _ => last) with
  | none => ⟨m, none, none⟩
  | some p =>
    let b := p + ((m.drop p).takeWhile (fun c => c == d)).length
    if peek m b = 0 then ⟨m, none, none⟩
    else
      let e := b + ((m.drop b).takeWhile (fun c => c != 0 && c != d)).length
      if peek m e = 0 then ⟨m, none, some b⟩
      else ⟨m.set e 0, some (e + 1), some b⟩

/-- Characters one `fgets` call with room for `n` characters takes from the
stream: it stops after a newline, at end of file, or when `n` are read. -/
def fgets_take : Nat → List Nat → List Nat
  | 0, _ => []
  | _ + 1, [] => []
  | n + 1, c :: cs => if c = 10 then [c] else c :: fgets_take n cs

/-- C `fgets(line, size, f)`: `none` at end of file, otherwise the new buffer
contents (characters read, a NUL, the rest of the buffer untouched) and the
rest of the stream. -/
def fgets (line : List Nat) (size : Nat) (f : List Nat) : Option (List Nat × List Nat) :=
  let chunk := fgets_take (size - 1) f
  if chunk = [] then none
  else some (chunk ++ 0 :: line.drop (chunk.length + 1), f.drop chunk.length)

/-- The part of the input a conversion with an optional field width may read. -/
def takeWidth : Option Nat → List Nat → List Nat
  | none, s => s
  | some w, s => s.take w

/-- Scanning of an integer conversion of `sscanf` (`%x`, `%u` with an optional
field width): leading white space is skipped, then an optional sign, for base
16 an optional `0x` prefix, then digits; sign and prefix count towards the
width.  Returns the sign and the magnitude, `none` on a matching failure. -/
def scanInt (base : Nat) (width : Option Nat) (s : List Nat) : Option (Bool × Nat) :=
  let s1 := s.dropWhile isspace
  let s2 := takeWidth width s1
  let neg := s2.head? == some 45
  let s3 := if s2.head? == some 45 || s2.head? == some 43 then s2.tail else s2
  let pfx := base == 16 && (s3.take 2 == [48, 120] || s3.take 2 == [48, 88])
  let s4 := if pfx then s3.drop 2 else s3
  let ds := s4.takeWhile (fun c => if base == 16 then isxdigit c else isdigit c)
  if ds = [] then (if pfx then some (neg, 0) else none)
  else some (neg, numVal base ds)

/-- Conversion of a scanned integer to an unsigned type of `bits` bits the way
`strtoul`/`strtoull` do it: saturation on overflow, negation modulo `2^bits`. -/
def toUnsigned (bits : Nat) (r : Bool × Nat) : Nat :=
  if r.2 ≥ 2 ^ bits then 2 ^ bits - 1
  else if r.1 then (2 ^ bits - r.2) % 2 ^ bits
  else r.2

/-- The call `sscanf(s, "0x%lx", out)`: the literal `0x` must match, then `%lx`
converts; `none` when nothing is assigned. -/
def sscanf_0x_lx (s : List Nat) : Option Nat :=
  match s with
  | 48 :: 120 :: t => (scanInt 16 none t).map (toUnsigned 32)
  | _ => none

/-- The call `sscanf(s, "%016llx", out)`. -/
def sscanf_016llx (s : List Nat) : Option Nat :=
  (scanInt 16 (some 16) s).map (toUnsigned 64)

/-- The call `sscanf(s, "%04X", out)`. -/
def sscanf_04X (s : List Nat) : Option Nat :=
  (scanInt 16 (some 4) s).map (toUnsigned 32)

/-- The call `sscanf(s, "v%u", out)`. -/
def sscanf_v_u (s : List Nat) : Option Nat :=
  match s with
  | 118 :: t => (scanInt 10 none t).map (toUnsigned 32)
  | _ => none

/-- C `strncpy(out, src, 63)` into a zero-initialised 64-byte array, read back
as a C string. -/
def strncpy63 (src : List Nat) : List Nat := src.take 63

/-! ## `remove_newline` -/

/-- `remove_newline(line)`. -/
def remove_newline (line : List Nat) : List Nat :=
  let len := strlen line 0
  if len = 0 then line
  else if peek line (len - 1) = 10 then
    let line1 := line.set (len - 1) 0
    if len > 1 ∧ peek line1 (len - 2) = 13 then line1.set (len - 2) 0 else line1
  else line

/-! ## `load_exploitlist_config` -/

/-- Outputs of `load_exploitlist_config`: the result code, `*out_flags_bitmask`
and, when the result is 0, the two copied names. -/
structure ExploitListResult where
  ret : Int
  flags_bitmask : Nat
  names : Option (List Nat × List Nat)
deriving DecidableEq, Repr

/-- The inner `while((strptr = strtok(NULL, " ")))` loop over the programID
tokens of one line; returns whether it left with `ret = 0`, and the buffer.
`none` only when the fuel is used up. -/
def programid_loop (cur_programid : Nat) :
    Nat → List Nat → Option Nat → Option (Bool × List Nat)
  | 0, _, _ => none
  | fuel + 1, line, last =>
    let t := strtok line none last 32
    match t.ret with
    | none => some (false, t.mem)
    | some strptr =>
      let config_programid := (sscanf_016llx (cstr t.mem strptr)).getD 0
      if config_programid = 0 then programid_loop cur_programid fuel t.mem t.last
      else if cur_programid = config_programid then some (true, t.mem)
      else programid_loop cur_programid fuel t.mem t.last

/-- The outer `while(fgets(line, sizeof(line) - 1, f))` loop of
`load_exploitlist_config` together with the copy-out after it.  `none` only
when the fuel is used up. -/
def exploitlist_loop (cur_programid : Nat) :
    Nat → List Nat → List Nat → Nat → Option ExploitListResult
  | 0, _, _, _ => none
  | fuel + 1, line, f, flags =>
    match fgets line 255 f with
    | none => some ⟨2, flags, none⟩
    | some (line1, f1) =>
      let line2 := remove_newline line1
      if strlen line2 0 = 0 then exploitlist_loop cur_programid fuel line2 f1 flags
      else
        let t1 := strtok line2 (some 0) none 32
        match t1.ret with
        | none => exploitlist_loop cur_programid fuel t1.mem f1 flags
        | some exploitname =>
          let t2 := strtok t1.mem none t1.last 32
          match t2.ret with
          | none => exploitlist_loop cur_programid fuel t2.mem f1 flags
          | some titlename =>
            let t3 := strtok t2.mem none t2.last 32
            match t3.ret with
            | none => exploitlist_loop cur_programid fuel t3.mem f1 flags
            | some strptr =>
              let flags1 := (sscanf_0x_lx (cstr t3.mem strptr)).getD 0
              match programid_loop cur_programid (t3.mem.length + 1) t3.mem t3.last with
              | none => none
              | some (true, line3) =>
                some ⟨0, flags1,
                  some (strncpy63 (cstr line3 exploitname), strncpy63 (cstr line3 titlename))⟩
              | some (false, line3) => exploitlist_loop cur_programid fuel line3 f1 flags1

/-- `load_exploitlist_config` on an opened exploit-list file with contents `f`
(the `fopen` failure, result 1, is outside the model); `flags0` is the value
`*out_flags_bitmask` holds on entry. -/
def load_exploitlist_config (f : List Nat) (cur_programid : Nat) (flags0 : Nat) :
    Option ExploitListResult :=
  exploitlist_loop cur_programid (f.length + 1) (List.replicate 256 0) f flags0

/-! ## `load_exploitversion` -/

/-- Outputs of `load_exploitversion`: the result code and, when it is 0,
`*out_remaster` and the copied display version. -/
structure ExploitVersionResult where
  ret : Int
  out : Option (Nat × List Nat)
deriving DecidableEq, Repr

/-- The `while(fgets(...))` loop of `load_exploitversion`. -/
def exploitversion_loop (index : Nat) :
    Nat → Nat → Nat → Int → List Nat → List Nat → Option ExploitVersionResult
  | 0, _, _, _, _, _ => none
  | fuel + 1, stage, i, ret, line, f =>
    match fgets line 255 f with
    | none => some ⟨ret, none⟩
    | some (line1, f1) =>
      let line2 := remove_newline line1
      if strlen line2 0 = 0 then exploitversion_loop index fuel stage i ret line2 f1
      else if stage = 0 then
        if cstr line2 0 = bytes "[remaster_versions]" then
          exploitversion_loop index fuel 1 i 3 line2 f1
        else exploitversion_loop index fuel stage i ret line2 f1
      else if stage = 1 then
        if i ≠ index then exploitversion_loop index fuel stage (i + 1) ret line2 f1
        else
          let t1 := strtok line2 (some 0) none 61
          match t1.ret with
          | none => exploitversion_loop index fuel stage i ret t1.mem f1
          | some namestr =>
            let t2 := strtok t1.mem none t1.last 61
            match t2.ret with
            | none => exploitversion_loop index fuel stage i ret t2.mem f1
            | some valuestr =>
              match sscanf_04X (cstr t2.mem namestr) with
              | some tmpremaster =>
                let t3 := strtok t2.mem (some valuestr) t2.last 64
                match t3.ret with
                | none => some ⟨4, none⟩
                | some _ =>
                  let t4 := strtok t3.mem none t3.last 64
                  match t4.ret with
                  | none => some ⟨4, none⟩
                  | some strptr => some ⟨0, some (tmpremaster, strncpy63 (cstr t4.mem strptr))⟩
              | none => exploitversion_loop index fuel stage i ret t2.mem f1
      else exploitversion_loop index fuel stage i ret line2 f1

/-- `load_exploitversion` on the opened per-title `config.ini` with contents `f`. -/
def load_exploitversion (f : List Nat) (index : Nat) : Option ExploitVersionResult :=
  exploitversion_loop index (f.length + 1) 0 0 2 (List.replicate 256 0) f

/-- The enumeration loop of `main` (`while(true) { ret = load_exploitversion(...,
version_index, ...); if(ret) break; version_index++; }`); returns the final
`version_index`. -/
def version_enum_loop (f : List Nat) : Nat → Nat → Option Nat
  | 0, _ => none
  | fuel + 1, version_index =>
    match load_exploitversion f version_index with
    | none => none
    | some r => if r.ret ≠ 0 then some version_index else version_enum_loop f fuel (version_index + 1)

/-! ## `load_exploitconfig` -/

/-- Outputs of `load_exploitconfig`. -/
structure ExploitConfigResult where
  ret : Int
  installed_remaster_version : Nat
  versiondir : Option (List Nat)
  displayversion : Option (List Nat)
deriving DecidableEq, Repr

/-- The `while(fgets(...))` loop of `load_exploitconfig`; `file` is the whole
file, to which `fseek(f, 0, SEEK_SET)` rewinds. -/
def exploitconfig_loop (file : List Nat) (app_remaster_version : Nat) (update_titleversion : Nat) :
    Nat → Nat → Int → Nat → List Nat → List Nat → Option ExploitConfigResult
  | 0, _, _, _, _, _ => none
  | fuel + 1, stage, ret, installed, line, f =>
    match fgets line 255 f with
    | none => some ⟨ret, installed, none, none⟩
    | some (line1, f1) =>
      let line2 := remove_newline line1
      if strlen line2 0 = 0 then
        exploitconfig_loop file app_remaster_version update_titleversion fuel stage ret installed line2 f1
      else if stage = 1 ∨ stage = 3 then
        let t1 := strtok line2 (some 0) none 61
        match t1.ret with
        | none =>
          exploitconfig_loop file app_remaster_version update_titleversion fuel stage ret installed t1.mem f1
        | some namestr =>
          let t2 := strtok t1.mem none t1.last 61
          match t2.ret with
          | none =>
            exploitconfig_loop file app_remaster_version update_titleversion fuel stage ret installed t2.mem f1
          | some valuestr =>
            if stage = 1 then
              match sscanf_v_u (cstr t2.mem namestr), sscanf_04X (cstr t2.mem valuestr) with
              | some tmpver, some tmpremaster =>
                if tmpver = update_titleversion then
                  exploitconfig_loop file app_remaster_version update_titleversion fuel 2 4
                    (if app_remaster_version < tmpremaster then tmpremaster else app_remaster_version)
                    t2.mem file
                else
                  exploitconfig_loop file app_remaster_version update_titleversion fuel stage ret installed t2.mem f1
              | _, _ =>
                exploitconfig_loop file app_remaster_version update_titleversion fuel stage ret installed t2.mem f1
            else
              match sscanf_04X (cstr t2.mem namestr) with
              | some tmpremaster =>
                if installed = tmpremaster then
                  let t3 := strtok t2.mem (some valuestr) t2.last 64
                  match t3.ret with
                  | none => some ⟨4, installed, none, none⟩
                  | some dir =>
                    let t4 := strtok t3.mem none t3.last 64
                    match t4.ret with
                    | none => some ⟨4, installed, some (strncpy63 (cstr t3.mem dir)), none⟩
                    | some strptr =>
                      some ⟨0, installed, some (strncpy63 (cstr t3.mem dir)),
                        some (strncpy63 (cstr t4.mem strptr))⟩
                else
                  exploitconfig_loop file app_remaster_version update_titleversion fuel stage ret installed t2.mem f1
              | none =>
                exploitconfig_loop file app_remaster_version update_titleversion fuel stage ret installed t2.mem f1
      else if stage = 0 then
        if cstr line2 0 = bytes "[updatetitle_versions]" then
          exploitconfig_loop file app_remaster_version update_titleversion fuel 1 3 installed line2 f1
        else
          exploitconfig_loop file app_remaster_version update_titleversion fuel stage ret installed line2 f1
      else if stage = 2 then
        if cstr line2 0 = bytes "[remaster_versions]" then
          exploitconfig_loop file app_remaster_version update_titleversion fuel 3 5 installed line2 f1
        else
          exploitconfig_loop file app_remaster_version update_titleversion fuel stage ret installed line2 f1
      else
        exploitconfig_loop file app_remaster_version update_titleversion fuel stage ret installed line2 f1

/-- `load_exploitconfig` on the opened per-title `config.ini` with contents
`file`.  `update_titleversion = none` is the NULL pointer (no update title);
`installed0` is the value `*installed_remaster_version` holds on entry. -/
def load_exploitconfig (file : List Nat) (app_remaster_version : Nat)
    (update_titleversion : Option Nat) (installed0 : Nat) : Option ExploitConfigResult :=
  match update_titleversion with
  | none =>
    exploitconfig_loop file app_remaster_version 0 (2 * (file.length + 1)) 2 5
      app_remaster_version (List.replicate 256 0) file
  | some v =>
    exploitconfig_loop file app_remaster_version v (2 * (file.length + 1)) 0 2
      installed0 (List.replicate 256 0) file

/-! ## `convert_filepath` -/

/-- The process-wide `payload_embed` structure. -/
structure PayloadEmbed where
  enabled : Bool
  offset : Nat
  path : List Nat
deriving DecidableEq, Repr

/-- C `strncat(dest, src, n)` on C strings: at most `n` characters of `src` are
appended; the capacity of `dest` is not consulted. -/
def strncat (dest src : List Nat) (n : Nat) : List Nat := dest ++ src.take n

/-- Decimal digits of a natural number as character codes. -/
def decimal (n : Nat) : List Nat := (Nat.toDigits 10 n).map Char.toNat

/-- The two calls `snprintf(tmpstr, 7, "%s%c%c", "%0", N, 'd')` and
`snprintf(tmpstr2, 15, tmpstr, selected_slot)`: the format is `%0<N>d` for the
digit character `N`, so the number is printed in decimal, zero-padded on the
left to `N - '0'` characters (sign included), and cut to 14 characters. -/
def snprintf_0Nd (N : Nat) (selected_slot : Int) : List Nat :=
  let ds := decimal selected_slot.natAbs
  let sign := if selected_slot < 0 then [45] else []
  let width := N - 48
  (sign ++ List.replicate (width - (sign.length + ds.length)) 48 ++ ds).take 14

/-- C `strtol(s, NULL, 16)` on a string of hex digits, for a 32-bit `long`:
values above `LONG_MAX` are clamped to it. -/
def strtol16 (s : List Nat) : Nat := min (numVal 16 (s.takeWhile isxdigit)) (2 ^ 31 - 1)

/-- C `strncpy(payload_embed.path, outpath, sizeof(payload_embed.path) - 1)`
into the zero-initialised global, read back as a C string. -/
def strncpy255 (src : List Nat) : List Nat := src.take 255

/-- Outputs of `convert_filepath`: result code, the input buffer (`strtok`
writes into it), the string in `outpath` and `payload_embed`. -/
structure ConvertResult where
  ret : Int
  mem : List Nat
  outpath : List Nat
  payload_embed : PayloadEmbed
deriving DecidableEq, Repr

/-- The `while(strptr)` loop of `convert_filepath`.  `mem` is the buffer
`inpath` points into, `last` the pointer saved by `strtok`, `strptr` the
current token.  `outpath` is the string the `strncat` calls have written from
the start of the caller's array: nothing in the function bounds its total
length, and once it is longer than `outpath_maxsize - 1` the writes have gone
past the end of that array.  The source never writes `tmpstr3[8]`, so `strtol`
reads on into whatever the stack holds behind the eight digits; the offset
computed here is the one for a byte there that is not a hex digit (for the
digits `FFFFFFFF` the result is `LONG_MAX` whatever follows). -/
def convert_loop (outpath_maxsize : Nat) (selected_slot : Int) :
    Nat → List Nat → Option Nat → Option Nat → List Nat → PayloadEmbed → Option ConvertResult
  | 0, _, _, _, _, _ => none
  | fuel + 1, mem, last, strptr, outpath, pe =>
    match strptr with
    | none => some ⟨0, mem, outpath, pe⟩
    | some sp =>
      let convstr := sp + strlen mem sp + 1
      let outpath1 := strncat outpath (cstr mem sp) (outpath_maxsize - 1)
      if peek mem convstr ≠ 33 then
        let t := strtok mem none last 64
        convert_loop outpath_maxsize selected_slot fuel t.mem t.last t.ret outpath1 pe
      else if peek mem (convstr + 1) = 100 then
        if peek mem (convstr + 2) < 48 ∨ peek mem (convstr + 2) > 57 then
          some ⟨9, mem, outpath1, pe⟩
        else
          let tmpstr2 := snprintf_0Nd (peek mem (convstr + 2)) selected_slot
          let outpath2 := strncat outpath1 tmpstr2 (outpath_maxsize - 1)
          let t := strtok mem (some (convstr + 3)) last 64
          convert_loop outpath_maxsize selected_slot fuel t.mem t.last t.ret outpath2 pe
      else if peek mem (convstr + 1) = 112 then
        let tmpstr3 := (List.range 8).map (fun i => peek mem (convstr + 2 + i))
        if tmpstr3.all isxdigit then
          let t := strtok mem (some (convstr + 10)) last 64
          convert_loop outpath_maxsize selected_slot fuel t.mem t.last t.ret outpath1
            ⟨true, strtol16 tmpstr3, strncpy255 outpath1⟩
        else some ⟨9, mem, outpath1, pe⟩
      else some ⟨9, mem, outpath1, pe⟩

/-- `convert_filepath(inpath, outpath, outpath_maxsize, selected_slot)` where
`inpath = &mem[inpath]` and `outpath` holds the C string `outpath` on entry. -/
def convert_filepath (mem : List Nat) (inpath : Nat) (outpath : List Nat)
    (outpath_maxsize : Nat) (selected_slot : Int) (pe : PayloadEmbed) : Option ConvertResult :=
  let t := strtok mem (some inpath) none 64
  convert_loop outpath_maxsize selected_slot (mem.length + 1) t.mem t.last t.ret outpath pe

/-! ## `parsecopy_saveconfig` -/

/-- `snprintf(buf, 255, "%s/%s", a, b)` into a 256-byte array. -/
def snprintf_path (a b : List Nat) : List Nat := (a ++ 47 :: b).take 254

/-- `write_savedata(path, data, size)`: the `size == 0` guard of the source,
then the archive operations (open, delete, create, write, close, commit),
which are the external primitive `fs_write` returning the result code and the
new container. -/
def write_savedata {σ : Type} (fs_write : σ → List Nat → List Nat → Int × σ)
    (save : σ) (path : List Nat) (data : List Nat) : Int × σ :=
  if data.length = 0 then (-1, save) else fs_write save path data

/-- Outputs of `parsecopy_saveconfig`: result code, the save container and
`payload_embed`. -/
structure ParseCopyResult (σ : Type) where
  ret : Int
  save : σ
  payload_embed : PayloadEmbed

/-- What the environment answers when a file of the asset store is opened and
read: `missing` is `fopen` returning NULL; in the other cases the file opens
and `bytes` are its contents (what `fgets` reads, and what `fstat` reports the
size of).  `statFailed errno` is `fileno` or `fstat` returning -1 with that
`errno`, `allocFailed` is `malloc` returning NULL, `readShort` is `fread`
returning less than the size, `data` is the sequence succeeding. -/
inductive SourceRead where
  | missing
  | statFailed (errno : Int) (bytes : List Nat)
  | allocFailed (bytes : List Nat)
  | readShort (bytes : List Nat)
  | data (bytes : List Nat)
deriving DecidableEq, Repr

/-- Contents of an opened file. -/
def SourceRead.bytes : SourceRead → List Nat
  | .missing => []
  | .statFailed _ b => b
  | .allocFailed b => b
  | .readShort b => b
  | .data b => b

/-- The block of `parsecopy_saveconfig` from `fopen(tmpstr, "r")` to the
`fread` check: the result code of the `break` it takes (3 file not opened,
`errno` after `fileno` or `fstat`, 4 size zero, 5 no memory, 6 short read), or
the bytes read into `savebuffer`. -/
def read_source : SourceRead → Except Int (List Nat)
  | .missing => .error 3
  | .statFailed errno _ => .error errno
  | .allocFailed b => if b.length = 0 then .error 4 else .error 5
  | .readShort b => if b.length = 0 then .error 4 else .error 6
  | .data b => if b.length = 0 then .error 4 else .ok b

/-- What the body of the loop of `parsecopy_saveconfig` does with one line up
to the call of `write_savedata`: `stop` is the `break` after a `strtok` that
returned NULL (`ret` keeps its value), `fail` a `break` with a new result code,
`copy` the destination path and the bytes to write, with the line buffer as
the two expansions left it.  `overrun` is an expansion of more than 255
characters: `convert_filepath` has written past the end of `tmpstr2[256]` and
the behaviour of the program is undefined from there on. -/
inductive DirectiveResult where
  | stop
  | fail (ret : Int) (pe : PayloadEmbed)
  | copy (dst data mem : List Nat) (pe : PayloadEmbed)
  | overrun
deriving DecidableEq, Repr

/-- The body of the loop of `parsecopy_saveconfig` from `strtok(line, "=")` to
the second `convert_filepath`.  `romfs` is the asset store: what opening and
reading the file at a path gives. -/
def parsecopy_directive (romfs : List Nat → SourceRead) (savedir : List Nat)
    (selected_slot : Int) (line : List Nat) (pe : PayloadEmbed) : Option DirectiveResult :=
  let t1 := strtok line (some 0) none 61
  match t1.ret with
  | none => some .stop
  | some namestr =>
    let t2 := strtok t1.mem none t1.last 61
    match t2.ret with
    | none => some .stop
    | some valuestr =>
      match convert_filepath t2.mem namestr [] 256 selected_slot pe with
      | none => none
      | some c1 =>
        if c1.outpath.length > 255 then some .overrun
        else if c1.ret ≠ 0 then some (.fail c1.ret c1.payload_embed)
        else
          match read_source (romfs (snprintf_path savedir c1.outpath)) with
          | .error r => some (.fail r c1.payload_embed)
          | .ok savebuffer =>
            match convert_filepath c1.mem valuestr [] 256 selected_slot c1.payload_embed with
            | none => none
            | some c2 =>
              if c2.outpath.length > 255 then some .overrun
              else if c2.ret ≠ 0 then some (.fail c2.ret c2.payload_embed)
              else some (.copy c2.outpath savebuffer c2.mem c2.payload_embed)

/-- The `while(fgets(...))` loop of `parsecopy_saveconfig`.  `none`: the fuel
is used up, or an expansion has overrun `tmpstr2` (undefined behaviour). -/
def parsecopy_loop {σ : Type} (romfs : List Nat → SourceRead)
    (fs_write : σ → List Nat → List Nat → Int × σ) (savedir : List Nat) (selected_slot : Int) :
    Nat → Int → List Nat → List Nat → σ → PayloadEmbed → Option (ParseCopyResult σ)
  | 0, _, _, _, _, _ => none
  | fuel + 1, ret, line, f, save, pe =>
    match fgets line 255 f with
    | none => some ⟨ret, save, pe⟩
    | some (line1, f1) =>
      let line2 := remove_newline line1
      if strlen line2 0 = 0 then
        parsecopy_loop romfs fs_write savedir selected_slot fuel ret line2 f1 save pe
      else
        match parsecopy_directive romfs savedir selected_slot line2 pe with
        | none => none
        | some .overrun => none
        | some .stop => some ⟨ret, save, pe⟩
        | some (.fail r pe1) => some ⟨r, save, pe1⟩
        | some (.copy dst data mem pe1) =>
          let w := write_savedata fs_write save dst data
          if w.1 ≠ 0 then some ⟨w.1, w.2, pe1⟩
          else parsecopy_loop romfs fs_write savedir selected_slot fuel w.1 mem f1 w.2 pe1

/-- The directory `savedir` that `parsecopy_saveconfig` builds from
`versiondir` and `type`. -/
def savedir_path (versiondir : List Nat) (type : Nat) : List Nat :=
  if type < 2 then snprintf_path versiondir (if type = 0 then bytes "Old3DS" else bytes "New3DS")
  else snprintf_path versiondir (bytes "common")

/-- `parsecopy_saveconfig(versiondir, type, selected_slot)`. -/
def parsecopy_saveconfig {σ : Type} (romfs : List Nat → SourceRead)
    (fs_write : σ → List Nat → List Nat → Int × σ) (versiondir : List Nat) (type : Nat)
    (selected_slot : Int) (save : σ) (pe : PayloadEmbed) : Option (ParseCopyResult σ) :=
  match romfs (snprintf_path (savedir_path versiondir type) (bytes "config.ini")) with
  | .missing => some ⟨1, save, pe⟩
  | src =>
    parsecopy_loop romfs fs_write (savedir_path versiondir type) selected_slot
      (src.bytes.length + 1) 2 (List.replicate 256 0) src.bytes save pe

/-! ## Payload embed step of `STATE_INSTALL_PAYLOAD` -/

/-- One line of the exploit-list file:
`<exploitName> <titleName> 0x<flagsHex> <programId> ...`. -/
structure ExploitListEntry where
  exploitName : List Nat
  titleName : List Nat
  flagsHex : List Nat
  programIds : List (List Nat)
deriving DecidableEq, Repr

/-- The programID tokens of a line, each preceded by one space. -/
def idsText : List (List Nat) → List Nat
  | [] => []
  | i :: is => 32 :: i ++ idsText is

/-- Text of an exploit-list line (without the line end). -/
def ExploitListEntry.render (e : ExploitListEntry) : List Nat :=
  e.exploitName ++ 32 :: e.titleName ++ 32 :: (48 :: 120 :: e.flagsHex) ++ idsText e.programIds

/-- A name token: non-empty, at most 63 characters, no NUL, space or newline. -/
def NameOk (n : List Nat) : Prop :=
  n ≠ [] ∧ n.length ≤ 63 ∧ ∀ c ∈ n, c ≠ 0 ∧ c ≠ 32 ∧ c ≠ 10

instance (n : List Nat) : Decidable (NameOk n) := by unfold NameOk; infer_instance

/-- A string of exactly `k` hex digits. -/
def HexDigits (k : Nat) (ds : List Nat) : Prop := ds.length = k ∧ ∀ c ∈ ds, isxdigit c = true

instance (k : Nat) (ds : List Nat) : Decidable (HexDigits k ds) := by
  unfold HexDigits; infer_instance

/-- A well-formed exploit-list line: two names, 1 to 8 hex digits of flags
(a 32-bit bitmask) and any number of 16-hex-digit programIDs. -/
def ExploitListEntry.WellFormed (e : ExploitListEntry) : Prop :=
  NameOk e.exploitName ∧ NameOk e.titleName ∧
  e.flagsHex ≠ [] ∧ e.flagsHex.length ≤ 8 ∧ (∀ c ∈ e.flagsHex, isxdigit c = true) ∧
  ∀ i ∈ e.programIds, HexDigits 16 i

instance (e : ExploitListEntry) : Decidable e.WellFormed := by
  unfold ExploitListEntry.WellFormed; infer_instance

/-- Whether the programID list of the line contains the identifier `q`. -/
def ExploitListEntry.lists (e : ExploitListEntry) (q : Nat) : Bool :=
  e.programIds.any (fun i => numVal 16 i == q)

/-- An exploit-list file: the lines, each followed by the line end `eol`. -/
def exploitListFile (eol : List Nat) : List ExploitListEntry → List Nat
  | [] => []
  | e :: es => e.render ++ eol ++ exploitListFile eol es

/-- What the Profile Selector is specified to return on a list of entries:
the first entry that lists `q`, `NotFound` (2) otherwise; the flags word keeps
the value parsed from the last line looked at. -/
def selectProfile (q : Nat) : List ExploitListEntry → Nat → ExploitListResult
  | [], flags => ⟨2, flags, none⟩
  | e :: es, _ =>
    if e.lists q then ⟨0, numVal 16 e.flagsHex, some (e.exploitName, e.titleName)⟩
    else selectProfile q es (numVal 16 e.flagsHex)

/-- An exploit-list line with nineteen programIDs (334 characters): longer
than one `fgets(line, 255, f)` call reads. -/
def longListEntry : ExploitListEntry :=
  ⟨bytes "foo", bytes "Bar", bytes "2",
    (List.range 19).map (fun k => bytes "00040000001746" ++ [48 + k / 10, 48 + k % 10])⟩

/-! ## Data model of the per-title `config.ini` -/

/-- A line of the per-title configuration file: one of the two section
headers, an entry `v<build>=<code>` or an entry `<key>=<dir>@<label>`. -/
inductive CfgLine where
  | updateHeader
  | remasterHeader
  | update (build code : List Nat)
  | remaster (key dir label : List Nat)
deriving DecidableEq, Repr

/-- Text of a configuration line (without the line end). -/
def CfgLine.render : CfgLine → List Nat
  | .updateHeader => bytes "[updatetitle_versions]"
  | .remasterHeader => bytes "[remaster_versions]"
  | .update build code => 118 :: build ++ 61 :: code
  | .remaster key dir label => key ++ 61 :: dir ++ 64 :: label

/-- A version directory or display version: non-empty, at most 63 characters,
none of NUL, LF, CR, `=` and `@`. -/
def TextOk (t : List Nat) : Prop :=
  t ≠ [] ∧ t.length ≤ 63 ∧ ∀ c ∈ t, c ≠ 0 ∧ c ≠ 10 ∧ c ≠ 13 ∧ c ≠ 61 ∧ c ≠ 64

instance (t : List Nat) : Decidable (TextOk t) := by unfold TextOk; infer_instance

/-- Well-formed configuration lines: the build number is a decimal number
that fits an `unsigned int` (and the line fits the line buffer), remaster
codes are exactly four hex digits. -/
def CfgLine.WellFormed : CfgLine → Prop
  | .updateHeader => True
  | .remasterHeader => True
  | .update build code =>
    build ≠ [] ∧ build.length ≤ 240 ∧ (∀ c ∈ build, isdigit c = true) ∧ numVal 10 build < 2 ^ 32 ∧
    HexDigits 4 code
  | .remaster key dir label => HexDigits 4 key ∧ TextOk dir ∧ TextOk label

instance (l : CfgLine) : Decidable l.WellFormed := by
  cases l <;> unfold CfgLine.WellFormed <;> infer_instance

/-- A configuration file: the lines, each followed by the line end `eol`. -/
def configFile (eol : List Nat) : List CfgLine → List Nat
  | [] => []
  | l :: ls => l.render ++ eol ++ configFile eol ls

/-- The lines that follow the first occurrence of the header `h`. -/
def afterHeader (h : CfgLine) : List CfgLine → Option (List CfgLine)
  | [] => none
  | l :: ls => if l = h then some ls else afterHeader h ls

/-- The remaster code the first `v<build>=<code>` line with build number `v`
maps to. -/
def findUpdate (v : Nat) : List CfgLine → Option Nat
  | [] => none
  | .update build code :: ls => if numVal 10 build = v then some (numVal 16 code) else findUpdate v ls
  | _ :: ls => findUpdate v ls

/-- The first `<key>=<dir>@<label>` line whose key has the value `c`. -/
def findRemaster (c : Nat) : List CfgLine → Option (List Nat × List Nat)
  | [] => none
  | .remaster key dir label :: ls => if numVal 16 key = c then some (dir, label) else findRemaster c ls
  | _ :: ls => findRemaster c ls

/-- Stage 2 of the two-stage lookup as specified: rescan from the start, find
the `[remaster_versions]` header, then the entry for `installed`.  Without the
header the result is the code `missing` the lookup starts the stage with. -/
def resolveRemaster (ls : List CfgLine) (installed : Nat) (missing : Int) : ExploitConfigResult :=
  match afterHeader .remasterHeader ls with
  | none => ⟨missing, installed, none, none⟩
  | some ls1 =>
    match findRemaster installed ls1 with
    | none => ⟨5, installed, none, none⟩
    | some (dir, label) => ⟨0, installed, some dir, some label⟩

/-- The two-stage lookup as specified. -/
def resolveVersion (ls : List CfgLine) (app_remaster_version : Nat) (update : Option Nat)
    (installed0 : Nat) : ExploitConfigResult :=
  match update with
  | none => resolveRemaster ls app_remaster_version 5
  | some v =>
    match afterHeader .updateHeader ls with
    | none => ⟨2, installed0, none, none⟩
    | some ls1 =>
      match findUpdate v ls1 with
      | none => ⟨3, installed0, none, none⟩
      | some code => resolveRemaster ls (max app_remaster_version code) 4

/-- The first `<key>=<dir>@<label>` line of a list: its code and label. -/
def firstRemaster : List CfgLine → Option (Nat × List Nat)
  | [] => none
  | .remaster key _ label :: _ => some (numVal 16 key, label)
  | _ :: ls => firstRemaster ls

/-- Enumeration mode as specified: entry number `index` behind the
`[remaster_versions]` header. -/
def enumerateVersion (ls : List CfgLine) (index : Nat) : ExploitVersionResult :=
  match afterHeader .remasterHeader ls with
  | none => ⟨2, none⟩
  | some ls1 =>
    match firstRemaster (ls1.drop index) with
    | none => ⟨3, none⟩
    | some r => ⟨0, some r⟩

/-- A configuration file with the two sections in either order. -/
def twoSections (remasterFirst : Bool) (updates : List (List Nat × List Nat))
    (remasters : List (List Nat × List Nat × List Nat)) : List CfgLine :=
  if remasterFirst then
    .remasterHeader :: remasters.map (fun r => .remaster r.1 r.2.1 r.2.2) ++
      .updateHeader :: updates.map (fun u => .update u.1 u.2)
  else
    .updateHeader :: updates.map (fun u => .update u.1 u.2) ++
      .remasterHeader :: remasters.map (fun r => .remaster r.1 r.2.1 r.2.2)

/-! ## Data model of a save-copy manifest -/

/-- One line `source=dest` of a manifest: the two path templates. -/
structure Directive where
  src : List Nat
  dst : List Nat
deriving DecidableEq, Repr

/-- Text of a manifest line (without the line end). -/
def Directive.render (d : Directive) : List Nat := d.src ++ 61 :: d.dst

/-- A well-formed manifest line: both templates are non-empty and free of NUL,
LF and `=`, and the destination does not end in CR. -/
def Directive.WellFormed (d : Directive) : Prop :=
  d.src ≠ [] ∧ d.dst ≠ [] ∧ (∀ c ∈ d.src, c ≠ 0 ∧ c ≠ 10 ∧ c ≠ 61) ∧
  (∀ c ∈ d.dst, c ≠ 0 ∧ c ≠ 10 ∧ c ≠ 61) ∧ d.dst.getLast? ≠ some 13

instance (d : Directive) : Decidable d.WellFormed := by
  unfold Directive.WellFormed; infer_instance

/-- The bytes of the line buffer behind a freshly read line `l` and its two
NULs: left over from what the buffer `line` held before. -/
def lineJunk (line l eol : List Nat) : List Nat :=
  List.replicate (eol.length - 1) 0 ++ line.drop (l.length + eol.length + 1)

/-- The line buffer after `fgets` and `remove_newline` have read the line `l`
(with line end `eol`) into the buffer `line`. -/
def lineBuffer (line l eol : List Nat) : List Nat := l ++ 0 :: 0 :: lineJunk line l eol

/-- The asset store as a map from path to bytes, given by its association
list: a path that is not listed cannot be opened, a listed file is read in
full. -/
def assetStore (files : List (List Nat × List Nat)) (path : List Nat) : SourceRead :=
  match files.lookup path with
  | none => .missing
  | some b => .data b

/-- The save container as a map from path to bytes, given by its association
list: a whole-file write replaces what the path held and returns 0. -/
def containerWrite (save : List (List Nat × List Nat)) (path data : List Nat) :
    Int × List (List Nat × List Nat) :=
  (0, (path, data) :: save.filter (fun e => e.1 ≠ path))

/-- A source template of 252 characters: forty-two times `a@!d9@`.  It fits a
manifest line (`<template>=x` has 254 characters). -/
def paddedSlotTemplate : List Nat :=
  (List.replicate 42 (bytes "a@!d9@")).foldr (fun seg acc => seg ++ acc) []

/-- One uppercase hex digit, as `printf("%X")` prints it. -/
def hexDigit (d : Nat) : Nat := if d < 10 then 48 + d else 55 + d

/-- The four uppercase hex digits a 16-bit remaster code is written with
(`%04X`), most significant first. -/
def hex4 (c : Nat) : List Nat :=
  [hexDigit (c / 4096 % 16), hexDigit (c / 256 % 16), hexDigit (c / 16 % 16), hexDigit (c % 16)]

/-! ## Path templates and directives of a manifest, as specified -/

/-- Text of a literal segment of a path template: no NUL, LF, `=` or `@`. -/
def PathText (t : List Nat) : Prop := ∀ c ∈ t, c ≠ 0 ∧ c ≠ 10 ∧ c ≠ 61 ∧ c ≠ 64

instance (t : List Nat) : Decidable (PathText t) := by unfold PathText; infer_instance

/-- Text that may stand in a manifest line: no NUL, LF or `=`. -/
def LineText (t : List Nat) : Prop := ∀ c ∈ t, c ≠ 0 ∧ c ≠ 10 ∧ c ≠ 61

instance (t : List Nat) : Decidable (LineText t) := by unfold LineText; infer_instance

/-- A path template as the specification describes it: literal text
interleaved with placeholders.  `lit text` is a literal that ends the
template; `slot pre width rest` is the literal `pre`, the slot placeholder
`@!d<width>@` and the rest of the template; `embed pre hex rest` is the literal
`pre`, the embed placeholder `@!p<8 hex digits>@` and the rest.  An invalid
template ends in a literal followed by `@!` and a character that names no
directive (`badChar`), or by `@!d` and a character that is no digit
(`badWidth`). -/
inductive Template where
  | lit (text : List Nat)
  | slot (pre : List Nat) (width : Nat) (rest : Template)
  | embed (pre hex : List Nat) (rest : Template)
  | badChar (pre : List Nat) (c : Nat) (tail : List Nat)
  | badWidth (pre : List Nat) (c : Nat) (tail : List Nat)
deriving DecidableEq, Repr

/-- Text of a template as it stands in a manifest line. -/
def Template.render : Template → List Nat
  | .lit text => text
  | .slot pre width rest => pre ++ 64 :: 33 :: 100 :: (48 + width) :: 64 :: rest.render
  | .embed pre hex rest => pre ++ 64 :: 33 :: 112 :: (hex ++ 64 :: rest.render)
  | .badChar pre c tail => pre ++ 64 :: 33 :: c :: tail
  | .badWidth pre c tail => pre ++ 64 :: 33 :: 100 :: c :: tail

/-- Whether a template is valid: it has no invalid directive. -/
def Template.valid : Template → Bool
  | .lit _ => true
  | .slot _ _ rest => rest.valid
  | .embed _ _ rest => rest.valid
  | .badChar _ _ _ => false
  | .badWidth _ _ _ => false

/-- The text a template produces when the slot number is `slot` (0..2): a
literal stands for itself, a slot placeholder becomes the slot number itself
(0-based, as the caller passes it), zero-padded on the left to `width`
characters, an embed placeholder is removed; an invalid directive ends the
text. -/
def Template.output (slot : Nat) : Template → List Nat
  | .lit text => text
  | .slot pre width rest =>
    pre ++ (List.replicate (width - 1) 48 ++ [48 + slot]) ++ rest.output slot
  | .embed pre _ rest => pre ++ rest.output slot
  | .badChar pre _ _ => pre
  | .badWidth pre _ _ => pre

/-- The path a template stands for: the text it produces; `none` for an
invalid template. -/
def Template.expand (slot : Nat) (t : Template) : Option (List Nat) :=
  if t.valid then some (t.output slot) else none

/-- Well-formed parts of a template: a literal in front of a placeholder or
of an invalid directive is not empty, literals are path text, the pad width is
1..9, the embed offset has eight hex digits; the offending character of an
invalid directive is not `d` or `p` (`badChar`) or not a digit (`badWidth`). -/
def Template.WellFormedParts : Template → Prop
  | .lit text => PathText text
  | .slot pre width rest =>
    pre ≠ [] ∧ PathText pre ∧ 1 ≤ width ∧ width ≤ 9 ∧ rest.WellFormedParts
  | .embed pre hex rest => pre ≠ [] ∧ PathText pre ∧ HexDigits 8 hex ∧ rest.WellFormedParts
  | .badChar pre c tail =>
    pre ≠ [] ∧ PathText pre ∧ c ≠ 100 ∧ c ≠ 112 ∧ LineText (c :: tail)
  | .badWidth pre c tail =>
    pre ≠ [] ∧ PathText pre ∧ (c < 48 ∨ 57 < c) ∧ LineText (c :: tail)

/-- Decision procedure for `Template.WellFormedParts`. -/
def Template.decWellFormedParts : (t : Template) → Decidable t.WellFormedParts
  | .lit text => inferInstanceAs (Decidable (PathText text))
  | .slot pre width rest =>
    let _ := Template.decWellFormedParts rest
    inferInstanceAs (Decidable
      (pre ≠ [] ∧ PathText pre ∧ 1 ≤ width ∧ width ≤ 9 ∧ rest.WellFormedParts))
  | .embed pre hex rest =>
    let _ := Template.decWellFormedParts rest
    inferInstanceAs (Decidable
      (pre ≠ [] ∧ PathText pre ∧ HexDigits 8 hex ∧ rest.WellFormedParts))
  | .badChar pre c tail =>
    inferInstanceAs (Decidable
      (pre ≠ [] ∧ PathText pre ∧ c ≠ 100 ∧ c ≠ 112 ∧ LineText (c :: tail)))
  | .badWidth pre c tail =>
    inferInstanceAs (Decidable
      (pre ≠ [] ∧ PathText pre ∧ (c < 48 ∨ 57 < c) ∧ LineText (c :: tail)))

instance (t : Template) : Decidable t.WellFormedParts := t.decWellFormedParts

/-- Well-formed templates: not empty, with well-formed parts. -/
def Template.WellFormed (t : Template) : Prop := t.render ≠ [] ∧ t.WellFormedParts

instance (t : Template) : Decidable t.WellFormed := by
  unfold Template.WellFormed; infer_instance

/-- A directive `source=dest` of a manifest, given by its two templates. -/
structure TemplateDirective where
  src : Template
  dst : Template
deriving DecidableEq, Repr

/-- The manifest line of a directive. -/
def TemplateDirective.line (d : TemplateDirective) : Directive := ⟨d.src.render, d.dst.render⟩

/-- Whether the expansion of a template, if it has one, satisfies `P`. -/
def Template.expandsWithin (slot : Nat) (t : Template) (P : List Nat → Prop) : Prop :=
  match t.expand slot with
  | some p => P p
  | none => True

instance (slot : Nat) (t : Template) (P : List Nat → Prop) [DecidablePred P] :
    Decidable (t.expandsWithin slot P) := by
  unfold Template.expandsWithin
  cases t.expand slot <;> infer_instance

/-- A directive the program is specified for: both templates are well formed;
the destination text does not begin with `!` and does not end in CR; the text
each template produces fits the 256-byte output buffer (at most 255
characters), and the expanded source path behind `savedir/` fits the 255-byte
path buffer. -/
def TemplateDirective.WellFormed (slot : Nat) (savedir : List Nat) (d : TemplateDirective) : Prop :=
  d.src.WellFormed ∧ d.dst.WellFormed ∧
  d.dst.render.head? ≠ some 33 ∧ d.dst.render.getLast? ≠ some 13 ∧
  (d.src.output slot).length ≤ 255 ∧ (d.dst.output slot).length ≤ 255 ∧
  d.src.expandsWithin slot (fun p => (savedir ++ 47 :: p).length ≤ 254)

instance (slot : Nat) (savedir : List Nat) (d : TemplateDirective) :
    Decidable (d.WellFormed slot savedir) := by
  unfold TemplateDirective.WellFormed; infer_instance

theorem takeWhile_append_stop (p : Nat → Bool) (a : List Nat) (x : Nat) (r : List Nat)
    (ha : ∀ c ∈ a, p c = true) (hx : p x = false) : (a ++ x :: r).takeWhile p = a := by
  induction a with
  | nil => simp [List.takeWhile, hx]
  | cons c cs ih =>
    have hc : p c = true := ha c (by simp)
    have ih2 := ih (fun c hc => ha c (by simp [hc]))
    simp [List.takeWhile, hc, ih2]

theorem takeWhile_all (p : Nat → Bool) (a : List Nat) (ha : ∀ c ∈ a, p c = true) :
    a.takeWhile p = a := by
  induction a with
  | nil => rfl
  | cons c cs ih =>
    have hc : p c = true := ha c (by simp)
    simp [List.takeWhile, hc, ih (fun c hc => ha c (by simp [hc]))]

theorem drop_pre (pre s : List Nat) : (pre ++ s).drop pre.length = s := by
  induction pre with
  | nil => rfl
  | cons c cs ih => simp

theorem peek_pre (pre : List Nat) (x : Nat) (r : List Nat) : peek (pre ++ x :: r) pre.length = x := by
  induction pre with
  | nil => rfl
  | cons c cs ih => simpa [peek] using ih

theorem peek_pre_nil (pre : List Nat) : peek pre pre.length = 0 := by
  simp [peek]

theorem set_pre (pre : List Nat) (x y : Nat) (r : List Nat) :
    (pre ++ x :: r).set pre.length y = pre ++ y :: r := by
  simp

theorem cstr_at (pre tok rest : List Nat) (h0 : ∀ c ∈ tok, c ≠ 0) :
    cstr (pre ++ tok ++ 0 :: rest) pre.length = tok := by
  unfold cstr
  rw [List.append_assoc, drop_pre]
  exact takeWhile_append_stop _ tok 0 rest (fun c hc => by simpa using h0 c hc) (by simp)

theorem cstr_zero (tok rest : List Nat) (h0 : ∀ c ∈ tok, c ≠ 0) :
    cstr (tok ++ 0 :: rest) 0 = tok := by
  simpa using cstr_at [] tok rest h0

/-- A token that is followed by a delimiter: `strtok` skips the `k` leading
delimiters, overwrites the closing one and saves the position behind it. -/
theorem strtok_delim (pre tok rest : List Nat) (k d : Nat) (s last : Option Nat)
    (hs : s.orElse (fun _ => last) = some pre.length) (hd : d ≠ 0) (hne : tok ≠ [])
    (htok : ∀ c ∈ tok, c ≠ 0 ∧ c ≠ d) :
    strtok (pre ++ List.replicate k d ++ tok ++ d :: rest) s last d =
      ⟨pre ++ List.replicate k d ++ tok ++ 0 :: rest, some (pre.length + k + tok.length + 1),
        some (pre.length + k)⟩ := by
  obtain ⟨t0, ts, rfl⟩ := List.exists_cons_of_ne_nil hne
  have ht0 := htok t0 (by simp)
  unfold strtok
  rw [hs]
  have h1 : ((pre ++ List.replicate k d ++ (t0 :: ts) ++ d :: rest).drop pre.length).takeWhile
      (fun c => c == d) = List.replicate k d := by
    rw [List.append_assoc, List.append_assoc, drop_pre, List.cons_append]
    exact takeWhile_append_stop _ _ t0 _ (fun c hc => by simp [List.eq_of_mem_replicate hc])
      (by simp [ht0.2])
  have hb : pre.length + k = (pre ++ List.replicate k d).length := by simp
  have h2 : ((pre ++ List.replicate k d ++ (t0 :: ts) ++ d :: rest).drop (pre.length + k)).takeWhile
      (fun c => c != 0 && c != d) = t0 :: ts := by
    rw [hb, List.append_assoc, drop_pre]
    exact takeWhile_append_stop _ _ d rest (fun c hc => by simpa using htok c hc) (by simp)
  have h3 : peek (pre ++ List.replicate k d ++ (t0 :: ts) ++ d :: rest) (pre.length + k) = t0 := by
    rw [hb, List.append_assoc]; exact peek_pre _ _ _
  have he : pre.length + k + (t0 :: ts).length = (pre ++ List.replicate k d ++ (t0 :: ts)).length := by
    simp; omega
  have h4 : peek (pre ++ List.replicate k d ++ (t0 :: ts) ++ d :: rest)
      (pre.length + k + (t0 :: ts).length) = d := by
    rw [he]; exact peek_pre _ _ _
  have h5 : (pre ++ List.replicate k d ++ (t0 :: ts) ++ d :: rest).set
      (pre.length + k + (t0 :: ts).length) 0 = pre ++ List.replicate k d ++ (t0 :: ts) ++ 0 :: rest := by
    rw [he]; exact set_pre _ _ _ _
  simp only [h1, h2, h3, h4, h5, List.length_replicate, ht0.1, hd, if_false]

/-- A token that runs up to the terminating NUL: the saved pointer becomes
NULL and the buffer is unchanged. -/
theorem strtok_end (pre tok rest : List Nat) (k d : Nat) (s last : Option Nat)
    (hs : s.orElse (fun _ => last) = some pre.length) (hne : tok ≠ [])
    (htok : ∀ c ∈ tok, c ≠ 0 ∧ c ≠ d) :
    strtok (pre ++ List.replicate k d ++ tok ++ 0 :: rest) s last d =
      ⟨pre ++ List.replicate k d ++ tok ++ 0 :: rest, none, some (pre.length + k)⟩ := by
  obtain ⟨t0, ts, rfl⟩ := List.exists_cons_of_ne_nil hne
  have ht0 := htok t0 (by simp)
  unfold strtok
  rw [hs]
  have h1 : ((pre ++ List.replicate k d ++ (t0 :: ts) ++ 0 :: rest).drop pre.length).takeWhile
      (fun c => c == d) = List.replicate k d := by
    rw [List.append_assoc, List.append_assoc, drop_pre, List.cons_append]
    exact takeWhile_append_stop _ _ t0 _ (fun c hc => by simp [List.eq_of_mem_replicate hc])
      (by simp [ht0.2])
  have hb : pre.length + k = (pre ++ List.replicate k d).length := by simp
  have h2 : ((pre ++ List.replicate k d ++ (t0 :: ts) ++ 0 :: rest).drop (pre.length + k)).takeWhile
      (fun c => c != 0 && c != d) = t0 :: ts := by
    rw [hb, List.append_assoc, drop_pre]
    exact takeWhile_append_stop _ _ 0 rest (fun c hc => by simpa using htok c hc) (by simp)
  have h3 : peek (pre ++ List.replicate k d ++ (t0 :: ts) ++ 0 :: rest) (pre.length + k) = t0 := by
    rw [hb, List.append_assoc]; exact peek_pre _ _ _
  have he : pre.length + k + (t0 :: ts).length = (pre ++ List.replicate k d ++ (t0 :: ts)).length := by
    simp; omega
  have h4 : peek (pre ++ List.replicate k d ++ (t0 :: ts) ++ 0 :: rest)
      (pre.length + k + (t0 :: ts).length) = 0 := by
    rw [he]; exact peek_pre _ _ _
  simp only [h1, h2, h3, h4, List.length_replicate, ht0.1, if_false, if_true]

/-- Only delimiters are left before the terminating NUL: `strtok` returns NULL. -/
theorem strtok_none (pre rest : List Nat) (k d : Nat) (s last : Option Nat)
    (hs : s.orElse (fun _ => last) = some pre.length) (hd : d ≠ 0) :
    strtok (pre ++ List.replicate k d ++ 0 :: rest) s last d =
      ⟨pre ++ List.replicate k d ++ 0 :: rest, none, none⟩ := by
  unfold strtok
  rw [hs]
  have h1 : ((pre ++ List.replicate k d ++ 0 :: rest).drop pre.length).takeWhile
      (fun c => c == d) = List.replicate k d := by
    rw [List.append_assoc, drop_pre]
    exact takeWhile_append_stop _ _ 0 _ (fun c hc => by simp [List.eq_of_mem_replicate hc])
      (by simp [Ne.symm hd])
  have hb : pre.length + k = (pre ++ List.replicate k d).length := by simp
  have h3 : peek (pre ++ List.replicate k d ++ 0 :: rest) (pre.length + k) = 0 := by
    rw [hb]; exact peek_pre _ _ _
  simp only [h1, h3, List.length_replicate, if_true]

theorem strtok_null (m : List Nat) (d : Nat) : strtok m none none d = ⟨m, none, none⟩ := rfl

/-! ### Reading one line: `fgets` followed by `remove_newline` -/

theorem fgets_take_line (l f : List Nat) (n : Nat) (h10 : ∀ c ∈ l, c ≠ 10) (hlen : l.length < n) :
    fgets_take n (l ++ 10 :: f) = l ++ [10] := by
  induction l generalizing n with
  | nil =>
    cases n with
    | zero => omega
    | succ n => simp [fgets_take]
  | cons c cs ih =>
    cases n with
    | zero => omega
    | succ n =>
      have hc : c ≠ 10 := h10 c (by simp)
      have := ih n (fun c hc => h10 c (by simp [hc])) (by simp at hlen; omega)
      simp [fgets_take, hc, this]

theorem strlen_zero_pre (tok rest : List Nat) (h0 : ∀ c ∈ tok, c ≠ 0) :
    strlen (tok ++ 0 :: rest) 0 = tok.length := by
  unfold strlen; rw [cstr_zero tok rest h0]

/-- One pass through `fgets(line, sizeof(line) - 1, f)` and `remove_newline`
on a stream that starts with the line `l` and a line end (`\n` or `\r\n`)
that fit the buffer together: the buffer then holds `l` followed by two NULs
and the stream continues behind the line end. -/
theorem read_line_buffer (line l eol f : List Nat) (heol : eol = [10] ∨ eol = [13, 10])
    (hl : ∀ c ∈ l, c ≠ 0 ∧ c ≠ 10) (hcr : l.getLast? ≠ some 13)
    (hlen : l.length + eol.length ≤ 254) :
    ∃ line1, fgets line 255 (l ++ eol ++ f) = some (line1, f) ∧
      remove_newline line1 = lineBuffer line l eol := by
  suffices h : ∃ line1 junk, (fgets line 255 (l ++ eol ++ f) = some (line1, f) ∧
      remove_newline line1 = l ++ 0 :: 0 :: junk) ∧ junk = lineJunk line l eol by
    obtain ⟨line1, junk, ⟨h1, h2⟩, rfl⟩ := h
    exact ⟨line1, h1, h2⟩
  rcases heol with rfl | rfl
  · have h1 : fgets_take 254 (l ++ 10 :: f) = l ++ [10] :=
      fgets_take_line l f 254 (fun c hc => (hl c hc).2) (by simp at hlen; omega)
    refine ⟨l ++ [10] ++ 0 :: line.drop (l.length + 1 + 1), line.drop (l.length + 1 + 1), ⟨?_, ?_⟩,
      by simp [lineJunk]⟩
    · simp [fgets, h1]
    · have hs : strlen (l ++ [10] ++ 0 :: line.drop (l.length + 1 + 1)) 0 = l.length + 1 := by
        rw [strlen_zero_pre]
        · simp
        · intro c hc
          simp at hc
          rcases hc with hc | rfl
          · exact (hl c hc).1
          · decide
      unfold remove_newline
      simp only [hs]
      have hp : peek (l ++ [10] ++ 0 :: line.drop (l.length + 1 + 1)) (l.length + 1 - 1) = 10 := by
        rw [List.append_assoc]; simpa using peek_pre l 10 _
      have hset : (l ++ [10] ++ 0 :: line.drop (l.length + 1 + 1)).set (l.length + 1 - 1) 0 =
          l ++ 0 :: 0 :: line.drop (l.length + 1 + 1) := by
        rw [List.append_assoc]; simpa using set_pre l 10 0 _
      simp only [hp, hset, Nat.succ_ne_zero, if_false, if_true]
      have hno : ¬ (l.length + 1 > 1 ∧ peek (l ++ 0 :: 0 :: line.drop (l.length + 1 + 1))
          (l.length + 1 - 2) = 13) := by
        rintro ⟨h1, h2⟩
        obtain ⟨l', x, rfl⟩ : ∃ l' x, l = l' ++ [x] := by
          rcases List.eq_nil_or_concat l with h | ⟨l', x, h⟩
          · subst h; simp at h1
          · exact ⟨l', x, by simpa using h⟩
        have : peek (l' ++ [x] ++ 0 :: 0 :: line.drop ((l' ++ [x]).length + 1 + 1))
            ((l' ++ [x]).length + 1 - 2) = x := by
          rw [List.append_assoc]; simpa using peek_pre l' x _
        rw [this] at h2
        subst h2
        simp at hcr
      simp only [hno, if_false]
  · have h1 : fgets_take 254 ((l ++ [13]) ++ 10 :: f) = (l ++ [13]) ++ [10] :=
      fgets_take_line (l ++ [13]) f 254 (fun c hc => by
        simp at hc
        rcases hc with hc | rfl
        · exact (hl c hc).2
        · decide) (by simp at hlen ⊢; omega)
    refine ⟨l ++ [13, 10] ++ 0 :: line.drop (l.length + 2 + 1), 0 :: line.drop (l.length + 2 + 1),
      ⟨?_, ?_⟩, by simp [lineJunk]⟩
    · simp only [List.append_assoc, List.singleton_append, List.cons_append, List.nil_append] at h1
      simp [fgets, h1]
    · have hs : strlen (l ++ [13, 10] ++ 0 :: line.drop (l.length + 2 + 1)) 0 = l.length + 2 := by
        rw [strlen_zero_pre]
        · simp
        · intro c hc
          simp at hc
          rcases hc with hc | rfl | rfl
          · exact (hl c hc).1
          · decide
          · decide
      unfold remove_newline
      simp only [hs]
      have hp : peek (l ++ [13, 10] ++ 0 :: line.drop (l.length + 2 + 1)) (l.length + 2 - 1) = 10 := by
        have := peek_pre (l ++ [13]) 10 (0 :: line.drop (l.length + 2 + 1))
        simpa using this
      have hset : (l ++ [13, 10] ++ 0 :: line.drop (l.length + 2 + 1)).set (l.length + 2 - 1) 0 =
          l ++ 13 :: 0 :: 0 :: line.drop (l.length + 2 + 1) := by
        have := set_pre (l ++ [13]) 10 0 (0 :: line.drop (l.length + 2 + 1))
        simpa using this
      have hp2 : peek (l ++ 13 :: 0 :: 0 :: line.drop (l.length + 2 + 1)) (l.length + 2 - 2) = 13 := by
        simpa using peek_pre l 13 _
      have hset2 : (l ++ 13 :: 0 :: 0 :: line.drop (l.length + 2 + 1)).set (l.length + 2 - 2) 0 =
          l ++ 0 :: 0 :: 0 :: line.drop (l.length + 2 + 1) := by
        simpa using set_pre l 13 0 _
      have hgt : l.length + 2 > 1 := by omega
      simp only [hp, hset, hp2, hset2, hgt, and_self, if_true]
      simp

theorem read_line (line l eol f : List Nat) (heol : eol = [10] ∨ eol = [13, 10])
    (hl : ∀ c ∈ l, c ≠ 0 ∧ c ≠ 10) (hcr : l.getLast? ≠ some 13)
    (hlen : l.length + eol.length ≤ 254) :
    ∃ line1 junk, fgets line 255 (l ++ eol ++ f) = some (line1, f) ∧
      remove_newline line1 = l ++ 0 :: 0 :: junk := by
  obtain ⟨line1, h1, h2⟩ := read_line_buffer line l eol f heol hl hcr hlen
  exact ⟨line1, lineJunk line l eol, h1, h2⟩

/-! ### Integer conversions of `sscanf` on plain digit strings -/

theorem isxdigit_range (c : Nat) (h : isxdigit c = true) :
    (48 ≤ c ∧ c ≤ 57) ∨ (65 ≤ c ∧ c ≤ 70) ∨ (97 ≤ c ∧ c ≤ 102) := by
  simp [isxdigit] at h
  omega

theorem isdigit_range (c : Nat) (h : isdigit c = true) : 48 ≤ c ∧ c ≤ 57 := by
  simp [isdigit] at h
  omega

theorem isdigit_isxdigit (c : Nat) (h : isdigit c = true) : isxdigit c = true := by
  have := isdigit_range c h
  simp [isxdigit]
  omega

theorem not_isspace_of_ge (c : Nat) (h : 33 ≤ c) : isspace c = false := by
  simp [isspace]
  omega

theorem digitVal_lt (c : Nat) (h : isxdigit c = true) : digitVal c < 16 := by
  have := isxdigit_range c h
  unfold digitVal
  split_ifs
  all_goals omega

theorem digitVal_lt_ten (c : Nat) (h : isdigit c = true) : digitVal c < 10 := by
  have := isdigit_range c h
  unfold digitVal
  split_ifs
  omega

theorem numVal_append (base : Nat) (a b : List Nat) :
    numVal base (a ++ b) = numVal base a * base ^ b.length + numVal base b := by
  have key : ∀ (b : List Nat) (acc : Nat),
      b.foldl (fun a c => a * base + digitVal c) acc =
        acc * base ^ b.length + b.foldl (fun a c => a * base + digitVal c) 0 := by
    intro b
    induction b with
    | nil => intro acc; simp
    | cons x xs ih =>
      intro acc
      simp only [List.foldl_cons, List.length_cons]
      rw [ih (acc * base + digitVal x), ih (0 * base + digitVal x), pow_succ]
      ring
  unfold numVal
  rw [List.foldl_append, key b]

theorem numVal_lt (ds : List Nat) (hx : ∀ c ∈ ds, isxdigit c = true) :
    numVal 16 ds < 16 ^ ds.length := by
  induction ds using List.reverseRecOn with
  | nil => simp [numVal]
  | append_singleton bs x ih =>
    have h1 := ih (fun c hc => hx c (by simp [hc]))
    have h2 := digitVal_lt x (hx x (by simp))
    rw [numVal_append]
    have : numVal 16 [x] = digitVal x := by simp [numVal]
    rw [this]
    simp only [List.length_append, List.length_singleton, pow_succ, pow_zero, one_mul]
    nlinarith

/-- On a non-empty string of hex digits that fits the field width, a `%x`
conversion yields its value. -/
theorem scanInt_hex (ds : List Nat) (w : Option Nat) (hne : ds ≠ [])
    (hx : ∀ c ∈ ds, isxdigit c = true) (hw : ∀ n, w = some n → ds.length ≤ n) :
    scanInt 16 w ds = some (false, numVal 16 ds) := by
  obtain ⟨c, cs, rfl⟩ := List.exists_cons_of_ne_nil hne
  have hc := isxdigit_range c (hx c (by simp))
  have hsp : isspace c = false := not_isspace_of_ge c (by omega)
  have h1 : (c :: cs).dropWhile isspace = c :: cs := by simp [List.dropWhile, hsp]
  have h2 : takeWidth w (c :: cs) = c :: cs := by
    cases w with
    | none => rfl
    | some n => exact List.take_of_length_le (hw n rfl)
  have h45 : c ≠ 45 := by omega
  have h43 : c ≠ 43 := by omega
  have h3 : ((c :: cs).take 2 == [48, 120] || (c :: cs).take 2 == [48, 88]) = false := by
    cases cs with
    | nil => simp
    | cons c2 cs2 =>
      have hc2 := isxdigit_range c2 (hx c2 (by simp))
      have : c2 ≠ 120 ∧ c2 ≠ 88 := by omega
      simp [this.1, this.2]
  have h4 : (c :: cs).takeWhile (fun c => if (16 == 16) = true then isxdigit c else isdigit c) = c :: cs :=
    takeWhile_all _ _ (fun c hc => by simpa using hx c hc)
  have hA : (some c == some 45) = false := by simp [h45]
  have hB : (some c == some 43) = false := by simp [h43]
  unfold scanInt
  simp only [h1, h2, List.head?_cons, hA, hB, Bool.or_false, Bool.false_eq_true, if_false, h3,
    Bool.and_false, h4]
  simp

/-- On a non-empty string of decimal digits a `%u` conversion yields its value. -/
theorem scanInt_dec (ds : List Nat) (hne : ds ≠ []) (hx : ∀ c ∈ ds, isdigit c = true) :
    scanInt 10 none ds = some (false, numVal 10 ds) := by
  obtain ⟨c, cs, rfl⟩ := List.exists_cons_of_ne_nil hne
  have hc := isdigit_range c (hx c (by simp))
  have hsp : isspace c = false := not_isspace_of_ge c (by omega)
  have h1 : (c :: cs).dropWhile isspace = c :: cs := by simp [List.dropWhile, hsp]
  have h45 : c ≠ 45 := by omega
  have h43 : c ≠ 43 := by omega
  have h4 : (c :: cs).takeWhile (fun c => if (10 == 16) = true then isxdigit c else isdigit c) = c :: cs :=
    takeWhile_all _ _ (fun c hc => by simpa using hx c hc)
  have h5 : (c :: cs).takeWhile (fun c => isdigit c) = c :: cs :=
    takeWhile_all _ _ (fun c hc => by simpa using hx c hc)
  have hA : (some c == some 45) = false := by simp [h45]
  have hB : (some c == some 43) = false := by simp [h43]
  have hC : (10 == 16) = false := by decide
  unfold scanInt
  simp only [h1, takeWidth, List.head?_cons, hA, hB, hC, Bool.or_false, Bool.false_eq_true, if_false,
    Bool.false_and, h5]
  simp

theorem sscanf_016llx_hex (ds : List Nat) (hlen : ds.length = 16)
    (hx : ∀ c ∈ ds, isxdigit c = true) : sscanf_016llx ds = some (numVal 16 ds) := by
  have hne : ds ≠ [] := by intro h; simp [h] at hlen
  have hlt := numVal_lt ds hx
  rw [hlen] at hlt
  unfold sscanf_016llx
  rw [scanInt_hex ds (some 16) hne hx (fun n hn => by cases hn; omega)]
  simp only [Option.map_some', toUnsigned]
  rw [if_neg (by norm_num at hlt ⊢; omega), if_neg (by simp)]

theorem sscanf_04X_hex (ds : List Nat) (hlen : ds.length = 4)
    (hx : ∀ c ∈ ds, isxdigit c = true) : sscanf_04X ds = some (numVal 16 ds) := by
  have hne : ds ≠ [] := by intro h; simp [h] at hlen
  have hlt := numVal_lt ds hx
  rw [hlen] at hlt
  unfold sscanf_04X
  rw [scanInt_hex ds (some 4) hne hx (fun n hn => by cases hn; omega)]
  simp only [Option.map_some', toUnsigned]
  rw [if_neg (by norm_num at hlt ⊢; omega), if_neg (by simp)]

theorem sscanf_0x_lx_hex (ds : List Nat) (hne : ds ≠ []) (hlen : ds.length ≤ 8)
    (hx : ∀ c ∈ ds, isxdigit c = true) : sscanf_0x_lx (48 :: 120 :: ds) = some (numVal 16 ds) := by
  have hlt := numVal_lt ds hx
  have hle : 16 ^ ds.length ≤ 16 ^ 8 := Nat.pow_le_pow_right (by norm_num) hlen
  unfold sscanf_0x_lx
  simp only []
  rw [scanInt_hex ds none hne hx (fun n hn => by cases hn)]
  simp only [Option.map_some', toUnsigned]
  rw [if_neg (by norm_num at hle ⊢; omega), if_neg (by simp)]

/-! ### `load_exploitlist_config` on well-formed files -/

theorem strtok_delim0 (pre tok rest : List Nat) (d : Nat) (s last : Option Nat)
    (hs : s.orElse (fun _ => last) = some pre.length) (hd : d ≠ 0) (hne : tok ≠ [])
    (htok : ∀ c ∈ tok, c ≠ 0 ∧ c ≠ d) :
    strtok (pre ++ tok ++ d :: rest) s last d =
      ⟨pre ++ tok ++ 0 :: rest, some (pre.length + tok.length + 1), some pre.length⟩ := by
  simpa using strtok_delim pre tok rest 0 d s last hs hd hne htok

theorem strtok_end0 (pre tok rest : List Nat) (d : Nat) (s last : Option Nat)
    (hs : s.orElse (fun _ => last) = some pre.length) (hne : tok ≠ [])
    (htok : ∀ c ∈ tok, c ≠ 0 ∧ c ≠ d) :
    strtok (pre ++ tok ++ 0 :: rest) s last d = ⟨pre ++ tok ++ 0 :: rest, none, some pre.length⟩ := by
  simpa using strtok_end pre tok rest 0 d s last hs hne htok

theorem strtok_first (tok rest : List Nat) (d : Nat) (last : Option Nat) (hd : d ≠ 0)
    (hne : tok ≠ []) (htok : ∀ c ∈ tok, c ≠ 0 ∧ c ≠ d) :
    strtok (tok ++ d :: rest) (some 0) last d = ⟨tok ++ 0 :: rest, some (tok.length + 1), some 0⟩ := by
  simpa using strtok_delim0 [] tok rest d (some 0) last rfl hd hne htok

theorem hexdigits_tok {k : Nat} {ds : List Nat} (h : HexDigits k ds) (d : Nat) (hd : d < 48) :
    ∀ c ∈ ds, c ≠ 0 ∧ c ≠ d := by
  intro c hc
  have := isxdigit_range c (h.2 c hc)
  omega

theorem idsText_length (ids : List (List Nat)) : ids.length ≤ (idsText ids).length := by
  induction ids with
  | nil => simp [idsText]
  | cons i is ih => simp [idsText]; omega

theorem programid_loop_ids (q : Nat) (hq : q ≠ 0) :
    ∀ (ids : List (List Nat)) (i pre R : List Nat) (fuel : Nat),
      (∀ j ∈ i :: ids, HexDigits 16 j) → ids.length + 2 ≤ fuel →
      ∃ X, programid_loop q fuel (pre ++ i ++ idsText ids ++ 0 :: R) (some pre.length) =
        some ((i :: ids).any (fun j => numVal 16 j == q), pre ++ X) := by
  intro ids
  induction ids with
  | nil =>
    intro i pre R fuel hwf hfuel
    obtain ⟨fuel1, rfl⟩ : ∃ f, fuel = f + 1 := ⟨fuel - 1, by omega⟩
    obtain ⟨fuel2, rfl⟩ : ∃ f, fuel1 = f + 1 := ⟨fuel1 - 1, by simp at hfuel; omega⟩
    have hi := hwf i (by simp)
    have hne : i ≠ [] := by intro h; have := hi.1; simp [h] at this
    have ht := strtok_end0 pre i R 32 none (some pre.length) rfl hne (hexdigits_tok hi 32 (by omega))
    have hc : cstr (pre ++ i ++ 0 :: R) pre.length = i :=
      cstr_at pre i R (fun c hc => (hexdigits_tok hi 32 (by omega) c hc).1)
    refine ⟨i ++ 0 :: R, ?_⟩
    simp only [idsText, List.append_nil]
    unfold programid_loop
    simp only [ht, hc, sscanf_016llx_hex i hi.1 hi.2, Option.getD_some]
    by_cases h0 : numVal 16 i = 0
    · have : (numVal 16 i == q) = false := by simp [h0, Ne.symm hq]
      simp [h0, this, programid_loop, strtok_null, Ne.symm hq]
    · by_cases h1 : q = numVal 16 i
      · simp [h0, h1]
      · have : (numVal 16 i == q) = false := by simp [Ne.symm h1]
        simp [h0, h1, this, programid_loop, strtok_null]
  | cons j js ih =>
    intro i pre R fuel hwf hfuel
    obtain ⟨fuel1, rfl⟩ : ∃ f, fuel = f + 1 := ⟨fuel - 1, by omega⟩
    have hi := hwf i (by simp)
    have hne : i ≠ [] := by intro h; have := hi.1; simp [h] at this
    have hbuf : pre ++ i ++ idsText (j :: js) ++ 0 :: R =
        pre ++ i ++ 32 :: (j ++ idsText js ++ 0 :: R) := by simp [idsText]
    have ht := strtok_delim0 pre i (j ++ idsText js ++ 0 :: R) 32 none (some pre.length) rfl
      (by decide) hne (hexdigits_tok hi 32 (by omega))
    have hc : cstr (pre ++ i ++ 0 :: (j ++ idsText js ++ 0 :: R)) pre.length = i :=
      cstr_at pre i _ (fun c hc => (hexdigits_tok hi 32 (by omega) c hc).1)
    obtain ⟨X, hX⟩ := ih j (pre ++ i ++ [0]) R fuel1 (fun k hk => hwf k (by simp [hk]))
      (by simp at hfuel ⊢; omega)
    have hX2 : programid_loop q fuel1 (pre ++ i ++ 0 :: (j ++ idsText js ++ 0 :: R))
        (some (pre.length + i.length + 1)) =
        some ((j :: js).any (fun j => numVal 16 j == q), pre ++ (i ++ 0 :: X)) := by
      have := hX
      simp only [List.append_assoc, List.length_append, List.length_singleton, List.singleton_append,
        List.cons_append, List.nil_append] at this ⊢
      rw [← Nat.add_assoc] at this
      exact this
    rw [hbuf]
    unfold programid_loop
    simp only [ht, hc, sscanf_016llx_hex i hi.1 hi.2, Option.getD_some]
    by_cases h0 : numVal 16 i = 0
    · have : (numVal 16 i == q) = false := by simp [h0, Ne.symm hq]
      refine ⟨i ++ 0 :: X, ?_⟩
      simp only [h0, if_true, hX2]
      simp [this, h0, Ne.symm hq]
    · by_cases h1 : q = numVal 16 i
      · refine ⟨i ++ 0 :: (j ++ idsText js ++ 0 :: R), ?_⟩
        simp [h0, h1]
      · have : (numVal 16 i == q) = false := by simp [Ne.symm h1]
        refine ⟨i ++ 0 :: X, ?_⟩
        simp only [h0, h1, if_false, hX2]
        simp [this]

theorem getLast?_append_ne (a b : List Nat) (x : Nat) (hb : b ≠ []) (hx : ∀ c ∈ b, c ≠ x) :
    (a ++ b).getLast? ≠ some x := by
  intro h
  rw [List.getLast?_append_of_ne_nil a hb, List.getLast?_eq_getLast b hb] at h
  exact hx _ (List.getLast_mem hb) (Option.some.inj h)

theorem idsText_chars (ids : List (List Nat)) (h : ∀ i ∈ ids, HexDigits 16 i) :
    ∀ c ∈ idsText ids, c ≠ 0 ∧ c ≠ 10 ∧ c ≠ 13 := by
  induction ids with
  | nil => simp [idsText]
  | cons i is ih =>
    intro c hc
    simp only [idsText, List.cons_append, List.mem_cons, List.mem_append] at hc
    rcases hc with rfl | hc | hc
    · decide
    · have := isxdigit_range c ((h i (by simp)).2 c hc); omega
    · exact ih (fun k hk => h k (by simp [hk])) c hc

theorem exploitListEntry_render_chars (e : ExploitListEntry) (h : e.WellFormed) :
    (∀ c ∈ e.render, c ≠ 0 ∧ c ≠ 10) ∧ e.render.getLast? ≠ some 13 := by
  obtain ⟨hn, ht, hf, _, hfx, hids⟩ := h
  constructor
  · intro c hc
    simp only [ExploitListEntry.render, List.mem_append, List.mem_cons] at hc
    rcases hc with ((hc | rfl | hc) | rfl | rfl | rfl | hc) | hc
    · exact ⟨(hn.2.2 c hc).1, (hn.2.2 c hc).2.2⟩
    · decide
    · exact ⟨(ht.2.2 c hc).1, (ht.2.2 c hc).2.2⟩
    · decide
    · decide
    · decide
    · have := isxdigit_range c (hfx c hc); omega
    · have := idsText_chars _ hids c hc; exact ⟨this.1, this.2.1⟩
  · have : e.render = (e.exploitName ++ 32 :: e.titleName ++ [32]) ++
        ((48 :: 120 :: e.flagsHex) ++ idsText e.programIds) := by
      simp [ExploitListEntry.render]
    rw [this]
    apply getLast?_append_ne _ _ 13 (by simp)
    intro c hc
    simp only [List.cons_append, List.mem_cons, List.mem_append] at hc
    rcases hc with rfl | rfl | hc | hc
    · decide
    · decide
    · have := isxdigit_range c (hfx c hc); omega
    · exact (idsText_chars _ hids c hc).2.2

theorem exploitlist_loop_file (q : Nat) (hq : q ≠ 0) (eol : List Nat)
    (heol : eol = [10] ∨ eol = [13, 10]) :
    ∀ (es : List ExploitListEntry) (line : List Nat) (flags fuel : Nat),
      (∀ e ∈ es, e.WellFormed ∧ e.render.length + eol.length ≤ 254) → es.length + 1 ≤ fuel →
      exploitlist_loop q fuel line (exploitListFile eol es) flags =
        some (selectProfile q es flags) := by
  intro es
  induction es with
  | nil =>
    intro line flags fuel _ hfuel
    obtain ⟨fuel1, rfl⟩ : ∃ f, fuel = f + 1 := ⟨fuel - 1, by omega⟩
    simp [exploitlist_loop, exploitListFile, fgets, fgets_take, selectProfile]
  | cons e es ih =>
    intro line flags fuel hwf hfuel
    obtain ⟨fuel1, rfl⟩ : ∃ f, fuel = f + 1 := ⟨fuel - 1, by omega⟩
    have he := hwf e (by simp)
    obtain ⟨hn, ht, hf, hf8, hfx, hids⟩ := he.1
    have hch := exploitListEntry_render_chars e he.1
    obtain ⟨line1, junk, hfg, hrm⟩ :=
      read_line line e.render eol (exploitListFile eol es) heol hch.1 hch.2 he.2
    have ih' := fun line flags => ih line flags fuel1 (fun e he => hwf e (by simp [he]))
      (by simp at hfuel; omega)
    have hlen : strlen (e.render ++ 0 :: 0 :: junk) 0 ≠ 0 := by
      rw [strlen_zero_pre _ _ (fun c hc => (hch.1 c hc).1)]
      simp [ExploitListEntry.render]
    -- the three leading tokens
    have hntok : ∀ c ∈ e.exploitName, c ≠ 0 ∧ c ≠ 32 := fun c hc => ⟨(hn.2.2 c hc).1, (hn.2.2 c hc).2.1⟩
    have httok : ∀ c ∈ e.titleName, c ≠ 0 ∧ c ≠ 32 := fun c hc => ⟨(ht.2.2 c hc).1, (ht.2.2 c hc).2.1⟩
    have hftok : ∀ c ∈ (48 :: 120 :: e.flagsHex), c ≠ 0 ∧ c ≠ 32 := by
      intro c hc
      simp only [List.mem_cons] at hc
      rcases hc with rfl | rfl | hc
      · decide
      · decide
      · have := isxdigit_range c (hfx c hc); omega
    have hb0 : e.render ++ 0 :: 0 :: junk = e.exploitName ++
        32 :: (e.titleName ++ 32 :: ((48 :: 120 :: e.flagsHex) ++
          (idsText e.programIds ++ 0 :: 0 :: junk))) := by
      simp [ExploitListEntry.render]
    have ht1 := strtok_first e.exploitName (e.titleName ++ 32 :: ((48 :: 120 :: e.flagsHex) ++
          (idsText e.programIds ++ 0 :: 0 :: junk))) 32 none (by decide) hn.1 hntok
    have hb1 : e.exploitName ++ 0 :: (e.titleName ++ 32 :: ((48 :: 120 :: e.flagsHex) ++
          (idsText e.programIds ++ 0 :: 0 :: junk))) =
        (e.exploitName ++ [0]) ++ e.titleName ++ 32 :: ((48 :: 120 :: e.flagsHex) ++
          (idsText e.programIds ++ 0 :: 0 :: junk)) := by simp
    have ht2 := strtok_delim0 (e.exploitName ++ [0]) e.titleName ((48 :: 120 :: e.flagsHex) ++
          (idsText e.programIds ++ 0 :: 0 :: junk)) 32 none
          (some (e.exploitName.length + 1)) (by simp) (by decide) ht.1 httok
    have hb2 : (e.exploitName ++ [0]) ++ e.titleName ++ 0 :: ((48 :: 120 :: e.flagsHex) ++
          (idsText e.programIds ++ 0 :: 0 :: junk)) =
        (e.exploitName ++ 0 :: e.titleName ++ [0]) ++ (48 :: 120 :: e.flagsHex) ++
          (idsText e.programIds ++ 0 :: 0 :: junk) := by simp
    have hfl : ∀ R, (sscanf_0x_lx (cstr ((e.exploitName ++ 0 :: e.titleName ++ [0]) ++
        (48 :: 120 :: e.flagsHex) ++ 0 :: R) (e.exploitName ++ 0 :: e.titleName ++ [0]).length)).getD 0 =
        numVal 16 e.flagsHex := by
      intro R
      rw [cstr_at _ _ _ (fun c hc => (hftok c hc).1), sscanf_0x_lx_hex _ hf hf8 hfx]
      rfl
    unfold exploitlist_loop
    simp only [exploitListFile, hfg, hrm, hlen, if_false]
    rw [hb0, ht1]
    simp only []
    rw [hb1, ht2]
    simp only []
    rw [hb2]
    cases hids' : e.programIds with
    | nil =>
      have ht3 := strtok_end0 (e.exploitName ++ 0 :: e.titleName ++ [0]) (48 :: 120 :: e.flagsHex)
        (0 :: junk) 32 none (some ((e.exploitName ++ [0]).length + e.titleName.length + 1))
        (by simp; omega) (by simp) hftok
      simp only [idsText, List.nil_append]
      rw [ht3]
      simp only [hfl]
      have hpl : ∀ n m, programid_loop q (n + 1) m none = some (false, m) := by
        intro n m; simp [programid_loop, strtok_null]
      rw [hpl]
      simp only []
      rw [ih']
      simp [selectProfile, ExploitListEntry.lists, hids']
    | cons i is =>
      have hids2 : ∀ j ∈ i :: is, HexDigits 16 j := by rw [← hids']; exact hids
      have ht3 := strtok_delim0 (e.exploitName ++ 0 :: e.titleName ++ [0]) (48 :: 120 :: e.flagsHex)
        (i ++ idsText is ++ 0 :: 0 :: junk) 32 none
        (some ((e.exploitName ++ [0]).length + e.titleName.length + 1))
        (by simp; omega) (by decide) (by simp) hftok
      have hb3 : (e.exploitName ++ 0 :: e.titleName ++ [0]) ++ (48 :: 120 :: e.flagsHex) ++
          (idsText (i :: is) ++ 0 :: 0 :: junk) =
          (e.exploitName ++ 0 :: e.titleName ++ [0]) ++ (48 :: 120 :: e.flagsHex) ++
          32 :: (i ++ idsText is ++ 0 :: 0 :: junk) := by simp [idsText]
      rw [hb3, ht3]
      simp only [hfl]
      obtain ⟨X, hX⟩ := programid_loop_ids q hq is i
        ((e.exploitName ++ 0 :: e.titleName ++ [0]) ++ (48 :: 120 :: e.flagsHex) ++ [0]) (0 :: junk)
        (((e.exploitName ++ 0 :: e.titleName ++ [0]) ++ (48 :: 120 :: e.flagsHex) ++ [0] ++ i ++
            idsText is ++ 0 :: 0 :: junk).length + 1) hids2
        (by have := idsText_length is
            simp only [List.length_append, List.length_cons]
            omega)
      have hX' : programid_loop q (((e.exploitName ++ 0 :: e.titleName ++ [0]) ++
            (48 :: 120 :: e.flagsHex) ++ 0 :: (i ++ idsText is ++ 0 :: 0 :: junk)).length + 1)
          ((e.exploitName ++ 0 :: e.titleName ++ [0]) ++ (48 :: 120 :: e.flagsHex) ++
            0 :: (i ++ idsText is ++ 0 :: 0 :: junk))
          (some ((e.exploitName ++ 0 :: e.titleName ++ [0]).length + (48 :: 120 :: e.flagsHex).length + 1)) =
          some ((i :: is).any (fun j => numVal 16 j == q),
            e.exploitName ++ 0 :: (e.titleName ++ 0 :: ((48 :: 120 :: e.flagsHex) ++ 0 :: X))) := by
        have h1 : (e.exploitName ++ 0 :: e.titleName ++ [0]) ++ (48 :: 120 :: e.flagsHex) ++ [0] ++ i ++
            idsText is ++ 0 :: 0 :: junk = (e.exploitName ++ 0 :: e.titleName ++ [0]) ++
            (48 :: 120 :: e.flagsHex) ++ 0 :: (i ++ idsText is ++ 0 :: 0 :: junk) := by simp
        have h2 : ((e.exploitName ++ 0 :: e.titleName ++ [0]) ++ (48 :: 120 :: e.flagsHex) ++ [0]).length =
            (e.exploitName ++ 0 :: e.titleName ++ [0]).length + (48 :: 120 :: e.flagsHex).length + 1 := by
          simp only [List.length_append, List.length_cons, List.length_nil]
        have h3 : (e.exploitName ++ 0 :: e.titleName ++ [0]) ++ (48 :: 120 :: e.flagsHex) ++ [0] ++ X =
            e.exploitName ++ 0 :: (e.titleName ++ 0 :: ((48 :: 120 :: e.flagsHex) ++ 0 :: X)) := by simp
        rw [← h1, ← h2, ← h3]
        exact hX
      rw [hX']
      have hname : strncpy63 (cstr (e.exploitName ++ 0 :: (e.titleName ++
          0 :: ((48 :: 120 :: e.flagsHex) ++ 0 :: X))) 0) = e.exploitName := by
        rw [cstr_zero _ _ (fun c hc => (hntok c hc).1)]
        exact List.take_of_length_le hn.2.1
      have htitle : strncpy63 (cstr (e.exploitName ++ 0 :: (e.titleName ++
          0 :: ((48 :: 120 :: e.flagsHex) ++ 0 :: X))) (e.exploitName ++ [0]).length) = e.titleName := by
        have h1 : e.exploitName ++ 0 :: (e.titleName ++ 0 :: ((48 :: 120 :: e.flagsHex) ++ 0 :: X)) =
            (e.exploitName ++ [0]) ++ e.titleName ++ 0 :: ((48 :: 120 :: e.flagsHex) ++ 0 :: X) := by
          simp
        rw [h1, cstr_at (e.exploitName ++ [0]) e.titleName ((48 :: 120 :: e.flagsHex) ++ 0 :: X)
          (fun c hc => (httok c hc).1)]
        exact List.take_of_length_le ht.2.1
      cases hany : (i :: is).any (fun j => numVal 16 j == q) with
      | true =>
        simp only [hname, htitle]
        simp [selectProfile, ExploitListEntry.lists, hids', hany]
      | false =>
        simp only []
        rw [ih']
        simp [selectProfile, ExploitListEntry.lists, hids', hany]

theorem exploitListFile_length (eol : List Nat) (heol : eol ≠ []) (es : List ExploitListEntry) :
    es.length ≤ (exploitListFile eol es).length := by
  induction es with
  | nil => simp [exploitListFile]
  | cons e es ih =>
    have : 0 < eol.length := List.length_pos.mpr heol
    simp only [exploitListFile, List.length_append, List.length_cons]
    omega

theorem selectProfile_found (q : Nat) :
    ∀ (es : List ExploitListEntry) (flags : Nat) (e : ExploitListEntry),
      es.find? (fun e => e.lists q) = some e →
      selectProfile q es flags = ⟨0, numVal 16 e.flagsHex, some (e.exploitName, e.titleName)⟩ := by
  intro es
  induction es with
  | nil => intro flags e h; simp at h
  | cons a as ih =>
    intro flags e h
    by_cases ha : a.lists q = true
    · simp [List.find?, ha] at h
      subst h
      simp [selectProfile, ha]
    · simp [List.find?, ha] at h
      simp only [selectProfile, ha]
      exact ih _ e h

theorem selectProfile_ret (q : Nat) :
    ∀ (es : List ExploitListEntry) (flags : Nat),
      ((selectProfile q es flags).ret = 2 ↔ ∀ e ∈ es, e.lists q = false) ∧
      ((selectProfile q es flags).ret = 0 ∨ (selectProfile q es flags).ret = 2) := by
  intro es
  induction es with
  | nil => intro flags; simp [selectProfile]
  | cons a as ih =>
    intro flags
    by_cases ha : a.lists q = true
    · simp [selectProfile, ha]
    · simp only [selectProfile, ha]
      have := ih (numVal 16 a.flagsHex)
      simp only [Bool.not_eq_true] at ha
      refine ⟨?_, this.2⟩
      simp only [Bool.false_eq_true, if_false]
      rw [this.1]
      simp [ha]

/-- C1 (amended): for every exploit-list file whose lines are well formed and
fit one `fgets` call (line plus line end at most 254 characters) and every
non-zero query identifier, `load_exploitlist_config` returns; it returns 0 with
the names and flags of the first line whose programID list contains the query,
and it returns 2 exactly when no line lists the query. -/
theorem load_exploitlist_config_first_match (eol : List Nat) (es : List ExploitListEntry)
    (q flags0 : Nat) (heol : eol = [10] ∨ eol = [13, 10])
    (hwf : ∀ e ∈ es, e.WellFormed ∧ e.render.length + eol.length ≤ 254) (hq : q ≠ 0) :
    ∃ r, load_exploitlist_config (exploitListFile eol es) q flags0 = some r ∧
      (∀ e, es.find? (fun e => e.lists q) = some e →
        r = ⟨0, numVal 16 e.flagsHex, some (e.exploitName, e.titleName)⟩) ∧
      (r.ret = 2 ↔ ∀ e ∈ es, e.lists q = false) := by
  have hne : eol ≠ [] := by rcases heol with rfl | rfl <;> simp
  refine ⟨selectProfile q es flags0, ?_, ?_, ?_⟩
  · unfold load_exploitlist_config
    exact exploitlist_loop_file q hq eol heol es _ flags0 _ hwf
      (by have := exploitListFile_length eol hne es; omega)
  · intro e he
    exact selectProfile_found q es flags0 e he
  · exact (selectProfile_ret q es flags0).1

set_option maxRecDepth 100000 in
/-- Witness for C1: the line `foo Bar 0x2 0000000100000000` with the query
0x0000000100000000 yields ("foo", "Bar", 0x2). -/
theorem load_exploitlist_config_first_match_witness :
    load_exploitlist_config (bytes "foo Bar 0x2 0000000100000000\n") 0x0000000100000000 0 =
      some ⟨0, 2, some (bytes "foo", bytes "Bar")⟩ := by
  obtain ⟨r, hr, hfound, _⟩ := load_exploitlist_config_first_match [10]
    [⟨bytes "foo", bytes "Bar", bytes "2", [bytes "0000000100000000"]⟩] 0x0000000100000000 0
    (Or.inl rfl) (by decide) (by decide)
  have h2 := hfound ⟨bytes "foo", bytes "Bar", bytes "2", [bytes "0000000100000000"]⟩ (by decide)
  have h3 : exploitListFile [10] [⟨bytes "foo", bytes "Bar", bytes "2", [bytes "0000000100000000"]⟩] =
      bytes "foo Bar 0x2 0000000100000000\n" := by decide
  rw [h3] at hr
  rw [hr, h2]
  decide

set_option maxRecDepth 1000000 in
/-- C1 as stated fails on a well-formed line that is longer than one `fgets`
call reads: the line `foo Bar 0x2` with nineteen programIDs lists the query
0x0004000000174617 (its eighteenth identifier), yet the match is found in the
second chunk of the line and the names returned are programID text. -/
theorem load_exploitlist_config_long_line :
    longListEntry.WellFormed ∧ longListEntry.lists 0x0004000000174617 = true ∧
    load_exploitlist_config (exploitListFile [10] [longListEntry]) 0x0004000000174617 0 =
      some ⟨0, 0, some (bytes "000000174614", bytes "0004000000174615")⟩ ∧
    load_exploitlist_config (exploitListFile [10] [longListEntry]) 0x0004000000174617 0 ≠
      some ⟨0, 2, some (bytes "foo", bytes "Bar")⟩ := by
  decide

/-! ### Payload embed step -/

theorem peek_add (P R : List Nat) (i : Nat) : peek (P ++ R) (P.length + i) = peek R i := by
  induction P with
  | nil => simp
  | cons c cs ih =>
    have : (c :: cs).length + i = (cs.length + i) + 1 := by simp; omega
    rw [this]
    simpa [peek] using ih

theorem peek_head (R : List Nat) : peek R 0 = R.head?.getD 0 := by
  cases R <;> rfl

/-- The last part of an expansion: `strtok` restarted (or continued) in front
of `k` separators and a final literal `post`; the literal is appended and the
loop ends with result 0, provided the byte behind the terminating NUL is not
`!` when the literal is not empty. -/
theorem convert_tail (ms : Nat) (slot : Int) (A post rest : List Nat) (k fuel : Nat)
    (out : List Nat) (pe : PayloadEmbed) (s last : Option Nat)
    (hs : s.orElse (fun _ => last) = some A.length)
    (hpost : ∀ c ∈ post, c ≠ 0 ∧ c ≠ 64) (hsafe : post ≠ [] → rest.head? ≠ some 33)
    (hfuel : 3 ≤ fuel) :
    convert_loop ms slot fuel
      (strtok (A ++ List.replicate k 64 ++ post ++ 0 :: rest) s last 64).mem
      (strtok (A ++ List.replicate k 64 ++ post ++ 0 :: rest) s last 64).last
      (strtok (A ++ List.replicate k 64 ++ post ++ 0 :: rest) s last 64).ret out pe =
    some ⟨0, A ++ List.replicate k 64 ++ post ++ 0 :: rest, out ++ post.take (ms - 1), pe⟩ := by
  obtain ⟨f1, rfl⟩ : ∃ f, fuel = f + 1 := ⟨fuel - 1, by omega⟩
  obtain ⟨f2, rfl⟩ : ∃ f, f1 = f + 1 := ⟨f1 - 1, by omega⟩
  by_cases hp : post = []
  · subst hp
    have := strtok_none A rest k 64 s last hs (by decide)
    simp only [List.append_nil] at this ⊢
    rw [this]
    simp [convert_loop]
  · rw [strtok_end A post rest k 64 s last hs hp hpost]
    have hc : cstr (A ++ List.replicate k 64 ++ post ++ 0 :: rest) (A.length + k) = post := by
      have := cstr_at (A ++ List.replicate k 64) post rest (fun c hc => (hpost c hc).1)
      simpa using this
    have hpk : peek (A ++ List.replicate k 64 ++ post ++ 0 :: rest) (A.length + k + post.length + 1) ≠
        33 := by
      have h1 : A ++ List.replicate k 64 ++ post ++ 0 :: rest =
          (A ++ List.replicate k 64 ++ post ++ [0]) ++ rest := by simp
      have h2 : A.length + k + post.length + 1 = (A ++ List.replicate k 64 ++ post ++ [0]).length + 0 := by
        simp only [List.length_append, List.length_cons, List.length_nil, List.length_replicate]
      rw [h1, h2, peek_add, peek_head]
      have := hsafe hp
      cases rest with
      | nil => simp
      | cons r rs => simpa using this
    unfold convert_loop
    simp only [strlen, hc, hpk, ne_eq, not_false_eq_true, if_true, strtok_null, strncat]
    simp [convert_loop]

/-- The text `snprintf` produces for the slot placeholder with pad width
`n` in 1..9 and a slot number in 0..2: `n - 1` zeros and the digit. -/
theorem snprintf_0Nd_slot (n : Nat) (slot : Nat) (hn : 1 ≤ n ∧ n ≤ 9) (hslot : slot ≤ 2) :
    snprintf_0Nd (48 + n) (slot : Int) = List.replicate (n - 1) 48 ++ [48 + slot] := by
  obtain ⟨h1, h9⟩ := hn
  interval_cases n <;> interval_cases slot <;> decide

/-- Expansion of `pre@!d<N>` followed by `k` separators and a literal `post`,
for a template that starts at index `B.length` of the buffer. -/
theorem convert_filepath_slot_at (ms : Nat) (slot : Int) (B pre post rest : List Nat) (N k : Nat)
    (out : List Nat) (pe : PayloadEmbed)
    (hpre : pre ≠ []) (hpre2 : ∀ c ∈ pre, c ≠ 0 ∧ c ≠ 64)
    (hpost : ∀ c ∈ post, c ≠ 0 ∧ c ≠ 64) (hN : 48 ≤ N ∧ N ≤ 57)
    (hsafe : post ≠ [] → rest.head? ≠ some 33) :
    ∃ mem, convert_filepath (B ++ pre ++ 64 :: 33 :: 100 :: N :: (List.replicate k 64 ++ post ++ 0 :: rest))
      B.length out ms slot pe =
      some ⟨0, mem, out ++ pre.take (ms - 1) ++ (snprintf_0Nd N slot).take (ms - 1) ++ post.take (ms - 1),
        pe⟩ := by
  have ht := strtok_delim0 B pre (33 :: 100 :: N :: (List.replicate k 64 ++ post ++ 0 :: rest)) 64
    (some B.length) none rfl (by decide) hpre hpre2
  have hc : cstr (B ++ pre ++ 0 :: 33 :: 100 :: N :: (List.replicate k 64 ++ post ++ 0 :: rest))
      B.length = pre := cstr_at B pre _ (fun c hc => (hpre2 c hc).1)
  have hm : B ++ pre ++ 0 :: 33 :: 100 :: N :: (List.replicate k 64 ++ post ++ 0 :: rest) =
      (B ++ pre ++ [0]) ++ 33 :: 100 :: N :: (List.replicate k 64 ++ post ++ 0 :: rest) := by simp
  have hl : B.length + pre.length + 1 = (B ++ pre ++ [0]).length := by
    simp only [List.length_append, List.length_cons, List.length_nil]
  have hp0 : peek (B ++ pre ++ 0 :: 33 :: 100 :: N :: (List.replicate k 64 ++ post ++ 0 :: rest))
      (B.length + pre.length + 1) = 33 := by
    rw [hm, hl]; exact peek_pre _ _ _
  have hp1 : peek (B ++ pre ++ 0 :: 33 :: 100 :: N :: (List.replicate k 64 ++ post ++ 0 :: rest))
      (B.length + pre.length + 1 + 1) = 100 := by
    rw [hm, hl, peek_add]; rfl
  have hp2 : peek (B ++ pre ++ 0 :: 33 :: 100 :: N :: (List.replicate k 64 ++ post ++ 0 :: rest))
      (B.length + pre.length + 1 + 2) = N := by
    rw [hm, hl, peek_add]; rfl
  have hm2 : B ++ pre ++ 0 :: 33 :: 100 :: N :: (List.replicate k 64 ++ post ++ 0 :: rest) =
      (B ++ pre ++ [0, 33, 100, N]) ++ List.replicate k 64 ++ post ++ 0 :: rest := by simp
  have hl2 : B.length + pre.length + 1 + 3 = (B ++ pre ++ [0, 33, 100, N]).length := by
    simp only [List.length_append, List.length_cons, List.length_nil]
  have hN' : ¬ (N < 48 ∨ N > 57) := by omega
  have htail := convert_tail ms slot (B ++ pre ++ [0, 33, 100, N]) post rest k
    ((B ++ pre ++ 64 :: 33 :: 100 :: N :: (List.replicate k 64 ++ post ++ 0 :: rest)).length)
    (strncat (strncat out pre (ms - 1)) (snprintf_0Nd N slot) (ms - 1)) pe
    (some (B.length + pre.length + 1 + 3)) (some (B.length + pre.length + 1))
    (by rw [hl2]; rfl) hpost hsafe
    (by obtain ⟨p0, ps, rfl⟩ := List.exists_cons_of_ne_nil hpre
        simp only [List.length_append, List.length_cons]; omega)
  refine ⟨(B ++ pre ++ [0, 33, 100, N]) ++ List.replicate k 64 ++ post ++ 0 :: rest, ?_⟩
  unfold convert_filepath
  rw [ht]
  unfold convert_loop
  simp only [strlen, hc, hp0, hp1, hp2, hN', ne_eq, not_true_eq_false, if_false, if_true]
  rw [hm2]
  simp only [List.length_append, List.length_cons, List.length_nil, List.length_replicate] at htail ⊢
  simp only [strncat] at htail ⊢
  exact htail

/-- C3 (amended): for every template `pre@!d<N>@post` with non-empty literal
`pre` and literal `post`, every pad width `N` in 1..9 and every slot in 0..2,
whose expansion fits the 256-byte output buffer (`|pre| + N + |post| <= 255`),
`convert_filepath` returns 0 and the output is `pre`, then exactly `N` decimal
characters, zero-padded on the left, whose value is the slot number itself
(0-based, as `main` passes it), then `post`; the byte behind the terminating
NUL must not be `!` when `post` is not empty. -/
theorem convert_filepath_slot (pre post rest : List Nat) (n slot : Nat)
    (hpre : pre ≠ []) (hpre2 : ∀ c ∈ pre, c ≠ 0 ∧ c ≠ 64) (hpost : ∀ c ∈ post, c ≠ 0 ∧ c ≠ 64)
    (hfit : pre.length + n + post.length ≤ 255)
    (hn : 1 ≤ n ∧ n ≤ 9) (hslot : slot ≤ 2) (hsafe : post ≠ [] → rest.head? ≠ some 33)
    (pe : PayloadEmbed) :
    ∃ mem, convert_filepath (pre ++ bytes "@!d" ++ [48 + n] ++ bytes "@" ++ post ++ 0 :: rest) 0 []
        256 (slot : Int) pe =
      some ⟨0, mem, pre ++ (List.replicate (n - 1) 48 ++ [48 + slot]) ++ post, pe⟩ := by
  obtain ⟨mem, h⟩ := convert_filepath_slot_at 256 (slot : Int) [] pre post rest (48 + n) 1 [] pe
    hpre hpre2 hpost (by omega) hsafe
  refine ⟨mem, ?_⟩
  have hb : pre ++ bytes "@!d" ++ [48 + n] ++ bytes "@" ++ post ++ 0 :: rest =
      [] ++ pre ++ 64 :: 33 :: 100 :: (48 + n) :: (List.replicate 1 64 ++ post ++ 0 :: rest) := by
    have h1 : bytes "@!d" = [64, 33, 100] := by decide
    have h2 : bytes "@" = [64] := by decide
    rw [h1, h2]
    simp
  rw [hb]
  simp only [List.length_nil] at h
  rw [h, snprintf_0Nd_slot n slot hn hslot]
  have e1 : pre.take (256 - 1) = pre := List.take_of_length_le (by omega)
  have e2 : post.take (256 - 1) = post := List.take_of_length_le (by omega)
  have e3 : (List.replicate (n - 1) 48 ++ [48 + slot]).take (256 - 1) =
      List.replicate (n - 1) 48 ++ [48 + slot] :=
    List.take_of_length_le (by simp; omega)
  rw [e1, e2, e3]
  simp

/-- Witness for C3: `save/@!d2@/slot.dat` with slot 1 expands to
`save/01/slot.dat`. -/
theorem convert_filepath_slot_witness :
    (convert_filepath (bytes "save/@!d2@/slot.dat" ++ [0]) 0 [] 256 1 ⟨false, 0, []⟩).map
      (fun r => (r.ret, r.outpath, r.payload_embed)) =
      some (0, bytes "save/01/slot.dat", ⟨false, 0, []⟩) := by
  obtain ⟨mem, h⟩ := convert_filepath_slot (bytes "save/") (bytes "/slot.dat") [] 2 1
    (by decide) (by decide) (by decide) (by decide) (by decide) (by decide) (by decide)
    ⟨false, 0, []⟩
  have hb : bytes "save/@!d2@/slot.dat" ++ [0] =
      bytes "save/" ++ bytes "@!d" ++ [48 + 2] ++ bytes "@" ++ bytes "/slot.dat" ++ 0 :: [] := by
    decide
  have ho : bytes "save/01/slot.dat" =
      bytes "save/" ++ (List.replicate (2 - 1) 48 ++ [48 + 1]) ++ bytes "/slot.dat" := by decide
  have h1 : ((1 : Nat) : Int) = 1 := rfl
  rw [hb, ho, ← h1, h]
  rfl

set_option maxRecDepth 100000 in
/-- C3 as stated fails: for `save/@!d2@/slot.dat` and slot 1 the expansion is
`save/01/slot.dat` (the slot number as passed by `main`), not
`save/02/slot.dat`. -/
theorem convert_filepath_slot_not_plus_one :
    (convert_filepath (bytes "save/@!d2@/slot.dat" ++ [0]) 0 [] 256 1 ⟨false, 0, []⟩).map
        (fun r => (r.ret, r.outpath)) = some (0, bytes "save/01/slot.dat") ∧
    bytes "save/01/slot.dat" ≠ bytes "save/02/slot.dat" := by
  decide

/-! ### Lines of the per-title `config.ini` -/

theorem updateHeader_bytes : bytes "[updatetitle_versions]" =
    [91, 117, 112, 100, 97, 116, 101, 116, 105, 116, 108, 101, 95, 118, 101, 114, 115, 105, 111,
      110, 115, 93] := by decide

theorem remasterHeader_bytes : bytes "[remaster_versions]" =
    [91, 114, 101, 109, 97, 115, 116, 101, 114, 95, 118, 101, 114, 115, 105, 111, 110, 115, 93] := by
  decide

theorem isdigit_tok (ds : List Nat) (h : ∀ c ∈ ds, isdigit c = true) :
    ∀ c ∈ ds, c ≠ 0 ∧ c ≠ 10 ∧ c ≠ 13 ∧ c ≠ 61 ∧ c ≠ 64 := by
  intro c hc
  have := isdigit_range c (h c hc)
  omega

theorem isxdigit_tok (ds : List Nat) (h : ∀ c ∈ ds, isxdigit c = true) :
    ∀ c ∈ ds, c ≠ 0 ∧ c ≠ 10 ∧ c ≠ 13 ∧ c ≠ 61 ∧ c ≠ 64 ∧ c ≠ 91 ∧ c ≠ 118 := by
  intro c hc
  have := isxdigit_range c (h c hc)
  omega

theorem cfgLine_render_chars (l : CfgLine) (h : l.WellFormed) :
    (∀ c ∈ l.render, c ≠ 0 ∧ c ≠ 10) ∧ l.render.getLast? ≠ some 13 ∧ l.render ≠ [] ∧
      l.render.length + 2 ≤ 254 := by
  cases l with
  | updateHeader => simp only [CfgLine.render, updateHeader_bytes]; decide
  | remasterHeader => simp only [CfgLine.render, remasterHeader_bytes]; decide
  | update build code =>
    obtain ⟨hb, hbl, hbd, _, hc4, hcx⟩ := h
    have hcne : code ≠ [] := by intro h; simp [h] at hc4
    refine ⟨?_, ?_, by simp [CfgLine.render], ?_⟩
    · intro c hc
      simp only [CfgLine.render, List.mem_cons, List.mem_append, or_assoc] at hc
      rcases hc with rfl | hc | rfl | hc
      · decide
      · have := isdigit_tok build hbd c hc; exact ⟨this.1, this.2.1⟩
      · decide
      · have := isxdigit_tok code hcx c hc; exact ⟨this.1, this.2.1⟩
    · have : CfgLine.render (.update build code) = (118 :: build ++ [61]) ++ code := by
        simp [CfgLine.render]
      rw [this]
      exact getLast?_append_ne _ _ 13 hcne (fun c hc => (isxdigit_tok code hcx c hc).2.2.1)
    · simp only [CfgLine.render, List.length_cons, List.length_append, hc4]; omega
  | remaster key dir label =>
    obtain ⟨⟨hk4, hkx⟩, ⟨hd, hdl, hdc⟩, ⟨hl, hll, hlc⟩⟩ := h
    refine ⟨?_, ?_, by simp [CfgLine.render, hl], ?_⟩
    · intro c hc
      simp only [CfgLine.render, List.mem_cons, List.mem_append, or_assoc] at hc
      rcases hc with hc | rfl | hc | rfl | hc
      · have := isxdigit_tok key hkx c hc; exact ⟨this.1, this.2.1⟩
      · decide
      · exact ⟨(hdc c hc).1, (hdc c hc).2.1⟩
      · decide
      · exact ⟨(hlc c hc).1, (hlc c hc).2.1⟩
    · have : CfgLine.render (.remaster key dir label) = (key ++ 61 :: dir ++ [64]) ++ label := by
        simp [CfgLine.render]
      rw [this]
      exact getLast?_append_ne _ _ 13 hl (fun c hc => (hlc c hc).2.2.1)
    · simp only [CfgLine.render, List.length_cons, List.length_append, hk4]; omega

/-- Reading one well-formed configuration line into the line buffer. -/
theorem cfg_read (line eol f : List Nat) (heol : eol = [10] ∨ eol = [13, 10]) (l : CfgLine)
    (h : l.WellFormed) :
    ∃ line1 junk, fgets line 255 (l.render ++ eol ++ f) = some (line1, f) ∧
      remove_newline line1 = l.render ++ 0 :: 0 :: junk ∧
      strlen (l.render ++ 0 :: 0 :: junk) 0 ≠ 0 ∧ cstr (l.render ++ 0 :: 0 :: junk) 0 = l.render := by
  obtain ⟨hch, hcr, hne, hlen⟩ := cfgLine_render_chars l h
  have hlen2 : l.render.length + eol.length ≤ 254 := by
    rcases heol with rfl | rfl <;> simp <;> omega
  obtain ⟨line1, junk, h1, h2⟩ := read_line line l.render eol f heol hch hcr hlen2
  refine ⟨line1, junk, h1, h2, ?_, cstr_zero _ _ (fun c hc => (hch c hc).1)⟩
  rw [strlen_zero_pre _ _ (fun c hc => (hch c hc).1)]
  exact fun h0 => hne (List.length_eq_zero.mp h0)

theorem cfgLine_render_eq_updateHeader (l : CfgLine) (h : l.WellFormed) :
    l.render = bytes "[updatetitle_versions]" ↔ l = .updateHeader := by
  cases l with
  | updateHeader => simp [CfgLine.render]
  | remasterHeader => simp only [CfgLine.render, updateHeader_bytes, remasterHeader_bytes]; decide
  | update build code => simp [CfgLine.render, updateHeader_bytes]
  | remaster key dir label =>
    obtain ⟨⟨hk4, hkx⟩, _, _⟩ := h
    obtain ⟨k0, ks, rfl⟩ : ∃ k0 ks, key = k0 :: ks := by
      cases key with
      | nil => simp at hk4
      | cons k0 ks => exact ⟨k0, ks, rfl⟩
    have := (isxdigit_tok _ hkx k0 (by simp)).2.2.2.2.2.1
    simp [CfgLine.render, updateHeader_bytes, this]

theorem cfgLine_render_eq_remasterHeader (l : CfgLine) (h : l.WellFormed) :
    l.render = bytes "[remaster_versions]" ↔ l = .remasterHeader := by
  cases l with
  | updateHeader => simp only [CfgLine.render, updateHeader_bytes, remasterHeader_bytes]; decide
  | remasterHeader => simp [CfgLine.render]
  | update build code => simp [CfgLine.render, remasterHeader_bytes]
  | remaster key dir label =>
    obtain ⟨⟨hk4, hkx⟩, _, _⟩ := h
    obtain ⟨k0, ks, rfl⟩ : ∃ k0 ks, key = k0 :: ks := by
      cases key with
      | nil => simp at hk4
      | cons k0 ks => exact ⟨k0, ks, rfl⟩
    have := (isxdigit_tok _ hkx k0 (by simp)).2.2.2.2.2.1
    simp [CfgLine.render, remasterHeader_bytes, this]

/-- The two `strtok(..., "=")` calls on a line without `=`: the first returns
the whole line, the second NULL. -/
theorem tok_header (L R : List Nat) (hne : L ≠ []) (hL : ∀ c ∈ L, c ≠ 0 ∧ c ≠ 61) :
    strtok (L ++ 0 :: R) (some 0) none 61 = ⟨L ++ 0 :: R, none, some 0⟩ := by
  simpa using strtok_end0 [] L R 61 (some 0) none rfl hne hL

/-- The two `strtok(..., "=")` calls on a line `name=value`. -/
theorem tok_pair (name value R : List Nat) (hn : name ≠ []) (hv : value ≠ [])
    (hname : ∀ c ∈ name, c ≠ 0 ∧ c ≠ 61) (hvalue : ∀ c ∈ value, c ≠ 0 ∧ c ≠ 61) :
    strtok (name ++ 61 :: value ++ 0 :: R) (some 0) none 61 =
      ⟨name ++ 0 :: value ++ 0 :: R, some (name.length + 1), some 0⟩ ∧
    strtok (name ++ 0 :: value ++ 0 :: R) none (some (name.length + 1)) 61 =
      ⟨name ++ 0 :: value ++ 0 :: R, none, some (name.length + 1)⟩ ∧
    cstr (name ++ 0 :: value ++ 0 :: R) 0 = name ∧
    cstr (name ++ 0 :: value ++ 0 :: R) (name.length + 1) = value := by
  have e1 : name ++ 61 :: value ++ 0 :: R = name ++ 61 :: (value ++ 0 :: R) := by simp
  have e2 : name ++ 0 :: value ++ 0 :: R = name ++ 0 :: (value ++ 0 :: R) := by simp
  have e3 : name ++ 0 :: value ++ 0 :: R = (name ++ [0]) ++ value ++ 0 :: R := by simp
  have e4 : name.length + 1 = (name ++ [0]).length := by simp
  refine ⟨?_, ?_, ?_, ?_⟩
  · rw [e1, e2]; exact strtok_first name _ 61 none (by decide) hn hname
  · rw [e3, e4]
    exact strtok_end0 (name ++ [0]) value R 61 none _ rfl hv hvalue
  · rw [e2]; exact cstr_zero name _ (fun c hc => (hname c hc).1)
  · rw [e3, e4]; exact cstr_at (name ++ [0]) value R (fun c hc => (hvalue c hc).1)

/-- The two `strtok(..., "@")` calls on the value `dir@label` that starts at
index `A.length`. -/
theorem tok_dir_label (A dir label R : List Nat) (last : Option Nat) (hd : dir ≠ []) (hl : label ≠ [])
    (hdir : ∀ c ∈ dir, c ≠ 0 ∧ c ≠ 64) (hlabel : ∀ c ∈ label, c ≠ 0 ∧ c ≠ 64) :
    strtok (A ++ (dir ++ 64 :: label) ++ 0 :: R) (some A.length) last 64 =
      ⟨A ++ dir ++ 0 :: label ++ 0 :: R, some (A.length + dir.length + 1), some A.length⟩ ∧
    strtok (A ++ dir ++ 0 :: label ++ 0 :: R) none (some (A.length + dir.length + 1)) 64 =
      ⟨A ++ dir ++ 0 :: label ++ 0 :: R, none, some (A.length + dir.length + 1)⟩ ∧
    cstr (A ++ dir ++ 0 :: label ++ 0 :: R) A.length = dir ∧
    cstr (A ++ dir ++ 0 :: label ++ 0 :: R) (A.length + dir.length + 1) = label := by
  have e1 : A ++ (dir ++ 64 :: label) ++ 0 :: R = A ++ dir ++ 64 :: (label ++ 0 :: R) := by simp
  have e2 : A ++ dir ++ 0 :: label ++ 0 :: R = A ++ dir ++ 0 :: (label ++ 0 :: R) := by simp
  have e3 : A ++ dir ++ 0 :: label ++ 0 :: R = (A ++ dir ++ [0]) ++ label ++ 0 :: R := by simp
  have e4 : A.length + dir.length + 1 = (A ++ dir ++ [0]).length := by
    simp only [List.length_append, List.length_cons, List.length_nil]
  refine ⟨?_, ?_, ?_, ?_⟩
  · rw [e1, e2]; exact strtok_delim0 A dir _ 64 (some A.length) last rfl (by decide) hd hdir
  · rw [e3, e4]
    exact strtok_end0 (A ++ dir ++ [0]) label R 64 none _ rfl hl hlabel
  · rw [e2]; exact cstr_at A dir _ (fun c hc => (hdir c hc).1)
  · rw [e3, e4]; exact cstr_at (A ++ dir ++ [0]) label R (fun c hc => (hlabel c hc).1)

theorem sscanf_04X_v (build : List Nat) : sscanf_04X (118 :: build) = none := by
  have h1 : (118 :: build).dropWhile isspace = 118 :: build := by
    simp [List.dropWhile, isspace]
  unfold sscanf_04X scanInt
  simp only [h1, takeWidth]
  simp [isxdigit]

theorem sscanf_v_u_hex (key : List Nat) (h : HexDigits 4 key) : sscanf_v_u key = none := by
  obtain ⟨k0, ks, rfl⟩ : ∃ k0 ks, key = k0 :: ks := by
    cases key with
    | nil => have := h.1; simp at this
    | cons k0 ks => exact ⟨k0, ks, rfl⟩
  have := (isxdigit_tok _ h.2 k0 (by simp)).2.2.2.2.2.2
  unfold sscanf_v_u
  split
  · rename_i heq
    simp at heq
    exact absurd heq.1 this
  · rfl

theorem sscanf_v_u_dec (build : List Nat) (hne : build ≠ []) (hd : ∀ c ∈ build, isdigit c = true)
    (hlt : numVal 10 build < 2 ^ 32) : sscanf_v_u (118 :: build) = some (numVal 10 build) := by
  unfold sscanf_v_u
  simp only []
  rw [scanInt_dec build hne hd]
  simp only [Option.map_some', toUnsigned]
  rw [if_neg (by omega), if_neg (by simp)]

theorem header_tok (L : List Nat)
    (h : L = bytes "[updatetitle_versions]" ∨ L = bytes "[remaster_versions]") :
    L ≠ [] ∧ ∀ c ∈ L, c ≠ 0 ∧ c ≠ 61 := by
  rcases h with rfl | rfl
  · rw [updateHeader_bytes]; decide
  · rw [remasterHeader_bytes]; decide

/-- One iteration of the loop of `load_exploitconfig` in stage 3 (inside the
`[remaster_versions]` section) on a well-formed line. -/
theorem cfg_step3 (file : List Nat) (app v fuel : Nat) (ret : Int) (inst : Nat)
    (line eol f : List Nat) (heol : eol = [10] ∨ eol = [13, 10]) (l : CfgLine) (hwf : l.WellFormed) :
    ∃ line1, exploitconfig_loop file app v (fuel + 1) 3 ret inst line (l.render ++ eol ++ f) =
      match l with
      | .remaster key dir label =>
        if inst = numVal 16 key then some ⟨0, inst, some dir, some label⟩
        else exploitconfig_loop file app v fuel 3 ret inst line1 f
      | _ => exploitconfig_loop file app v fuel 3 ret inst line1 f := by
  obtain ⟨line1, junk, hfg, hrm, hlen, _⟩ := cfg_read line eol f heol l hwf
  rw [exploitconfig_loop]
  simp only [hfg, hrm, hlen, if_false, Nat.reduceEqDiff, or_true, if_true]
  cases l with
  | updateHeader =>
    obtain ⟨hne, hL⟩ := header_tok _ (Or.inl rfl)
    refine ⟨bytes "[updatetitle_versions]" ++ 0 :: 0 :: junk, ?_⟩
    simp only [CfgLine.render, tok_header _ _ hne hL, strtok_null]
  | remasterHeader =>
    obtain ⟨hne, hL⟩ := header_tok _ (Or.inr rfl)
    refine ⟨bytes "[remaster_versions]" ++ 0 :: 0 :: junk, ?_⟩
    simp only [CfgLine.render, tok_header _ _ hne hL, strtok_null]
  | update build code =>
    obtain ⟨hb, hbl, hbd, hlt, hc4, hcx⟩ := hwf
    have hcne : code ≠ [] := by intro h; simp [h] at hc4
    obtain ⟨t1, t2, c1, c2⟩ := tok_pair (118 :: build) code (0 :: junk) (by simp) hcne
      (by intro c hc
          simp only [List.mem_cons] at hc
          rcases hc with rfl | hc
          · decide
          · have := isdigit_tok build hbd c hc; exact ⟨this.1, this.2.2.2.1⟩)
      (fun c hc => ⟨(isxdigit_tok code hcx c hc).1, (isxdigit_tok code hcx c hc).2.2.2.1⟩)
    refine ⟨(118 :: build) ++ 0 :: code ++ 0 :: 0 :: junk, ?_⟩
    simp only [CfgLine.render, t1, t2, c1, sscanf_04X_v]
  | remaster key dir label =>
    obtain ⟨⟨hk4, hkx⟩, ⟨hd, hdl, hdc⟩, ⟨hl, hll, hlc⟩⟩ := hwf
    have hkne : key ≠ [] := by intro h; simp [h] at hk4
    obtain ⟨t1, t2, c1, c2⟩ := tok_pair key (dir ++ 64 :: label) (0 :: junk) hkne (by simp)
      (fun c hc => ⟨(isxdigit_tok key hkx c hc).1, (isxdigit_tok key hkx c hc).2.2.2.1⟩)
      (by intro c hc
          simp only [List.mem_cons, List.mem_append] at hc
          rcases hc with hc | rfl | hc
          · exact ⟨(hdc c hc).1, (hdc c hc).2.2.2.1⟩
          · decide
          · exact ⟨(hlc c hc).1, (hlc c hc).2.2.2.1⟩)
    have hr : (CfgLine.remaster key dir label).render ++ 0 :: 0 :: junk =
        key ++ 61 :: (dir ++ 64 :: label) ++ 0 :: 0 :: junk := by simp [CfgLine.render]
    refine ⟨key ++ 0 :: (dir ++ 64 :: label) ++ 0 :: 0 :: junk, ?_⟩
    rw [hr]
    simp only [t1, t2, c1, sscanf_04X_hex key hk4 hkx]
    by_cases hi : inst = numVal 16 key
    · have hm : key ++ 0 :: (dir ++ 64 :: label) ++ 0 :: 0 :: junk =
          (key ++ [0]) ++ (dir ++ 64 :: label) ++ 0 :: 0 :: junk := by simp
      have hp : key.length + 1 = (key ++ [0]).length := by simp
      obtain ⟨d1, d2, d3, d4⟩ := tok_dir_label (key ++ [0]) dir label (0 :: junk) none hd hl
        (fun c hc => ⟨(hdc c hc).1, (hdc c hc).2.2.2.2⟩)
        (fun c hc => ⟨(hlc c hc).1, (hlc c hc).2.2.2.2⟩)
      simp only [hi, if_true]
      rw [hm, hp]
      simp only [d1, d2, d3, d4, strncpy63, List.take_of_length_le hdl, List.take_of_length_le hll]
    · simp only [hi, if_false]

/-- One iteration of the loop of `load_exploitconfig` in stage 1 (inside the
`[updatetitle_versions]` section) on a well-formed line. -/
theorem cfg_step1 (file : List Nat) (app v fuel : Nat) (ret : Int) (inst : Nat)
    (line eol f : List Nat) (heol : eol = [10] ∨ eol = [13, 10]) (l : CfgLine) (hwf : l.WellFormed) :
    ∃ line1, exploitconfig_loop file app v (fuel + 1) 1 ret inst line (l.render ++ eol ++ f) =
      match l with
      | .update build code =>
        if numVal 10 build = v then
          exploitconfig_loop file app v fuel 2 4
            (if app < numVal 16 code then numVal 16 code else app) line1 file
        else exploitconfig_loop file app v fuel 1 ret inst line1 f
      | _ => exploitconfig_loop file app v fuel 1 ret inst line1 f := by
  obtain ⟨line1, junk, hfg, hrm, hlen, _⟩ := cfg_read line eol f heol l hwf
  rw [exploitconfig_loop]
  simp only [hfg, hrm, hlen, if_false, true_or, if_true]
  cases l with
  | updateHeader =>
    obtain ⟨hne, hL⟩ := header_tok _ (Or.inl rfl)
    refine ⟨bytes "[updatetitle_versions]" ++ 0 :: 0 :: junk, ?_⟩
    simp only [CfgLine.render, tok_header _ _ hne hL, strtok_null]
  | remasterHeader =>
    obtain ⟨hne, hL⟩ := header_tok _ (Or.inr rfl)
    refine ⟨bytes "[remaster_versions]" ++ 0 :: 0 :: junk, ?_⟩
    simp only [CfgLine.render, tok_header _ _ hne hL, strtok_null]
  | update build code =>
    obtain ⟨hb, hbl, hbd, hlt, hc4, hcx⟩ := hwf
    have hcne : code ≠ [] := by intro h; simp [h] at hc4
    obtain ⟨t1, t2, c1, c2⟩ := tok_pair (118 :: build) code (0 :: junk) (by simp) hcne
      (by intro c hc
          simp only [List.mem_cons] at hc
          rcases hc with rfl | hc
          · decide
          · have := isdigit_tok build hbd c hc; exact ⟨this.1, this.2.2.2.1⟩)
      (fun c hc => ⟨(isxdigit_tok code hcx c hc).1, (isxdigit_tok code hcx c hc).2.2.2.1⟩)
    have hp : (118 :: build).length + 1 = build.length + 1 + 1 := rfl
    refine ⟨(118 :: build) ++ 0 :: code ++ 0 :: 0 :: junk, ?_⟩
    simp only [CfgLine.render, t1, t2, c1, c2, sscanf_v_u_dec build hb hbd hlt,
      sscanf_04X_hex code hc4 hcx]
  | remaster key dir label =>
    obtain ⟨⟨hk4, hkx⟩, ⟨hd, hdl, hdc⟩, ⟨hl, hll, hlc⟩⟩ := hwf
    have hkne : key ≠ [] := by intro h; simp [h] at hk4
    obtain ⟨t1, t2, c1, c2⟩ := tok_pair key (dir ++ 64 :: label) (0 :: junk) hkne (by simp)
      (fun c hc => ⟨(isxdigit_tok key hkx c hc).1, (isxdigit_tok key hkx c hc).2.2.2.1⟩)
      (by intro c hc
          simp only [List.mem_cons, List.mem_append] at hc
          rcases hc with hc | rfl | hc
          · exact ⟨(hdc c hc).1, (hdc c hc).2.2.2.1⟩
          · decide
          · exact ⟨(hlc c hc).1, (hlc c hc).2.2.2.1⟩)
    have hr : (CfgLine.remaster key dir label).render ++ 0 :: 0 :: junk =
        key ++ 61 :: (dir ++ 64 :: label) ++ 0 :: 0 :: junk := by simp [CfgLine.render]
    refine ⟨key ++ 0 :: (dir ++ 64 :: label) ++ 0 :: 0 :: junk, ?_⟩
    rw [hr]
    simp only [t1, t2, c1, sscanf_v_u_hex key ⟨hk4, hkx⟩]

/-- One iteration of the loop of `load_exploitconfig` in stage 0 (looking for
the `[updatetitle_versions]` header) on a well-formed line. -/
theorem cfg_step0 (file : List Nat) (app v fuel : Nat) (ret : Int) (inst : Nat)
    (line eol f : List Nat) (heol : eol = [10] ∨ eol = [13, 10]) (l : CfgLine) (hwf : l.WellFormed) :
    ∃ line1, exploitconfig_loop file app v (fuel + 1) 0 ret inst line (l.render ++ eol ++ f) =
      if l = .updateHeader then exploitconfig_loop file app v fuel 1 3 inst line1 f
      else exploitconfig_loop file app v fuel 0 ret inst line1 f := by
  obtain ⟨line1, junk, hfg, hrm, hlen, hc⟩ := cfg_read line eol f heol l hwf
  refine ⟨l.render ++ 0 :: 0 :: junk, ?_⟩
  rw [exploitconfig_loop]
  simp only [hfg, hrm, hlen, hc, if_false, Nat.reduceEqDiff, or_self, if_true,
    cfgLine_render_eq_updateHeader l hwf]

/-- One iteration of the loop of `load_exploitconfig` in stage 2 (looking for
the `[remaster_versions]` header) on a well-formed line. -/
theorem cfg_step2 (file : List Nat) (app v fuel : Nat) (ret : Int) (inst : Nat)
    (line eol f : List Nat) (heol : eol = [10] ∨ eol = [13, 10]) (l : CfgLine) (hwf : l.WellFormed) :
    ∃ line1, exploitconfig_loop file app v (fuel + 1) 2 ret inst line (l.render ++ eol ++ f) =
      if l = .remasterHeader then exploitconfig_loop file app v fuel 3 5 inst line1 f
      else exploitconfig_loop file app v fuel 2 ret inst line1 f := by
  obtain ⟨line1, junk, hfg, hrm, hlen, hc⟩ := cfg_read line eol f heol l hwf
  refine ⟨l.render ++ 0 :: 0 :: junk, ?_⟩
  rw [exploitconfig_loop]
  simp only [hfg, hrm, hlen, hc, if_false, Nat.reduceEqDiff, or_self, if_true,
    cfgLine_render_eq_remasterHeader l hwf]

theorem configFile_length (eol : List Nat) (heol : eol ≠ []) (ls : List CfgLine) :
    ls.length ≤ (configFile eol ls).length := by
  induction ls with
  | nil => simp [configFile]
  | cons l ls ih =>
    have : 0 < eol.length := List.length_pos.mpr heol
    simp only [configFile, List.length_append, List.length_cons]
    omega

theorem fgets_eof (line : List Nat) : fgets line 255 [] = none := by
  simp [fgets, fgets_take]

theorem ite_lt_max (a b : Nat) : (if a < b then b else a) = max a b := by
  rw [Nat.max_def]
  split_ifs
  all_goals omega

/-- Stage 3 of `load_exploitconfig` on the rest of a well-formed file. -/
theorem cfg_stage3 (file : List Nat) (app v : Nat) (eol : List Nat)
    (heol : eol = [10] ∨ eol = [13, 10]) :
    ∀ (ls : List CfgLine) (line : List Nat) (ret : Int) (inst fuel : Nat),
      (∀ l ∈ ls, l.WellFormed) → ls.length + 1 ≤ fuel →
      exploitconfig_loop file app v fuel 3 ret inst line (configFile eol ls) =
        some (match findRemaster inst ls with
          | some (dir, label) => ⟨0, inst, some dir, some label⟩
          | none => ⟨ret, inst, none, none⟩) := by
  intro ls
  induction ls with
  | nil =>
    intro line ret inst fuel _ hfuel
    obtain ⟨fuel1, rfl⟩ : ∃ f, fuel = f + 1 := ⟨fuel - 1, by omega⟩
    simp [exploitconfig_loop, configFile, fgets_eof, findRemaster]
  | cons l ls ih =>
    intro line ret inst fuel hwf hfuel
    obtain ⟨fuel1, rfl⟩ : ∃ f, fuel = f + 1 := ⟨fuel - 1, by omega⟩
    have ih' := fun line => ih line ret inst fuel1 (fun l hl => hwf l (by simp [hl]))
      (by simp at hfuel; omega)
    obtain ⟨line1, hstep⟩ := cfg_step3 file app v fuel1 ret inst line eol (configFile eol ls) heol l
      (hwf l (by simp))
    simp only [configFile]
    rw [hstep]
    cases l with
    | updateHeader => simp only [findRemaster]; exact ih' _
    | remasterHeader => simp only [findRemaster]; exact ih' _
    | update build code => simp only [findRemaster]; exact ih' _
    | remaster key dir label =>
      by_cases hi : inst = numVal 16 key
      · simp [findRemaster, hi]
      · have hi2 : ¬ numVal 16 key = inst := fun h => hi h.symm
        simp only [findRemaster, hi, hi2, if_false]
        exact ih' _

/-- Stage 2 of `load_exploitconfig` on the rest of a well-formed file. -/
theorem cfg_stage2 (file : List Nat) (app v : Nat) (eol : List Nat)
    (heol : eol = [10] ∨ eol = [13, 10]) :
    ∀ (ls : List CfgLine) (line : List Nat) (ret : Int) (inst fuel : Nat),
      (∀ l ∈ ls, l.WellFormed) → ls.length + 1 ≤ fuel →
      exploitconfig_loop file app v fuel 2 ret inst line (configFile eol ls) =
        some (resolveRemaster ls inst ret) := by
  intro ls
  induction ls with
  | nil =>
    intro line ret inst fuel _ hfuel
    obtain ⟨fuel1, rfl⟩ : ∃ f, fuel = f + 1 := ⟨fuel - 1, by omega⟩
    simp [exploitconfig_loop, configFile, fgets_eof, resolveRemaster, afterHeader]
  | cons l ls ih =>
    intro line ret inst fuel hwf hfuel
    obtain ⟨fuel1, rfl⟩ : ∃ f, fuel = f + 1 := ⟨fuel - 1, by omega⟩
    have hwf' : ∀ l ∈ ls, l.WellFormed := fun l hl => hwf l (by simp [hl])
    have hf1 : ls.length + 1 ≤ fuel1 := by simp at hfuel; omega
    obtain ⟨line1, hstep⟩ := cfg_step2 file app v fuel1 ret inst line eol (configFile eol ls) heol l
      (hwf l (by simp))
    simp only [configFile]
    rw [hstep]
    by_cases hl : l = .remasterHeader
    · simp only [hl, if_true, resolveRemaster, afterHeader]
      rw [cfg_stage3 file app v eol heol ls line1 5 inst fuel1 hwf' hf1]
      cases findRemaster inst ls with
      | none => rfl
      | some r => rfl
    · simp only [hl, if_false, resolveRemaster, afterHeader]
      rw [ih line1 ret inst fuel1 hwf' hf1]
      rfl

/-- Stage 1 of `load_exploitconfig` on the rest of a well-formed file; `all`
are the lines of the whole file, to which the stream is rewound on a match. -/
theorem cfg_stage1 (app v : Nat) (eol : List Nat) (heol : eol = [10] ∨ eol = [13, 10])
    (all : List CfgLine) (hall : ∀ l ∈ all, l.WellFormed) :
    ∀ (ls : List CfgLine) (line : List Nat) (ret : Int) (inst fuel : Nat),
      (∀ l ∈ ls, l.WellFormed) → ls.length + 1 + (all.length + 1) ≤ fuel →
      exploitconfig_loop (configFile eol all) app v fuel 1 ret inst line (configFile eol ls) =
        some (match findUpdate v ls with
          | none => ⟨ret, inst, none, none⟩
          | some code => resolveRemaster all (max app code) 4) := by
  intro ls
  induction ls with
  | nil =>
    intro line ret inst fuel _ hfuel
    obtain ⟨fuel1, rfl⟩ : ∃ f, fuel = f + 1 := ⟨fuel - 1, by omega⟩
    simp [exploitconfig_loop, configFile, fgets_eof, findUpdate]
  | cons l ls ih =>
    intro line ret inst fuel hwf hfuel
    obtain ⟨fuel1, rfl⟩ : ∃ f, fuel = f + 1 := ⟨fuel - 1, by omega⟩
    have hf1 : ls.length + 1 + (all.length + 1) ≤ fuel1 := by simp at hfuel; omega
    have ih' := fun line => ih line ret inst fuel1 (fun l hl => hwf l (by simp [hl])) hf1
    obtain ⟨line1, hstep⟩ := cfg_step1 (configFile eol all) app v fuel1 ret inst line eol
      (configFile eol ls) heol l (hwf l (by simp))
    simp only [configFile]
    rw [hstep]
    cases l with
    | updateHeader => simp only [findUpdate]; exact ih' _
    | remasterHeader => simp only [findUpdate]; exact ih' _
    | remaster key dir label => simp only [findUpdate]; exact ih' _
    | update build code =>
      by_cases hb : numVal 10 build = v
      · simp only [findUpdate, hb, if_true, ite_lt_max]
        exact cfg_stage2 (configFile eol all) app v eol heol all line1 4 _ fuel1 hall (by omega)
      · simp only [findUpdate, hb, if_false]
        exact ih' _

/-- Stage 0 of `load_exploitconfig` on the rest of a well-formed file. -/
theorem cfg_stage0 (app v : Nat) (eol : List Nat) (heol : eol = [10] ∨ eol = [13, 10])
    (all : List CfgLine) (hall : ∀ l ∈ all, l.WellFormed) :
    ∀ (ls : List CfgLine) (line : List Nat) (ret : Int) (inst fuel : Nat),
      (∀ l ∈ ls, l.WellFormed) → ls.length + 1 + (all.length + 1) ≤ fuel →
      exploitconfig_loop (configFile eol all) app v fuel 0 ret inst line (configFile eol ls) =
        some (match afterHeader .updateHeader ls with
          | none => ⟨ret, inst, none, none⟩
          | some ls1 =>
            match findUpdate v ls1 with
            | none => ⟨3, inst, none, none⟩
            | some code => resolveRemaster all (max app code) 4) := by
  intro ls
  induction ls with
  | nil =>
    intro line ret inst fuel _ hfuel
    obtain ⟨fuel1, rfl⟩ : ∃ f, fuel = f + 1 := ⟨fuel - 1, by omega⟩
    simp [exploitconfig_loop, configFile, fgets_eof, afterHeader]
  | cons l ls ih =>
    intro line ret inst fuel hwf hfuel
    obtain ⟨fuel1, rfl⟩ : ∃ f, fuel = f + 1 := ⟨fuel - 1, by omega⟩
    have hwf' : ∀ l ∈ ls, l.WellFormed := fun l hl => hwf l (by simp [hl])
    have hf1 : ls.length + 1 + (all.length + 1) ≤ fuel1 := by simp at hfuel; omega
    obtain ⟨line1, hstep⟩ := cfg_step0 (configFile eol all) app v fuel1 ret inst line eol
      (configFile eol ls) heol l (hwf l (by simp))
    simp only [configFile]
    rw [hstep]
    by_cases hl : l = .updateHeader
    · simp only [hl, if_true, afterHeader]
      exact cfg_stage1 app v eol heol all hall ls line1 3 inst fuel1 hwf' hf1
    · simp only [hl, if_false, afterHeader]
      exact ih line1 ret inst fuel1 hwf' hf1

/-- On every file of well-formed lines `load_exploitconfig` returns what the
two-stage lookup specifies. -/
theorem load_exploitconfig_resolve (eol : List Nat) (heol : eol = [10] ∨ eol = [13, 10])
    (ls : List CfgLine) (hwf : ∀ l ∈ ls, l.WellFormed) (app : Nat) (update : Option Nat)
    (installed0 : Nat) :
    load_exploitconfig (configFile eol ls) app update installed0 =
      some (resolveVersion ls app update installed0) := by
  have hne : eol ≠ [] := by rcases heol with rfl | rfl <;> simp
  have hlen := configFile_length eol hne ls
  cases update with
  | none =>
    simp only [load_exploitconfig, resolveVersion]
    exact cfg_stage2 _ app 0 eol heol ls _ 5 app _ hwf (by omega)
  | some v =>
    simp only [load_exploitconfig, resolveVersion]
    rw [cfg_stage0 app v eol heol ls hwf ls _ 2 installed0 _ hwf (by omega)]

/-! ### `load_exploitversion` on well-formed files -/

/-- One iteration of the loop of `load_exploitversion` in stage 0. -/
theorem ver_step0 (index fuel i : Nat) (ret : Int) (line eol f : List Nat)
    (heol : eol = [10] ∨ eol = [13, 10]) (l : CfgLine) (hwf : l.WellFormed) :
    ∃ line1, exploitversion_loop index (fuel + 1) 0 i ret line (l.render ++ eol ++ f) =
      if l = .remasterHeader then exploitversion_loop index fuel 1 i 3 line1 f
      else exploitversion_loop index fuel 0 i ret line1 f := by
  obtain ⟨line1, junk, hfg, hrm, hlen, hc⟩ := cfg_read line eol f heol l hwf
  refine ⟨l.render ++ 0 :: 0 :: junk, ?_⟩
  rw [exploitversion_loop]
  simp only [hfg, hrm, hlen, hc, if_false, if_true, cfgLine_render_eq_remasterHeader l hwf]

/-- One iteration of the loop of `load_exploitversion` in stage 1 on a line
in front of the requested index: the line is counted and skipped. -/
theorem ver_step1_skip (index fuel i : Nat) (ret : Int) (line eol f : List Nat)
    (heol : eol = [10] ∨ eol = [13, 10]) (l : CfgLine) (hwf : l.WellFormed) (hi : i ≠ index) :
    ∃ line1, exploitversion_loop index (fuel + 1) 1 i ret line (l.render ++ eol ++ f) =
      exploitversion_loop index fuel 1 (i + 1) ret line1 f := by
  obtain ⟨line1, junk, hfg, hrm, hlen, hc⟩ := cfg_read line eol f heol l hwf
  refine ⟨l.render ++ 0 :: 0 :: junk, ?_⟩
  rw [exploitversion_loop]
  simp only [hfg, hrm, hlen, hi, if_false, if_true, Nat.reduceEqDiff, ne_eq, not_false_eq_true]

/-- One iteration of the loop of `load_exploitversion` in stage 1 once the
requested index is reached. -/
theorem ver_step1_at (index fuel : Nat) (ret : Int) (line eol f : List Nat)
    (heol : eol = [10] ∨ eol = [13, 10]) (l : CfgLine) (hwf : l.WellFormed) :
    ∃ line1, exploitversion_loop index (fuel + 1) 1 index ret line (l.render ++ eol ++ f) =
      match l with
      | .remaster key _ label => some ⟨0, some (numVal 16 key, label)⟩
      | _ => exploitversion_loop index fuel 1 index ret line1 f := by
  obtain ⟨line1, junk, hfg, hrm, hlen, _⟩ := cfg_read line eol f heol l hwf
  rw [exploitversion_loop]
  simp only [hfg, hrm, hlen, if_false, if_true, Nat.reduceEqDiff, ne_eq, not_true_eq_false]
  cases l with
  | updateHeader =>
    obtain ⟨hne, hL⟩ := header_tok _ (Or.inl rfl)
    refine ⟨bytes "[updatetitle_versions]" ++ 0 :: 0 :: junk, ?_⟩
    simp only [CfgLine.render, tok_header _ _ hne hL, strtok_null]
  | remasterHeader =>
    obtain ⟨hne, hL⟩ := header_tok _ (Or.inr rfl)
    refine ⟨bytes "[remaster_versions]" ++ 0 :: 0 :: junk, ?_⟩
    simp only [CfgLine.render, tok_header _ _ hne hL, strtok_null]
  | update build code =>
    obtain ⟨hb, hbl, hbd, hlt, hc4, hcx⟩ := hwf
    have hcne : code ≠ [] := by intro h; simp [h] at hc4
    obtain ⟨t1, t2, c1, c2⟩ := tok_pair (118 :: build) code (0 :: junk) (by simp) hcne
      (by intro c hc
          simp only [List.mem_cons] at hc
          rcases hc with rfl | hc
          · decide
          · have := isdigit_tok build hbd c hc; exact ⟨this.1, this.2.2.2.1⟩)
      (fun c hc => ⟨(isxdigit_tok code hcx c hc).1, (isxdigit_tok code hcx c hc).2.2.2.1⟩)
    refine ⟨(118 :: build) ++ 0 :: code ++ 0 :: 0 :: junk, ?_⟩
    simp only [CfgLine.render, t1, t2, c1, sscanf_04X_v]
  | remaster key dir label =>
    obtain ⟨⟨hk4, hkx⟩, ⟨hd, hdl, hdc⟩, ⟨hl, hll, hlc⟩⟩ := hwf
    have hkne : key ≠ [] := by intro h; simp [h] at hk4
    obtain ⟨t1, t2, c1, c2⟩ := tok_pair key (dir ++ 64 :: label) (0 :: junk) hkne (by simp)
      (fun c hc => ⟨(isxdigit_tok key hkx c hc).1, (isxdigit_tok key hkx c hc).2.2.2.1⟩)
      (by intro c hc
          simp only [List.mem_cons, List.mem_append] at hc
          rcases hc with hc | rfl | hc
          · exact ⟨(hdc c hc).1, (hdc c hc).2.2.2.1⟩
          · decide
          · exact ⟨(hlc c hc).1, (hlc c hc).2.2.2.1⟩)
    have hr : (CfgLine.remaster key dir label).render ++ 0 :: 0 :: junk =
        key ++ 61 :: (dir ++ 64 :: label) ++ 0 :: 0 :: junk := by simp [CfgLine.render]
    have hm : key ++ 0 :: (dir ++ 64 :: label) ++ 0 :: 0 :: junk =
        (key ++ [0]) ++ (dir ++ 64 :: label) ++ 0 :: 0 :: junk := by simp
    have hp : key.length + 1 = (key ++ [0]).length := by simp
    obtain ⟨d1, d2, d3, d4⟩ := tok_dir_label (key ++ [0]) dir label (0 :: junk) none hd hl
      (fun c hc => ⟨(hdc c hc).1, (hdc c hc).2.2.2.2⟩)
      (fun c hc => ⟨(hlc c hc).1, (hlc c hc).2.2.2.2⟩)
    refine ⟨[], ?_⟩
    rw [hr]
    simp only [t1, t2, c1, sscanf_04X_hex key hk4 hkx]
    rw [hm, hp]
    simp only [d1, d2, d4, strncpy63, List.take_of_length_le hll]

/-- Stage 1 of `load_exploitversion` on the rest of a well-formed file. -/
theorem ver_stage1 (index : Nat) (eol : List Nat) (heol : eol = [10] ∨ eol = [13, 10]) :
    ∀ (ls : List CfgLine) (line : List Nat) (ret : Int) (i fuel : Nat),
      (∀ l ∈ ls, l.WellFormed) → ls.length + 1 ≤ fuel → i ≤ index →
      exploitversion_loop index fuel 1 i ret line (configFile eol ls) =
        some (match firstRemaster (ls.drop (index - i)) with
          | none => ⟨ret, none⟩
          | some r => ⟨0, some r⟩) := by
  intro ls
  induction ls with
  | nil =>
    intro line ret i fuel _ hfuel _
    obtain ⟨fuel1, rfl⟩ : ∃ f, fuel = f + 1 := ⟨fuel - 1, by omega⟩
    simp [exploitversion_loop, configFile, fgets_eof, firstRemaster]
  | cons l ls ih =>
    intro line ret i fuel hwf hfuel hi
    obtain ⟨fuel1, rfl⟩ : ∃ f, fuel = f + 1 := ⟨fuel - 1, by omega⟩
    have hwf' : ∀ l ∈ ls, l.WellFormed := fun l hl => hwf l (by simp [hl])
    have hf1 : ls.length + 1 ≤ fuel1 := by simp at hfuel; omega
    simp only [configFile]
    by_cases hii : i = index
    · subst hii
      obtain ⟨line1, hstep⟩ := ver_step1_at i fuel1 ret line eol (configFile eol ls) heol l
        (hwf l (by simp))
      rw [hstep]
      have ih' := ih line1 ret i fuel1 hwf' hf1 (le_refl _)
      simp only [Nat.sub_self, List.drop_zero] at ih' ⊢
      cases l with
      | updateHeader => simp only [firstRemaster]; exact ih'
      | remasterHeader => simp only [firstRemaster]; exact ih'
      | update build code => simp only [firstRemaster]; exact ih'
      | remaster key dir label => simp only [firstRemaster]
    · obtain ⟨line1, hstep⟩ := ver_step1_skip index fuel1 i ret line eol (configFile eol ls) heol l
        (hwf l (by simp)) hii
      rw [hstep, ih line1 ret (i + 1) fuel1 hwf' hf1 (by omega)]
      have : index - i = (index - (i + 1)) + 1 := by omega
      rw [this, List.drop_succ_cons]

/-- On every file of well-formed lines `load_exploitversion` returns what
enumeration mode specifies. -/
theorem load_exploitversion_enumerate (eol : List Nat) (heol : eol = [10] ∨ eol = [13, 10])
    (index : Nat) :
    ∀ (ls : List CfgLine) (line : List Nat) (fuel : Nat),
      (∀ l ∈ ls, l.WellFormed) → ls.length + 1 ≤ fuel →
      exploitversion_loop index fuel 0 0 2 line (configFile eol ls) =
        some (enumerateVersion ls index) := by
  intro ls
  induction ls with
  | nil =>
    intro line fuel _ hfuel
    obtain ⟨fuel1, rfl⟩ : ∃ f, fuel = f + 1 := ⟨fuel - 1, by omega⟩
    simp [exploitversion_loop, configFile, fgets_eof, enumerateVersion, afterHeader]
  | cons l ls ih =>
    intro line fuel hwf hfuel
    obtain ⟨fuel1, rfl⟩ : ∃ f, fuel = f + 1 := ⟨fuel - 1, by omega⟩
    have hwf' : ∀ l ∈ ls, l.WellFormed := fun l hl => hwf l (by simp [hl])
    have hf1 : ls.length + 1 ≤ fuel1 := by simp at hfuel; omega
    obtain ⟨line1, hstep⟩ := ver_step0 index fuel1 0 2 line eol (configFile eol ls) heol l
      (hwf l (by simp))
    simp only [configFile]
    rw [hstep]
    by_cases hl : l = .remasterHeader
    · simp only [hl, if_true, enumerateVersion, afterHeader]
      rw [ver_stage1 index eol heol ls line1 3 0 fuel1 hwf' hf1 (Nat.zero_le _)]
      rfl
    · simp only [hl, if_false, enumerateVersion, afterHeader]
      rw [ih line1 fuel1 hwf' hf1]
      rfl

/-! ### Files with the two sections in either order -/

theorem afterHeader_skip (h : CfgLine) (pre rest : List CfgLine) (hpre : ∀ l ∈ pre, l ≠ h) :
    afterHeader h (pre ++ h :: rest) = some rest := by
  induction pre with
  | nil => simp [afterHeader]
  | cons a as ih =>
    have ha : a ≠ h := hpre a (by simp)
    simp only [List.cons_append, afterHeader, ha, if_false]
    exact ih (fun l hl => hpre l (by simp [hl]))

theorem findUpdate_updates (v : Nat) (us : List (List Nat × List Nat)) (b : List CfgLine) :
    findUpdate v (us.map (fun u => CfgLine.update u.1 u.2) ++ b) =
      match us.find? (fun u => numVal 10 u.1 == v) with
      | some u => some (numVal 16 u.2)
      | none => findUpdate v b := by
  induction us with
  | nil => simp
  | cons u us ih =>
    by_cases hu : numVal 10 u.1 = v
    · simp [findUpdate, List.find?, hu]
    · have : (numVal 10 u.1 == v) = false := by simp [hu]
      simp only [List.map_cons, List.cons_append, findUpdate, hu, if_false, List.find?, this]
      exact ih

theorem findUpdate_remasters (v : Nat) (rs : List (List Nat × List Nat × List Nat)) :
    findUpdate v (rs.map (fun r => CfgLine.remaster r.1 r.2.1 r.2.2)) = none := by
  induction rs with
  | nil => rfl
  | cons r rs ih => simpa [findUpdate] using ih

theorem findRemaster_remasters (c : Nat) (rs : List (List Nat × List Nat × List Nat))
    (b : List CfgLine) :
    findRemaster c (rs.map (fun r => CfgLine.remaster r.1 r.2.1 r.2.2) ++ b) =
      match rs.find? (fun r => numVal 16 r.1 == c) with
      | some r => some (r.2.1, r.2.2)
      | none => findRemaster c b := by
  induction rs with
  | nil => simp
  | cons r rs ih =>
    by_cases hr : numVal 16 r.1 = c
    · simp [findRemaster, List.find?, hr]
    · have : (numVal 16 r.1 == c) = false := by simp [hr]
      simp only [List.map_cons, List.cons_append, findRemaster, hr, if_false, List.find?, this]
      exact ih

theorem firstRemaster_updates (us : List (List Nat × List Nat)) :
    firstRemaster (us.map (fun u => CfgLine.update u.1 u.2)) = none := by
  induction us with
  | nil => rfl
  | cons u us ih => simpa [firstRemaster] using ih

theorem firstRemaster_drop_none (ls : List CfgLine) (h : firstRemaster ls = none) :
    ∀ i, firstRemaster (ls.drop i) = none := by
  induction ls with
  | nil => intro i; simp [firstRemaster]
  | cons l ls ih =>
    intro i
    cases i with
    | zero => simpa using h
    | succ i =>
      simp only [List.drop_succ_cons]
      apply ih
      cases l with
      | updateHeader => simpa [firstRemaster] using h
      | remasterHeader => simpa [firstRemaster] using h
      | update build code => simpa [firstRemaster] using h
      | remaster key dir label => simp [firstRemaster] at h

theorem firstRemaster_drop (rs : List (List Nat × List Nat × List Nat)) (b : List CfgLine)
    (hb : firstRemaster b = none) :
    ∀ i, firstRemaster ((rs.map (fun r => CfgLine.remaster r.1 r.2.1 r.2.2) ++ b).drop i) =
      (rs[i]?).map (fun e => (numVal 16 e.1, e.2.2)) := by
  induction rs with
  | nil =>
    intro i
    simpa using firstRemaster_drop_none b hb i
  | cons r rs ih =>
    intro i
    cases i with
    | zero => simp [firstRemaster]
    | succ i => simpa using ih i

theorem twoSections_wf (remasterFirst : Bool) (updates : List (List Nat × List Nat))
    (remasters : List (List Nat × List Nat × List Nat))
    (hus : ∀ u ∈ updates, (CfgLine.update u.1 u.2).WellFormed)
    (hrs : ∀ r ∈ remasters, (CfgLine.remaster r.1 r.2.1 r.2.2).WellFormed) :
    ∀ l ∈ twoSections remasterFirst updates remasters, l.WellFormed := by
  intro l hl
  have key : l = .updateHeader ∨ l = .remasterHeader ∨
      (∃ u ∈ updates, l = .update u.1 u.2) ∨ (∃ r ∈ remasters, l = .remaster r.1 r.2.1 r.2.2) := by
    cases remasterFirst <;>
      simp only [twoSections, if_true, if_false, Bool.false_eq_true, List.mem_cons, List.mem_append,
        List.mem_map] at hl
    · rcases hl with (rfl | ⟨u, hu, rfl⟩) | rfl | ⟨r, hr, rfl⟩
      · exact Or.inl rfl
      · exact Or.inr (Or.inr (Or.inl ⟨u, hu, rfl⟩))
      · exact Or.inr (Or.inl rfl)
      · exact Or.inr (Or.inr (Or.inr ⟨r, hr, rfl⟩))
    · rcases hl with (rfl | ⟨r, hr, rfl⟩) | rfl | ⟨u, hu, rfl⟩
      · exact Or.inr (Or.inl rfl)
      · exact Or.inr (Or.inr (Or.inr ⟨r, hr, rfl⟩))
      · exact Or.inl rfl
      · exact Or.inr (Or.inr (Or.inl ⟨u, hu, rfl⟩))
  rcases key with rfl | rfl | ⟨u, hu, rfl⟩ | ⟨r, hr, rfl⟩
  · trivial
  · trivial
  · exact hus u hu
  · exact hrs r hr

theorem twoSections_afterUpdate (remasterFirst : Bool) (updates : List (List Nat × List Nat))
    (remasters : List (List Nat × List Nat × List Nat)) :
    afterHeader .updateHeader (twoSections remasterFirst updates remasters) =
      some (updates.map (fun u => CfgLine.update u.1 u.2) ++
        (if remasterFirst then []
         else .remasterHeader :: remasters.map (fun r => CfgLine.remaster r.1 r.2.1 r.2.2))) := by
  cases remasterFirst
  · simp [twoSections, afterHeader]
  · have := afterHeader_skip .updateHeader
      (.remasterHeader :: remasters.map (fun r => CfgLine.remaster r.1 r.2.1 r.2.2))
      (updates.map (fun u => CfgLine.update u.1 u.2))
      (by intro l hl
          simp only [List.mem_cons, List.mem_map] at hl
          rcases hl with rfl | ⟨r, _, rfl⟩ <;> simp)
    simpa [twoSections] using this

theorem twoSections_afterRemaster (remasterFirst : Bool) (updates : List (List Nat × List Nat))
    (remasters : List (List Nat × List Nat × List Nat)) :
    afterHeader .remasterHeader (twoSections remasterFirst updates remasters) =
      some (remasters.map (fun r => CfgLine.remaster r.1 r.2.1 r.2.2) ++
        (if remasterFirst then .updateHeader :: updates.map (fun u => CfgLine.update u.1 u.2)
         else [])) := by
  cases remasterFirst
  · have := afterHeader_skip .remasterHeader
      (.updateHeader :: updates.map (fun u => CfgLine.update u.1 u.2))
      (remasters.map (fun r => CfgLine.remaster r.1 r.2.1 r.2.2))
      (by intro l hl
          simp only [List.mem_cons, List.mem_map] at hl
          rcases hl with rfl | ⟨r, _, rfl⟩ <;> simp)
    simpa [twoSections] using this
  · simp [twoSections, afterHeader]

theorem twoSections_findUpdate (v : Nat) (remasterFirst : Bool)
    (updates : List (List Nat × List Nat)) (remasters : List (List Nat × List Nat × List Nat)) :
    findUpdate v (updates.map (fun u => CfgLine.update u.1 u.2) ++
        (if remasterFirst then []
         else .remasterHeader :: remasters.map (fun r => CfgLine.remaster r.1 r.2.1 r.2.2))) =
      (updates.find? (fun u => numVal 10 u.1 == v)).map (fun u => numVal 16 u.2) := by
  rw [findUpdate_updates]
  have : findUpdate v (if remasterFirst then []
      else .remasterHeader :: remasters.map (fun r => CfgLine.remaster r.1 r.2.1 r.2.2)) = none := by
    cases remasterFirst
    · simpa [findUpdate] using findUpdate_remasters v remasters
    · simp [findUpdate]
  rw [this]
  cases updates.find? (fun u => numVal 10 u.1 == v) <;> rfl

theorem twoSections_findRemaster (c : Nat) (remasterFirst : Bool)
    (updates : List (List Nat × List Nat)) (remasters : List (List Nat × List Nat × List Nat)) :
    findRemaster c (remasters.map (fun r => CfgLine.remaster r.1 r.2.1 r.2.2) ++
        (if remasterFirst then .updateHeader :: updates.map (fun u => CfgLine.update u.1 u.2)
         else [])) =
      (remasters.find? (fun r => numVal 16 r.1 == c)).map (fun r => (r.2.1, r.2.2)) := by
  rw [findRemaster_remasters]
  have hnone : ∀ us : List (List Nat × List Nat),
      findRemaster c (us.map (fun u => CfgLine.update u.1 u.2)) = none := by
    intro us
    induction us with
    | nil => rfl
    | cons u us ih => simpa [findRemaster] using ih
  have : findRemaster c (if remasterFirst then
      .updateHeader :: updates.map (fun u => CfgLine.update u.1 u.2) else []) = none := by
    cases remasterFirst
    · simp [findRemaster]
    · simpa [findRemaster] using hnone updates
  rw [this]
  cases remasters.find? (fun r => numVal 16 r.1 == c) <;> rfl

theorem resolveRemaster_installed (ls : List CfgLine) (inst : Nat) (missing : Int) :
    (resolveRemaster ls inst missing).installed_remaster_version = inst := by
  unfold resolveRemaster
  split
  · rfl
  · split
    · rfl
    · rfl

/-- C4 (amended): in a well-formed configuration file (sections in either
order) where the first line `v<build>=<4 hex digits>` of the
`[updatetitle_versions]` section whose build number equals the update's build
number maps to `code`, `load_exploitconfig` sets the installed remaster
version to `max(app, code)`, which is never less than the application's
remaster version; without an update title it is the application's remaster
version. -/
theorem load_exploitconfig_installed (eol : List Nat) (heol : eol = [10] ∨ eol = [13, 10])
    (remasterFirst : Bool) (updates : List (List Nat × List Nat))
    (remasters : List (List Nat × List Nat × List Nat))
    (hus : ∀ u ∈ updates, (CfgLine.update u.1 u.2).WellFormed)
    (hrs : ∀ r ∈ remasters, (CfgLine.remaster r.1 r.2.1 r.2.2).WellFormed)
    (app v installed0 : Nat) :
    (∀ u, updates.find? (fun u => numVal 10 u.1 == v) = some u →
      ∃ r, load_exploitconfig (configFile eol (twoSections remasterFirst updates remasters)) app
          (some v) installed0 = some r ∧
        r.installed_remaster_version = max app (numVal 16 u.2) ∧
        app ≤ r.installed_remaster_version) ∧
    (∃ r, load_exploitconfig (configFile eol (twoSections remasterFirst updates remasters)) app
        none installed0 = some r ∧ r.installed_remaster_version = app) := by
  have hwf := twoSections_wf remasterFirst updates remasters hus hrs
  constructor
  · intro u hu
    refine ⟨_, load_exploitconfig_resolve eol heol _ hwf app (some v) installed0, ?_⟩
    have : (resolveVersion (twoSections remasterFirst updates remasters) app (some v)
        installed0).installed_remaster_version = max app (numVal 16 u.2) := by
      simp only [resolveVersion, twoSections_afterUpdate, twoSections_findUpdate, hu, Option.map_some']
      exact resolveRemaster_installed _ _ _
    rw [this]
    exact ⟨rfl, Nat.le_max_left _ _⟩
  · refine ⟨_, load_exploitconfig_resolve eol heol _ hwf app none installed0, ?_⟩
    simp only [resolveVersion]
    exact resolveRemaster_installed _ _ _

set_option maxRecDepth 100000 in
/-- Witness for C4: update build 5, application remaster 0x0010; the line
`v5=0020` gives 0x0020 and the line `v5=0005` leaves 0x0010. -/
theorem load_exploitconfig_installed_witness :
    (load_exploitconfig
        (bytes "[updatetitle_versions]\nv5=0020\n[remaster_versions]\n0010=v10@1.0\n0020=v11@1.1\n")
        0x10 (some 5) 0).map (fun r => r.installed_remaster_version) = some 0x20 ∧
    (load_exploitconfig
        (bytes "[updatetitle_versions]\nv5=0005\n[remaster_versions]\n0010=v10@1.0\n0020=v11@1.1\n")
        0x10 (some 5) 0).map (fun r => r.installed_remaster_version) = some 0x10 := by
  have hrs : ∀ r ∈ [(bytes "0010", bytes "v10", bytes "1.0"), (bytes "0020", bytes "v11", bytes "1.1")],
      (CfgLine.remaster r.1 r.2.1 r.2.2).WellFormed := by decide
  obtain ⟨r1, h1, h1i, _⟩ := (load_exploitconfig_installed [10] (Or.inl rfl) false
    [(bytes "5", bytes "0020")]
    [(bytes "0010", bytes "v10", bytes "1.0"), (bytes "0020", bytes "v11", bytes "1.1")]
    (by decide) hrs 0x10 5 0).1 (bytes "5", bytes "0020") (by decide)
  obtain ⟨r2, h2, h2i, _⟩ := (load_exploitconfig_installed [10] (Or.inl rfl) false
    [(bytes "5", bytes "0005")]
    [(bytes "0010", bytes "v10", bytes "1.0"), (bytes "0020", bytes "v11", bytes "1.1")]
    (by decide) hrs 0x10 5 0).1 (bytes "5", bytes "0005") (by decide)
  have e1 : configFile [10] (twoSections false [(bytes "5", bytes "0020")]
      [(bytes "0010", bytes "v10", bytes "1.0"), (bytes "0020", bytes "v11", bytes "1.1")]) =
      bytes "[updatetitle_versions]\nv5=0020\n[remaster_versions]\n0010=v10@1.0\n0020=v11@1.1\n" := by
    decide
  have e2 : configFile [10] (twoSections false [(bytes "5", bytes "0005")]
      [(bytes "0010", bytes "v10", bytes "1.0"), (bytes "0020", bytes "v11", bytes "1.1")]) =
      bytes "[updatetitle_versions]\nv5=0005\n[remaster_versions]\n0010=v10@1.0\n0020=v11@1.1\n" := by
    decide
  rw [e1] at h1
  rw [e2] at h2
  rw [h1, h2]
  simp only [Option.map_some', h1i, h2i]
  decide

set_option maxRecDepth 100000 in
/-- C4 as stated fails on its own witness read literally: with the line
`v5=0x0020` the conversion `%04X` reads at most the four characters `0x00`,
so the mapped code is 0 and the installed remaster version stays 0x0010. -/
theorem load_exploitconfig_prefixed_code :
    (load_exploitconfig
        (bytes "[updatetitle_versions]\nv5=0x0020\n[remaster_versions]\n0010=v10@1.0\n0020=v11@1.1\n")
        0x10 (some 5) 0).map (fun r => r.installed_remaster_version) = some 0x10 ∧
    (0x10 : Nat) ≠ 0x20 := by
  decide

/-- C5: in a well-formed configuration file (sections in either order) whose
`[remaster_versions]` section has a line whose key equals the installed
remaster version, `load_exploitconfig` returns 0 with the version directory
and display version of the first such line, both when there is no update
title (stage 1 skipped) and when stage 1 matched and the scan restarted. -/
theorem load_exploitconfig_lookup (eol : List Nat) (heol : eol = [10] ∨ eol = [13, 10])
    (remasterFirst : Bool) (updates : List (List Nat × List Nat))
    (remasters : List (List Nat × List Nat × List Nat))
    (hus : ∀ u ∈ updates, (CfgLine.update u.1 u.2).WellFormed)
    (hrs : ∀ r ∈ remasters, (CfgLine.remaster r.1 r.2.1 r.2.2).WellFormed)
    (app v installed0 : Nat) (e : List Nat × List Nat × List Nat) :
    (remasters.find? (fun r => numVal 16 r.1 == app) = some e →
      load_exploitconfig (configFile eol (twoSections remasterFirst updates remasters)) app none
        installed0 = some ⟨0, app, some e.2.1, some e.2.2⟩) ∧
    (∀ u, updates.find? (fun u => numVal 10 u.1 == v) = some u →
      remasters.find? (fun r => numVal 16 r.1 == max app (numVal 16 u.2)) = some e →
      load_exploitconfig (configFile eol (twoSections remasterFirst updates remasters)) app (some v)
        installed0 = some ⟨0, max app (numVal 16 u.2), some e.2.1, some e.2.2⟩) := by
  have hwf := twoSections_wf remasterFirst updates remasters hus hrs
  constructor
  · intro he
    rw [load_exploitconfig_resolve eol heol _ hwf app none installed0]
    simp only [resolveVersion, resolveRemaster, twoSections_afterRemaster, twoSections_findRemaster,
      he, Option.map_some']
  · intro u hu he
    rw [load_exploitconfig_resolve eol heol _ hwf app (some v) installed0]
    simp only [resolveVersion, resolveRemaster, twoSections_afterUpdate, twoSections_findUpdate, hu,
      twoSections_afterRemaster, twoSections_findRemaster, he, Option.map_some']

set_option maxRecDepth 100000 in
/-- Witness for C5: with the `[remaster_versions]` section first, update build
5 mapped to 0x0020 and application remaster 0x0010, the lookup returns the
entry `0020=v11@1.1`; without an update title it returns `0010=v10@1.0`. -/
theorem load_exploitconfig_lookup_witness :
    load_exploitconfig
        (bytes "[remaster_versions]\r\n0010=v10@1.0\r\n0020=v11@1.1\r\n[updatetitle_versions]\r\nv5=0020\r\n")
        0x10 (some 5) 0 = some ⟨0, 0x20, some (bytes "v11"), some (bytes "1.1")⟩ ∧
    load_exploitconfig
        (bytes "[remaster_versions]\r\n0010=v10@1.0\r\n0020=v11@1.1\r\n[updatetitle_versions]\r\nv5=0020\r\n")
        0x10 none 0 = some ⟨0, 0x10, some (bytes "v10"), some (bytes "1.0")⟩ := by
  have hrs : ∀ r ∈ [(bytes "0010", bytes "v10", bytes "1.0"), (bytes "0020", bytes "v11", bytes "1.1")],
      (CfgLine.remaster r.1 r.2.1 r.2.2).WellFormed := by decide
  have h1 := (load_exploitconfig_lookup [13, 10] (Or.inr rfl) true [(bytes "5", bytes "0020")]
    [(bytes "0010", bytes "v10", bytes "1.0"), (bytes "0020", bytes "v11", bytes "1.1")]
    (by decide) hrs 0x10 5 0 (bytes "0020", bytes "v11", bytes "1.1")).2
    (bytes "5", bytes "0020") (by decide) (by decide)
  have h2 := (load_exploitconfig_lookup [13, 10] (Or.inr rfl) true [(bytes "5", bytes "0020")]
    [(bytes "0010", bytes "v10", bytes "1.0"), (bytes "0020", bytes "v11", bytes "1.1")]
    (by decide) hrs 0x10 5 0 (bytes "0010", bytes "v10", bytes "1.0")).1 (by decide)
  have e1 : configFile [13, 10] (twoSections true [(bytes "5", bytes "0020")]
      [(bytes "0010", bytes "v10", bytes "1.0"), (bytes "0020", bytes "v11", bytes "1.1")]) =
      bytes "[remaster_versions]\r\n0010=v10@1.0\r\n0020=v11@1.1\r\n[updatetitle_versions]\r\nv5=0020\r\n" := by
    decide
  rw [e1] at h1 h2
  rw [h1, h2]
  decide

theorem twoSections_enumerate (remasterFirst : Bool) (updates : List (List Nat × List Nat))
    (remasters : List (List Nat × List Nat × List Nat)) (i : Nat) :
    enumerateVersion (twoSections remasterFirst updates remasters) i =
      match remasters[i]? with
      | some e => ⟨0, some (numVal 16 e.1, e.2.2)⟩
      | none => ⟨3, none⟩ := by
  have hb : firstRemaster (if remasterFirst then
      .updateHeader :: updates.map (fun u => CfgLine.update u.1 u.2) else []) = none := by
    cases remasterFirst
    · simp [firstRemaster]
    · simpa [firstRemaster] using firstRemaster_updates updates
  simp only [enumerateVersion, twoSections_afterRemaster, firstRemaster_drop remasters _ hb i]
  cases remasters[i]? <;> rfl

theorem version_enum_loop_count (f : List Nat) (n : Nat)
    (hlt : ∀ i, i < n → ∃ r, load_exploitversion f i = some r ∧ r.ret = 0)
    (hge : ∃ r, load_exploitversion f n = some r ∧ r.ret ≠ 0) :
    ∀ (fuel k : Nat), k ≤ n → n - k < fuel → version_enum_loop f fuel k = some n := by
  intro fuel
  induction fuel with
  | zero => intro k _ h; omega
  | succ fuel ih =>
    intro k hk hf
    rw [version_enum_loop]
    by_cases hkn : k = n
    · subst hkn
      obtain ⟨r, hr, hr0⟩ := hge
      simp only [hr, hr0, ne_eq, not_false_eq_true, if_true]
    · obtain ⟨r, hr, hr0⟩ := hlt k (by omega)
      simp only [hr, hr0, ne_eq, not_true_eq_false, if_false]
      exact ih (k + 1) (by omega) (by omega)

/-- C6: in a well-formed configuration file (sections in either order) whose
`[remaster_versions]` section holds `n` entries, `load_exploitversion` with an
index `i < n` returns 0 with the remaster code and display version of entry
`i` (0-based, file order); with any index `i >= n` it returns the non-zero
code 3 and no entry; the enumeration loop of `main` therefore stops with a
count of exactly `n`. -/
theorem load_exploitversion_index (eol : List Nat) (heol : eol = [10] ∨ eol = [13, 10])
    (remasterFirst : Bool) (updates : List (List Nat × List Nat))
    (remasters : List (List Nat × List Nat × List Nat))
    (hus : ∀ u ∈ updates, (CfgLine.update u.1 u.2).WellFormed)
    (hrs : ∀ r ∈ remasters, (CfgLine.remaster r.1 r.2.1 r.2.2).WellFormed) :
    (∀ i e, remasters[i]? = some e →
      load_exploitversion (configFile eol (twoSections remasterFirst updates remasters)) i =
        some ⟨0, some (numVal 16 e.1, e.2.2)⟩) ∧
    (∀ i, remasters.length ≤ i →
      load_exploitversion (configFile eol (twoSections remasterFirst updates remasters)) i =
        some ⟨3, none⟩) ∧
    (∀ fuel, remasters.length < fuel →
      version_enum_loop (configFile eol (twoSections remasterFirst updates remasters)) fuel 0 =
        some remasters.length) := by
  have hwf := twoSections_wf remasterFirst updates remasters hus hrs
  have hne : eol ≠ [] := by rcases heol with rfl | rfl <;> simp
  have hload : ∀ i, load_exploitversion (configFile eol (twoSections remasterFirst updates remasters)) i =
      some (match remasters[i]? with
        | some e => ⟨0, some (numVal 16 e.1, e.2.2)⟩
        | none => ⟨3, none⟩) := by
    intro i
    unfold load_exploitversion
    rw [load_exploitversion_enumerate eol heol i _ _ _ hwf
      (by have := configFile_length eol hne (twoSections remasterFirst updates remasters); omega),
      twoSections_enumerate]
  have h1 : ∀ i e, remasters[i]? = some e →
      load_exploitversion (configFile eol (twoSections remasterFirst updates remasters)) i =
        some ⟨0, some (numVal 16 e.1, e.2.2)⟩ := by
    intro i e he
    rw [hload i, he]
  have h2 : ∀ i, remasters.length ≤ i →
      load_exploitversion (configFile eol (twoSections remasterFirst updates remasters)) i =
        some ⟨3, none⟩ := by
    intro i hi
    rw [hload i, List.getElem?_eq_none hi]
  refine ⟨h1, h2, ?_⟩
  intro fuel hfuel
  apply version_enum_loop_count _ remasters.length _ _ fuel 0 (Nat.zero_le _) (by omega)
  · intro i hi
    exact ⟨_, h1 i remasters[i] (List.getElem?_eq_getElem hi), rfl⟩
  · exact ⟨_, h2 _ (le_refl _), by decide⟩

set_option maxRecDepth 100000 in
/-- Witness for C6: two entries in `[remaster_versions]`, followed by the
`[updatetitle_versions]` section: index 1 yields the second entry, index 2
yields result 3, and the enumeration counts 2. -/
theorem load_exploitversion_index_witness :
    load_exploitversion
        (bytes "[remaster_versions]\n0010=v10@1.0\n0020=v11@1.1\n[updatetitle_versions]\nv5=0020\n") 1 =
      some ⟨0, some (0x20, bytes "1.1")⟩ ∧
    load_exploitversion
        (bytes "[remaster_versions]\n0010=v10@1.0\n0020=v11@1.1\n[updatetitle_versions]\nv5=0020\n") 2 =
      some ⟨3, none⟩ ∧
    version_enum_loop
        (bytes "[remaster_versions]\n0010=v10@1.0\n0020=v11@1.1\n[updatetitle_versions]\nv5=0020\n") 3 0 =
      some 2 := by
  obtain ⟨h1, h2, h3⟩ := load_exploitversion_index [10] (Or.inl rfl) true [(bytes "5", bytes "0020")]
    [(bytes "0010", bytes "v10", bytes "1.0"), (bytes "0020", bytes "v11", bytes "1.1")]
    (by decide) (by decide)
  have e1 : configFile [10] (twoSections true [(bytes "5", bytes "0020")]
      [(bytes "0010", bytes "v10", bytes "1.0"), (bytes "0020", bytes "v11", bytes "1.1")]) =
      bytes "[remaster_versions]\n0010=v10@1.0\n0020=v11@1.1\n[updatetitle_versions]\nv5=0020\n" := by
    decide
  rw [e1] at h1 h2 h3
  refine ⟨?_, h2 2 (by decide), h3 3 (by decide)⟩
  rw [h1 1 (bytes "0020", bytes "v11", bytes "1.1") (by decide)]
  decide

/-! ### The embed placeholder -/

theorem strtol16_hex (hex : List Nat) (hx : ∀ c ∈ hex, isxdigit c = true) :
    strtol16 hex = min (numVal 16 hex) (2 ^ 31 - 1) := by
  unfold strtol16
  rw [takeWhile_all _ _ hx]

theorem peek_window (P hex T : List Nat) (h8 : hex.length = 8) :
    (List.range 8).map (fun i => peek (P ++ 33 :: 112 :: (hex ++ T)) (P.length + 2 + i)) = hex := by
  have hm : P ++ 33 :: 112 :: (hex ++ T) = (P ++ [33, 112]) ++ (hex ++ T) := by simp
  have hl : ∀ i, P.length + 2 + i = (P ++ [33, 112]).length + i := by
    intro i; simp only [List.length_append, List.length_cons, List.length_nil]
  simp only [hm, hl, peek_add]
  match hex, h8 with
  | [a, b, c, d, e, f, g, h], _ => rfl

/-- Expansion of `pre@!p<8 hex digits>` followed by `k` separators and a
literal `post`, for a template that starts at index `B.length` of the buffer:
`payload_embed.path` is the output accumulated when the placeholder is met. -/
theorem convert_filepath_embed_at (ms : Nat) (slot : Int) (B pre post rest hex : List Nat) (k : Nat)
    (out : List Nat) (pe : PayloadEmbed)
    (hpre : pre ≠ []) (hpre2 : ∀ c ∈ pre, c ≠ 0 ∧ c ≠ 64)
    (hpost : ∀ c ∈ post, c ≠ 0 ∧ c ≠ 64) (hhex : HexDigits 8 hex)
    (hsafe : post ≠ [] → rest.head? ≠ some 33) :
    ∃ mem, convert_filepath (B ++ pre ++ 64 :: 33 :: 112 :: (hex ++ (List.replicate k 64 ++ post ++ 0 :: rest)))
      B.length out ms slot pe =
      some ⟨0, mem, out ++ pre.take (ms - 1) ++ post.take (ms - 1),
        ⟨true, min (numVal 16 hex) (2 ^ 31 - 1), strncpy255 (out ++ pre.take (ms - 1))⟩⟩ := by
  have ht := strtok_delim0 B pre (33 :: 112 :: (hex ++ (List.replicate k 64 ++ post ++ 0 :: rest))) 64
    (some B.length) none rfl (by decide) hpre hpre2
  have hc : cstr (B ++ pre ++ 0 :: 33 :: 112 :: (hex ++ (List.replicate k 64 ++ post ++ 0 :: rest)))
      B.length = pre := cstr_at B pre _ (fun c hc => (hpre2 c hc).1)
  have hm : B ++ pre ++ 0 :: 33 :: 112 :: (hex ++ (List.replicate k 64 ++ post ++ 0 :: rest)) =
      (B ++ pre ++ [0]) ++ 33 :: 112 :: (hex ++ (List.replicate k 64 ++ post ++ 0 :: rest)) := by simp
  have hl : B.length + pre.length + 1 = (B ++ pre ++ [0]).length := by
    simp only [List.length_append, List.length_cons, List.length_nil]
  have hp0 : peek (B ++ pre ++ 0 :: 33 :: 112 :: (hex ++ (List.replicate k 64 ++ post ++ 0 :: rest)))
      (B.length + pre.length + 1) = 33 := by
    rw [hm, hl]; exact peek_pre _ _ _
  have hp1 : peek (B ++ pre ++ 0 :: 33 :: 112 :: (hex ++ (List.replicate k 64 ++ post ++ 0 :: rest)))
      (B.length + pre.length + 1 + 1) = 112 := by
    rw [hm, hl, peek_add]; rfl
  have hw : (List.range 8).map (fun i => peek (B ++ pre ++ 0 :: 33 :: 112 ::
      (hex ++ (List.replicate k 64 ++ post ++ 0 :: rest))) (B.length + pre.length + 1 + 2 + i)) = hex := by
    rw [hm, hl]; exact peek_window _ hex _ hhex.1
  have hall : hex.all isxdigit = true := by
    rw [List.all_eq_true]; exact hhex.2
  have hm2 : B ++ pre ++ 0 :: 33 :: 112 :: (hex ++ (List.replicate k 64 ++ post ++ 0 :: rest)) =
      (B ++ pre ++ 0 :: 33 :: 112 :: hex) ++ List.replicate k 64 ++ post ++ 0 :: rest := by simp
  have hl2 : B.length + pre.length + 1 + 10 = (B ++ pre ++ 0 :: 33 :: 112 :: hex).length := by
    simp only [List.length_append, List.length_cons, hhex.1]
  have htail := convert_tail ms slot (B ++ pre ++ 0 :: 33 :: 112 :: hex) post rest k
    ((B ++ pre ++ 64 :: 33 :: 112 :: (hex ++ (List.replicate k 64 ++ post ++ 0 :: rest))).length)
    (strncat out pre (ms - 1)) ⟨true, strtol16 hex, strncpy255 (strncat out pre (ms - 1))⟩
    (some (B.length + pre.length + 1 + 10)) (some (B.length + pre.length + 1))
    (by rw [hl2]; rfl) hpost hsafe
    (by obtain ⟨p0, ps, rfl⟩ := List.exists_cons_of_ne_nil hpre
        simp only [List.length_append, List.length_cons]; omega)
  refine ⟨(B ++ pre ++ 0 :: 33 :: 112 :: hex) ++ List.replicate k 64 ++ post ++ 0 :: rest, ?_⟩
  unfold convert_filepath
  rw [ht]
  rw [convert_loop]
  have h100 : ¬ ((112 : Nat) = 100) := by decide
  simp only [strlen, hc, hp0, hp1, hw, hall, h100, ne_eq, not_true_eq_false, if_false, if_true]
  rw [hm2]
  simp only [List.length_append, List.length_cons, List.length_nil, List.length_replicate] at htail ⊢
  simp only [strncat, strtol16_hex hex hhex.2] at htail ⊢
  exact htail

set_option maxRecDepth 100000 in
/-- C7 at the failing input `data/@!pFFFFFFFF@common.dat`: `strtol` clamps the
value to `LONG_MAX`, so the offset stored is 0x7FFFFFFF, not 0xFFFFFFFF. -/
theorem convert_filepath_offset_clamped :
    (convert_filepath (bytes "data/@!pFFFFFFFF@common.dat" ++ [0, 0]) 0 [] 256 0
        ⟨false, 0, []⟩).map (fun r => (r.ret, r.payload_embed.enabled, r.payload_embed.offset)) =
      some (0, true, 0x7FFFFFFF) ∧
    numVal 16 (bytes "FFFFFFFF") = 0xFFFFFFFF ∧ (0x7FFFFFFF : Nat) ≠ 0xFFFFFFFF := by
  decide

/-! ### The output bound of `convert_filepath` -/

set_option maxRecDepth 1000000 in
/-- C11 at the failing input, the template of 252 characters made of
forty-two `a@!d9@`: every `strncat` may append up to 255 characters whatever
`outpath` already holds, so the expansion returns 0 with an output of 420
characters, more than the 255 that fit the 256-byte buffer. -/
theorem convert_filepath_output_overflow :
    paddedSlotTemplate.length = 252 ∧
    (convert_filepath (paddedSlotTemplate ++ [0, 0]) 0 [] 256 0 ⟨false, 0, []⟩).map
        (fun r => (r.ret, r.outpath.length)) = some (0, 420) ∧
    ¬ (420 ≤ 256 - 1) := by
  decide

/-! ### Bounds on `strtok` and termination of the token loops -/

theorem peek_ne_zero_lt (m : List Nat) (b : Nat) (h : peek m b ≠ 0) : b < m.length := by
  by_contra hlt
  apply h
  unfold peek
  rw [List.getD_eq_default _ _ (by omega)]

theorem strtok_mem_length (m : List Nat) (s last : Option Nat) (d : Nat) :
    (strtok m s last d).mem.length = m.length := by
  unfold strtok
  split
  · rfl
  · simp only
    split
    · rfl
    · split
      · rfl
      · simp

theorem strtok_ret_bound (m : List Nat) (s last : Option Nat) (d b : Nat)
    (h : (strtok m s last d).ret = some b) :
    ∃ p, s.orElse (fun _ => last) = some p ∧ p ≤ b ∧ b < m.length ∧
      ∀ q, (strtok m s last d).last = some q → b < q := by
  cases hp : s.orElse (fun _ => last) with
  | none => simp [strtok, hp] at h
  | some p =>
    refine ⟨p, rfl, ?_⟩
    simp only [strtok, hp] at h ⊢
    split at h
    · simp at h
    · rename_i hb
      have hbl := peek_ne_zero_lt m _ hb
      split at h
      · rename_i he
        simp only [Option.some.injEq] at h
        subst h
        simp only [hb, he, if_false, if_true]
        refine ⟨by omega, hbl, ?_⟩
        intro q hq
        simp at hq
      · rename_i he
        simp only [Option.some.injEq] at h
        subst h
        simp only [hb, he, if_false]
        refine ⟨by omega, hbl, ?_⟩
        intro q hq
        simp only [Option.some.injEq] at hq
        omega

/-! ### The query identifier 0 -/

theorem programid_loop_zero :
    ∀ (fuel : Nat) (mem : List Nat) (last : Option Nat),
      (∀ p, last = some p → mem.length + 2 ≤ fuel + p) → 1 ≤ fuel →
      ∃ m1, programid_loop 0 fuel mem last = some (false, m1) := by
  intro fuel
  induction fuel with
  | zero => intro mem last _ h; omega
  | succ n ih =>
    intro mem last hl _
    rw [programid_loop]
    simp only
    cases hr : (strtok mem none last 32).ret with
    | none => exact ⟨_, rfl⟩
    | some b =>
      obtain ⟨p, hp, hpb, hbl, hq⟩ := strtok_ret_bound mem none last 32 b hr
      simp only [Option.orElse] at hp
      have hlp := hl p hp
      have hrec : ∃ m1, programid_loop 0 n (strtok mem none last 32).mem
          (strtok mem none last 32).last = some (false, m1) := by
        apply ih
        · intro q hq1
          have := hq q hq1
          rw [strtok_mem_length]
          omega
        · omega
      simp only
      split
      · exact hrec
      · rename_i hne
        split
        · rename_i heq
          exact absurd heq.symm hne
        · exact hrec

theorem fgets_take_length_le (n : Nat) (f : List Nat) : (fgets_take n f).length ≤ f.length := by
  induction n generalizing f with
  | zero => simp [fgets_take]
  | succ n ih =>
    cases f with
    | nil => simp [fgets_take]
    | cons c cs =>
      simp only [fgets_take]
      split
      · simp
      · simp only [List.length_cons]
        have := ih cs
        omega

theorem fgets_shrinks (line f line1 f1 : List Nat) (size : Nat)
    (h : fgets line size f = some (line1, f1)) : f1.length < f.length := by
  unfold fgets at h
  simp only at h
  split at h
  · simp at h
  · rename_i hne
    simp only [Option.some.injEq, Prod.mk.injEq] at h
    obtain ⟨_, rfl⟩ := h
    have h1 := fgets_take_length_le (size - 1) f
    have h2 : 0 < (fgets_take (size - 1) f).length := List.length_pos.mpr hne
    simp only [List.length_drop]
    omega

theorem exploitlist_loop_zero :
    ∀ (fuel : Nat) (line f : List Nat) (flags : Nat), f.length + 1 ≤ fuel →
      ∃ r, exploitlist_loop 0 fuel line f flags = some r ∧ r.ret = 2 ∧ r.names = none := by
  intro fuel
  induction fuel with
  | zero => intro line f flags h; omega
  | succ n ih =>
    intro line f flags hf
    rw [exploitlist_loop]
    cases hg : fgets line 255 f with
    | none => exact ⟨_, rfl, rfl, rfl⟩
    | some lf =>
      obtain ⟨line1, f1⟩ := lf
      have hlt := fgets_shrinks line f line1 f1 255 hg
      have hrec : ∀ line2 flags2, ∃ r, exploitlist_loop 0 n line2 f1 flags2 = some r ∧
          r.ret = 2 ∧ r.names = none := fun line2 flags2 => ih line2 f1 flags2 (by omega)
      simp only
      split
      · exact hrec _ _
      · generalize strtok (remove_newline line1) (some 0) none 32 = t1
        split
        · exact hrec _ _
        · generalize strtok t1.mem none t1.last 32 = t2
          split
          · exact hrec _ _
          · generalize ht3 : strtok t2.mem none t2.last 32 = t3
            split
            · exact hrec _ _
            · rename_i strptr hs
              obtain ⟨m1, hm1⟩ := programid_loop_zero (t3.mem.length + 1) t3.mem t3.last
                (by
                  intro p hp
                  obtain ⟨_, _, _, _, hq⟩ :=
                    strtok_ret_bound t2.mem none t2.last 32 strptr (by rw [ht3]; exact hs)
                  have := hq p (by rw [ht3]; exact hp)
                  omega)
                (by omega)
              simp only [hm1]
              exact hrec _ _

set_option maxRecDepth 100000 in
/-- C16: a zero program identifier never matches.  For the query identifier
0, `load_exploitlist_config` returns 2 (NotFound) and copies no names, for
every exploit-list file whatsoever, for instance one that lists
`0000000000000000`; and a zero token does not end the scan of its line: the
identifier behind it is still found. -/
theorem load_exploitlist_config_zero_query :
    (∀ (f : List Nat) (flags0 : Nat),
      ∃ r, load_exploitlist_config f 0 flags0 = some r ∧ r.ret = 2 ∧ r.names = none) ∧
    load_exploitlist_config (bytes "foo Bar 0x2 0000000000000000\n") 0 0 = some ⟨2, 2, none⟩ ∧
    load_exploitlist_config (bytes "foo Bar 0x2 0000000000000000 0000000100000000\n")
        0x100000000 0 = some ⟨0, 2, some (bytes "foo", bytes "Bar")⟩ :=
  ⟨fun f flags0 => exploitlist_loop_zero _ _ f flags0 (le_refl _), by decide, by decide⟩

/-! ### `convert_filepath` returns, and directive text without a literal segment -/

/-- The state `strtok` leaves for the next round of the loop of
`convert_filepath` lies strictly behind the current token. -/
theorem strtok_next (mem : List Nat) (s last : Option Nat) (sp n : Nat) (hsp : sp < mem.length)
    (hn : mem.length - sp + 1 ≤ n + 1) (hs : ∀ p, s.orElse (fun _ => last) = some p → sp < p) :
    (∀ b, (strtok mem s last 64).ret = some b →
      b < (strtok mem s last 64).mem.length ∧
      (∀ q, (strtok mem s last 64).last = some q → b < q) ∧
      (strtok mem s last 64).mem.length - b + 1 ≤ n) ∧ 1 ≤ n := by
  refine ⟨?_, by omega⟩
  intro b hb
  obtain ⟨p, hp, hpb, hbl, hq⟩ := strtok_ret_bound mem s last 64 b hb
  have := hs p hp
  rw [strtok_mem_length]
  exact ⟨hbl, hq, by omega⟩

theorem convert_loop_total (ms : Nat) (slot : Int) :
    ∀ (n : Nat) (mem : List Nat) (last strptr : Option Nat) (out : List Nat) (pe : PayloadEmbed),
      (∀ sp, strptr = some sp →
        sp < mem.length ∧ (∀ p, last = some p → sp < p) ∧ mem.length - sp + 1 ≤ n) → 1 ≤ n →
      ∃ r, ∀ fuel, n ≤ fuel → convert_loop ms slot fuel mem last strptr out pe = some r := by
  intro n
  induction n with
  | zero => intro mem last strptr out pe _ h; omega
  | succ n ih =>
    intro mem last strptr out pe hI _
    cases strptr with
    | none =>
      refine ⟨⟨0, mem, out, pe⟩, ?_⟩
      intro fuel hf
      obtain ⟨f, rfl⟩ : ∃ f, fuel = f + 1 := ⟨fuel - 1, by omega⟩
      rw [convert_loop]
    | some sp =>
      obtain ⟨hsp, hlast, hn⟩ := hI sp rfl
      have hA := strtok_next mem none last sp n hsp hn (by simpa using hlast)
      have hB := strtok_next mem (some (sp + strlen mem sp + 1 + 3)) last sp n hsp hn
        (by intro p hp; simp only [Option.orElse, Option.some.injEq] at hp; omega)
      have hC := strtok_next mem (some (sp + strlen mem sp + 1 + 10)) last sp n hsp hn
        (by intro p hp; simp only [Option.orElse, Option.some.injEq] at hp; omega)
      by_cases h1 : peek mem (sp + strlen mem sp + 1) = 33
      · by_cases h2 : peek mem (sp + strlen mem sp + 1 + 1) = 100
        · by_cases h3 : peek mem (sp + strlen mem sp + 1 + 2) < 48 ∨
              peek mem (sp + strlen mem sp + 1 + 2) > 57
          · refine ⟨⟨9, mem, strncat out (cstr mem sp) (ms - 1), pe⟩, ?_⟩
            intro fuel hf
            obtain ⟨f, rfl⟩ : ∃ f, fuel = f + 1 := ⟨fuel - 1, by omega⟩
            rw [convert_loop]
            simp only [h1, h2, h3, ne_eq, not_true_eq_false, if_false, if_true]
          · obtain ⟨r, hr⟩ := ih _ _ _
              (strncat (strncat out (cstr mem sp) (ms - 1))
                (snprintf_0Nd (peek mem (sp + strlen mem sp + 1 + 2)) slot) (ms - 1)) pe hB.1 hB.2
            refine ⟨r, ?_⟩
            intro fuel hf
            obtain ⟨f, rfl⟩ : ∃ f, fuel = f + 1 := ⟨fuel - 1, by omega⟩
            rw [convert_loop]
            simp only [h1, h2, h3, ne_eq, not_true_eq_false, if_false, if_true]
            exact hr f (by omega)
        · by_cases h4 : peek mem (sp + strlen mem sp + 1 + 1) = 112
          · by_cases h5 : ((List.range 8).map
                (fun i => peek mem (sp + strlen mem sp + 1 + 2 + i))).all isxdigit = true
            · obtain ⟨r, hr⟩ := ih _ _ _ (strncat out (cstr mem sp) (ms - 1))
                ⟨true, strtol16 ((List.range 8).map
                  (fun i => peek mem (sp + strlen mem sp + 1 + 2 + i))),
                  strncpy255 (strncat out (cstr mem sp) (ms - 1))⟩ hC.1 hC.2
              refine ⟨r, ?_⟩
              intro fuel hf
              obtain ⟨f, rfl⟩ : ∃ f, fuel = f + 1 := ⟨fuel - 1, by omega⟩
              rw [convert_loop]
              simp only [h1, h2, h4, h5, ne_eq, not_true_eq_false, if_false, if_true, Nat.reduceEqDiff,
                Bool.false_eq_true]
              exact hr f (by omega)
            · refine ⟨⟨9, mem, strncat out (cstr mem sp) (ms - 1), pe⟩, ?_⟩
              intro fuel hf
              obtain ⟨f, rfl⟩ : ∃ f, fuel = f + 1 := ⟨fuel - 1, by omega⟩
              rw [convert_loop]
              simp only [h1, h2, h4, h5, ne_eq, not_true_eq_false, if_false, if_true, Nat.reduceEqDiff,
                Bool.false_eq_true]
          · refine ⟨⟨9, mem, strncat out (cstr mem sp) (ms - 1), pe⟩, ?_⟩
            intro fuel hf
            obtain ⟨f, rfl⟩ : ∃ f, fuel = f + 1 := ⟨fuel - 1, by omega⟩
            rw [convert_loop]
            simp only [h1, h2, h4, ne_eq, not_true_eq_false, if_false, if_true]
      · obtain ⟨r, hr⟩ := ih _ _ _ (strncat out (cstr mem sp) (ms - 1)) pe hA.1 hA.2
        refine ⟨r, ?_⟩
        intro fuel hf
        obtain ⟨f, rfl⟩ : ∃ f, fuel = f + 1 := ⟨fuel - 1, by omega⟩
        rw [convert_loop]
        simp only [h1, ne_eq, not_false_eq_true, if_true]
        exact hr f (by omega)

/-- `convert_filepath` returns on every buffer. -/
theorem convert_filepath_total (mem : List Nat) (inpath : Nat) (out : List Nat) (ms : Nat)
    (slot : Int) (pe : PayloadEmbed) :
    ∃ r, ∀ fuel, mem.length + 1 ≤ fuel →
      convert_loop ms slot fuel (strtok mem (some inpath) none 64).mem
        (strtok mem (some inpath) none 64).last (strtok mem (some inpath) none 64).ret out pe =
        some r := by
  apply convert_loop_total ms slot (mem.length + 1)
  · intro sp hsp
    obtain ⟨p, _, _, hbl, hq⟩ := strtok_ret_bound mem (some inpath) none 64 sp hsp
    rw [strtok_mem_length]
    exact ⟨hbl, hq, by omega⟩
  · omega


/-- A literal token `D` of the template, ended by a separator that `strtok`
has overwritten and not followed by `!`: the loop appends it and goes on with
the text `R` behind it, as a call of `convert_filepath` on `R` does. -/
theorem convert_literal_step (ms : Nat) (slot : Int) (A D R out : List Nat) (pe : PayloadEmbed)
    (fuel : Nat) (hDc : ∀ c ∈ D, c ≠ 0 ∧ c ≠ 64) (hR : R.head? ≠ some 33)
    (hfuel : (A ++ D ++ 0 :: R).length - A.length + 1 ≤ fuel) :
    convert_loop ms slot fuel (A ++ D ++ 0 :: R) (some (A.length + D.length + 1)) (some A.length)
        out pe =
      convert_filepath (A ++ D ++ 0 :: R) (A.length + D.length + 1) (out ++ D.take (ms - 1)) ms slot
        pe := by
  have hlen : (A ++ D ++ 0 :: R).length = A.length + D.length + 1 + R.length := by
    simp only [List.length_append, List.length_cons]
    omega
  obtain ⟨f, rfl⟩ : ∃ f, fuel = f + 1 := ⟨fuel - 1, by omega⟩
  have hc : cstr (A ++ D ++ 0 :: R) A.length = D := cstr_at A D R (fun c hc => (hDc c hc).1)
  have hpk : peek (A ++ D ++ 0 :: R) (A.length + D.length + 1) ≠ 33 := by
    have h1 : A ++ D ++ 0 :: R = (A ++ D ++ [0]) ++ R := by simp
    have h2 : A.length + D.length + 1 = (A ++ D ++ [0]).length + 0 := by
      simp only [List.length_append, List.length_cons, List.length_nil]
    rw [h1, h2, peek_add, peek_head]
    cases R with
    | nil => simp
    | cons r rs => simpa using hR
  have ht : strtok (A ++ D ++ 0 :: R) none (some (A.length + D.length + 1)) 64 =
      strtok (A ++ D ++ 0 :: R) (some (A.length + D.length + 1)) none 64 := rfl
  obtain ⟨r, hr⟩ := convert_loop_total ms slot ((A ++ D ++ 0 :: R).length - A.length)
    (strtok (A ++ D ++ 0 :: R) (some (A.length + D.length + 1)) none 64).mem
    (strtok (A ++ D ++ 0 :: R) (some (A.length + D.length + 1)) none 64).last
    (strtok (A ++ D ++ 0 :: R) (some (A.length + D.length + 1)) none 64).ret
    (out ++ D.take (ms - 1)) pe
    (by
      intro sp hsp
      obtain ⟨p, hp, hpb, hbl, hq⟩ := strtok_ret_bound _ _ _ _ _ hsp
      simp only [Option.orElse, Option.some.injEq] at hp
      rw [strtok_mem_length]
      exact ⟨hbl, hq, by omega⟩)
    (by omega)
  rw [convert_loop]
  simp only [strlen, hc, hpk, ne_eq, not_false_eq_true, if_true, strncat, ht]
  rw [convert_filepath, hr f (by omega), hr _ (by omega)]

theorem convert_leading_separator (ms : Nat) (slot : Int) (B D R out : List Nat)
    (k : Nat) (pe : PayloadEmbed) (hD : D ≠ []) (hDc : ∀ c ∈ D, c ≠ 0 ∧ c ≠ 64)
    (hR : R.head? ≠ some 33) :
    convert_filepath (B ++ List.replicate (k + 1) 64 ++ D ++ 64 :: R) B.length out ms slot pe =
      convert_filepath (B ++ List.replicate (k + 1) 64 ++ D ++ 0 :: R)
        (B.length + (k + 1) + D.length + 1) (out ++ D.take (ms - 1)) ms slot pe := by
  have hL : convert_filepath (B ++ List.replicate (k + 1) 64 ++ D ++ 64 :: R) B.length out ms slot pe =
      convert_loop ms slot ((B ++ List.replicate (k + 1) 64 ++ D ++ 64 :: R).length + 1)
        (strtok (B ++ List.replicate (k + 1) 64 ++ D ++ 64 :: R) (some B.length) none 64).mem
        (strtok (B ++ List.replicate (k + 1) 64 ++ D ++ 64 :: R) (some B.length) none 64).last
        (strtok (B ++ List.replicate (k + 1) 64 ++ D ++ 64 :: R) (some B.length) none 64).ret
        out pe := rfl
  rw [hL, strtok_delim B D R (k + 1) 64 (some B.length) none rfl (by decide) hD hDc]
  have := convert_literal_step ms slot (B ++ List.replicate (k + 1) 64) D R out pe
    ((B ++ List.replicate (k + 1) 64 ++ D ++ 64 :: R).length + 1) hDc hR
    (by simp only [List.length_append, List.length_cons, List.length_replicate]; omega)
  simp only [List.length_append, List.length_replicate] at this ⊢
  exact this


theorem convert_after_slot (ms : Nat) (slot : Int) (B pre D R out : List Nat) (N k : Nat)
    (pe : PayloadEmbed) (hpre : pre ≠ []) (hpre2 : ∀ c ∈ pre, c ≠ 0 ∧ c ≠ 64)
    (hN : 48 ≤ N ∧ N ≤ 57) (hD : D ≠ []) (hDc : ∀ c ∈ D, c ≠ 0 ∧ c ≠ 64)
    (hR : R.head? ≠ some 33) :
    convert_filepath (B ++ pre ++ 64 :: 33 :: 100 :: N :: (List.replicate (k + 1) 64 ++ D ++ 64 :: R))
        B.length out ms slot pe =
      convert_filepath (B ++ pre ++ 0 :: 33 :: 100 :: N :: (List.replicate (k + 1) 64 ++ D ++ 0 :: R))
        (B.length + pre.length + 4 + (k + 1) + D.length + 1)
        (out ++ pre.take (ms - 1) ++ (snprintf_0Nd N slot).take (ms - 1) ++ D.take (ms - 1)) ms slot
        pe := by
  have ht := strtok_delim0 B pre (33 :: 100 :: N :: (List.replicate (k + 1) 64 ++ D ++ 64 :: R)) 64
    (some B.length) none rfl (by decide) hpre hpre2
  have hc : cstr (B ++ pre ++ 0 :: 33 :: 100 :: N :: (List.replicate (k + 1) 64 ++ D ++ 64 :: R))
      B.length = pre := cstr_at B pre _ (fun c hc => (hpre2 c hc).1)
  have hm : B ++ pre ++ 0 :: 33 :: 100 :: N :: (List.replicate (k + 1) 64 ++ D ++ 64 :: R) =
      (B ++ pre ++ [0]) ++ 33 :: 100 :: N :: (List.replicate (k + 1) 64 ++ D ++ 64 :: R) := by simp
  have hl : B.length + pre.length + 1 = (B ++ pre ++ [0]).length := by
    simp only [List.length_append, List.length_cons, List.length_nil]
  have hp0 : peek (B ++ pre ++ 0 :: 33 :: 100 :: N :: (List.replicate (k + 1) 64 ++ D ++ 64 :: R))
      (B.length + pre.length + 1) = 33 := by
    rw [hm, hl]; exact peek_pre _ _ _
  have hp1 : peek (B ++ pre ++ 0 :: 33 :: 100 :: N :: (List.replicate (k + 1) 64 ++ D ++ 64 :: R))
      (B.length + pre.length + 1 + 1) = 100 := by
    rw [hm, hl, peek_add]; rfl
  have hp2 : peek (B ++ pre ++ 0 :: 33 :: 100 :: N :: (List.replicate (k + 1) 64 ++ D ++ 64 :: R))
      (B.length + pre.length + 1 + 2) = N := by
    rw [hm, hl, peek_add]; rfl
  have hm2 : B ++ pre ++ 0 :: 33 :: 100 :: N :: (List.replicate (k + 1) 64 ++ D ++ 64 :: R) =
      (B ++ pre ++ [0, 33, 100, N]) ++ List.replicate (k + 1) 64 ++ D ++ 64 :: R := by simp
  have hm3 : B ++ pre ++ 0 :: 33 :: 100 :: N :: (List.replicate (k + 1) 64 ++ D ++ 0 :: R) =
      (B ++ pre ++ [0, 33, 100, N]) ++ List.replicate (k + 1) 64 ++ D ++ 0 :: R := by simp
  have hl2 : B.length + pre.length + 1 + 3 = (B ++ pre ++ [0, 33, 100, N]).length := by
    simp only [List.length_append, List.length_cons, List.length_nil]
  have hN' : ¬ (N < 48 ∨ N > 57) := by omega
  have ht2 := strtok_delim (B ++ pre ++ [0, 33, 100, N]) D R (k + 1) 64
    (some (B.length + pre.length + 1 + 3)) (some (B.length + pre.length + 1))
    (by rw [hl2]; rfl) (by decide) hD hDc
  have hstep := convert_literal_step ms slot ((B ++ pre ++ [0, 33, 100, N]) ++ List.replicate (k + 1) 64)
    D R (strncat (strncat out pre (ms - 1)) (snprintf_0Nd N slot) (ms - 1)) pe
    ((B ++ pre ++ 64 :: 33 :: 100 :: N :: (List.replicate (k + 1) 64 ++ D ++ 64 :: R)).length)
    hDc hR
    (by obtain ⟨p0, ps, rfl⟩ := List.exists_cons_of_ne_nil hpre
        simp only [List.length_append, List.length_cons, List.length_nil, List.length_replicate]
        omega)
  have hidx : B.length + pre.length + 4 + (k + 1) + D.length + 1 =
      ((B ++ pre ++ [0, 33, 100, N]) ++ List.replicate (k + 1) 64).length + D.length + 1 := by
    simp only [List.length_append, List.length_cons, List.length_nil, List.length_replicate]
  have hL : convert_filepath
      (B ++ pre ++ 64 :: 33 :: 100 :: N :: (List.replicate (k + 1) 64 ++ D ++ 64 :: R))
      B.length out ms slot pe =
      convert_loop ms slot
        ((B ++ pre ++ 64 :: 33 :: 100 :: N :: (List.replicate (k + 1) 64 ++ D ++ 64 :: R)).length + 1)
        (strtok (B ++ pre ++ 64 :: 33 :: 100 :: N :: (List.replicate (k + 1) 64 ++ D ++ 64 :: R))
          (some B.length) none 64).mem
        (strtok (B ++ pre ++ 64 :: 33 :: 100 :: N :: (List.replicate (k + 1) 64 ++ D ++ 64 :: R))
          (some B.length) none 64).last
        (strtok (B ++ pre ++ 64 :: 33 :: 100 :: N :: (List.replicate (k + 1) 64 ++ D ++ 64 :: R))
          (some B.length) none 64).ret out pe := rfl
  rw [hL, ht, convert_loop]
  simp only [strlen, hc, hp0, hp1, hp2, hN', ne_eq, not_true_eq_false, if_false, if_true]
  rw [hm2, ht2, hm3, hidx]
  simp only [strncat] at hstep ⊢
  simp only [List.length_append, List.length_cons, List.length_nil, List.length_replicate] at hstep ⊢
  exact hstep


theorem convert_after_embed (ms : Nat) (slot : Int) (B pre D R out hex : List Nat) (k : Nat)
    (pe : PayloadEmbed) (hpre : pre ≠ []) (hpre2 : ∀ c ∈ pre, c ≠ 0 ∧ c ≠ 64)
    (hhex : HexDigits 8 hex) (hD : D ≠ []) (hDc : ∀ c ∈ D, c ≠ 0 ∧ c ≠ 64)
    (hR : R.head? ≠ some 33) :
    convert_filepath
        (B ++ pre ++ 64 :: 33 :: 112 :: (hex ++ (List.replicate (k + 1) 64 ++ D ++ 64 :: R)))
        B.length out ms slot pe =
      convert_filepath
        (B ++ pre ++ 0 :: 33 :: 112 :: (hex ++ (List.replicate (k + 1) 64 ++ D ++ 0 :: R)))
        (B.length + pre.length + 11 + (k + 1) + D.length + 1)
        (out ++ pre.take (ms - 1) ++ D.take (ms - 1)) ms slot
        ⟨true, min (numVal 16 hex) (2 ^ 31 - 1), strncpy255 (out ++ pre.take (ms - 1))⟩ := by
  have ht := strtok_delim0 B pre
    (33 :: 112 :: (hex ++ (List.replicate (k + 1) 64 ++ D ++ 64 :: R))) 64
    (some B.length) none rfl (by decide) hpre hpre2
  have hc : cstr (B ++ pre ++ 0 :: 33 :: 112 :: (hex ++ (List.replicate (k + 1) 64 ++ D ++ 64 :: R)))
      B.length = pre := cstr_at B pre _ (fun c hc => (hpre2 c hc).1)
  have hm : B ++ pre ++ 0 :: 33 :: 112 :: (hex ++ (List.replicate (k + 1) 64 ++ D ++ 64 :: R)) =
      (B ++ pre ++ [0]) ++ 33 :: 112 :: (hex ++ (List.replicate (k + 1) 64 ++ D ++ 64 :: R)) := by
    simp
  have hl : B.length + pre.length + 1 = (B ++ pre ++ [0]).length := by
    simp only [List.length_append, List.length_cons, List.length_nil]
  have hp0 : peek (B ++ pre ++ 0 :: 33 :: 112 :: (hex ++ (List.replicate (k + 1) 64 ++ D ++ 64 :: R)))
      (B.length + pre.length + 1) = 33 := by
    rw [hm, hl]; exact peek_pre _ _ _
  have hp1 : peek (B ++ pre ++ 0 :: 33 :: 112 :: (hex ++ (List.replicate (k + 1) 64 ++ D ++ 64 :: R)))
      (B.length + pre.length + 1 + 1) = 112 := by
    rw [hm, hl, peek_add]; rfl
  have hw : (List.range 8).map (fun i => peek (B ++ pre ++ 0 :: 33 :: 112 ::
      (hex ++ (List.replicate (k + 1) 64 ++ D ++ 64 :: R))) (B.length + pre.length + 1 + 2 + i)) =
      hex := by
    rw [hm, hl]; exact peek_window _ hex _ hhex.1
  have hall : hex.all isxdigit = true := by
    rw [List.all_eq_true]; exact hhex.2
  have hm2 : B ++ pre ++ 0 :: 33 :: 112 :: (hex ++ (List.replicate (k + 1) 64 ++ D ++ 64 :: R)) =
      (B ++ pre ++ 0 :: 33 :: 112 :: hex) ++ List.replicate (k + 1) 64 ++ D ++ 64 :: R := by simp
  have hm3 : B ++ pre ++ 0 :: 33 :: 112 :: (hex ++ (List.replicate (k + 1) 64 ++ D ++ 0 :: R)) =
      (B ++ pre ++ 0 :: 33 :: 112 :: hex) ++ List.replicate (k + 1) 64 ++ D ++ 0 :: R := by simp
  have hl2 : B.length + pre.length + 1 + 10 = (B ++ pre ++ 0 :: 33 :: 112 :: hex).length := by
    simp only [List.length_append, List.length_cons, hhex.1]
  have ht2 := strtok_delim (B ++ pre ++ 0 :: 33 :: 112 :: hex) D R (k + 1) 64
    (some (B.length + pre.length + 1 + 10)) (some (B.length + pre.length + 1))
    (by rw [hl2]; rfl) (by decide) hD hDc
  have hstep := convert_literal_step ms slot
    ((B ++ pre ++ 0 :: 33 :: 112 :: hex) ++ List.replicate (k + 1) 64)
    D R (strncat out pre (ms - 1)) ⟨true, strtol16 hex, strncpy255 (strncat out pre (ms - 1))⟩
    ((B ++ pre ++ 64 :: 33 :: 112 :: (hex ++ (List.replicate (k + 1) 64 ++ D ++ 64 :: R))).length)
    hDc hR
    (by obtain ⟨p0, ps, rfl⟩ := List.exists_cons_of_ne_nil hpre
        simp only [List.length_append, List.length_cons, List.length_nil, List.length_replicate]
        omega)
  have hidx : B.length + pre.length + 11 + (k + 1) + D.length + 1 =
      ((B ++ pre ++ 0 :: 33 :: 112 :: hex) ++ List.replicate (k + 1) 64).length + D.length + 1 := by
    simp only [List.length_append, List.length_cons, List.length_nil, List.length_replicate, hhex.1]
  have hL : convert_filepath
      (B ++ pre ++ 64 :: 33 :: 112 :: (hex ++ (List.replicate (k + 1) 64 ++ D ++ 64 :: R)))
      B.length out ms slot pe =
      convert_loop ms slot
        ((B ++ pre ++ 64 :: 33 :: 112 :: (hex ++ (List.replicate (k + 1) 64 ++ D ++ 64 :: R))).length + 1)
        (strtok (B ++ pre ++ 64 :: 33 :: 112 :: (hex ++ (List.replicate (k + 1) 64 ++ D ++ 64 :: R)))
          (some B.length) none 64).mem
        (strtok (B ++ pre ++ 64 :: 33 :: 112 :: (hex ++ (List.replicate (k + 1) 64 ++ D ++ 64 :: R)))
          (some B.length) none 64).last
        (strtok (B ++ pre ++ 64 :: 33 :: 112 :: (hex ++ (List.replicate (k + 1) 64 ++ D ++ 64 :: R)))
          (some B.length) none 64).ret out pe := rfl
  have h100 : ¬ ((112 : Nat) = 100) := by decide
  rw [hL, ht, convert_loop]
  simp only [strlen, hc, hp0, hp1, hw, hall, h100, ne_eq, not_true_eq_false, if_false, if_true]
  rw [hm2, ht2, hm3, hidx]
  simp only [strncat, strtol16_hex hex hhex.2] at hstep ⊢
  simp only [List.length_append, List.length_cons, List.length_nil, List.length_replicate] at hstep ⊢
  exact hstep


theorem convert_leading_end (ms : Nat) (slot : Int) (B D R out : List Nat)
    (k : Nat) (pe : PayloadEmbed) (hDc : ∀ c ∈ D, c ≠ 0 ∧ c ≠ 64) (hR : R.head? ≠ some 33) :
    convert_filepath (B ++ List.replicate (k + 1) 64 ++ D ++ 0 :: R) B.length out ms slot pe =
      some ⟨0, B ++ List.replicate (k + 1) 64 ++ D ++ 0 :: R, out ++ D.take (ms - 1), pe⟩ :=
  convert_tail ms slot B D R (k + 1) _ out pe (some B.length) none rfl hDc (fun _ => hR)
    (by simp only [List.length_append, List.length_cons, List.length_replicate]; omega)

/-- C20 (amended): a directive text that is not attached to a literal segment
is copied literally.  Let `D` be a piece of template text between separators
(such as `!d<N>` or `!p<8 hex digits>`), let the text `R` behind its end not
begin with `!`, and let the output with `D` appended fit the output buffer.
When `D` stands at the start of the template behind one or more `@` (empty
leading literal), `convert_filepath` appends `D` itself to the output,
substitutes no slot number for it and leaves `payload_embed` as it is: if `D`
is closed by `@`, every result of expanding the rest `R` with `D` already in
the output that fits the buffer is the result of the whole expansion, and if
`D` ends the template the result is 0 with `D` appended.  The same holds when
`D` follows the closing `@` of a slot placeholder `pre@!d<N>@` or of an embed
placeholder `pre@!p<8 hex digits>@` (as in `a@!d2@@!d1@b`): only that
placeholder is expanded (for the embed placeholder `payload_embed` is enabled
with the path `pre`; nothing is stated about the offset). -/
theorem convert_filepath_unattached_directive (ms : Nat) (slot : Int) (B D R out : List Nat)
    (k : Nat) (pe : PayloadEmbed) (hD : D ≠ []) (hDc : ∀ c ∈ D, c ≠ 0 ∧ c ≠ 64)
    (hR : R.head? ≠ some 33) :
    ((out ++ D).length ≤ ms - 1 →
      (∀ r, convert_filepath (B ++ List.replicate (k + 1) 64 ++ D ++ 0 :: R)
            (B.length + (k + 1) + D.length + 1) (out ++ D) ms slot pe = some r →
          r.outpath.length ≤ ms - 1 →
          convert_filepath (B ++ List.replicate (k + 1) 64 ++ D ++ 64 :: R) B.length out ms slot
            pe = some r) ∧
      convert_filepath (B ++ List.replicate (k + 1) 64 ++ D ++ 0 :: R) B.length out ms slot pe =
        some ⟨0, B ++ List.replicate (k + 1) 64 ++ D ++ 0 :: R, out ++ D, pe⟩) ∧
    (∀ pre N, pre ≠ [] → (∀ c ∈ pre, c ≠ 0 ∧ c ≠ 64) → 48 ≤ N ∧ N ≤ 57 →
      (out ++ pre ++ snprintf_0Nd N slot ++ D).length ≤ ms - 1 →
      (∀ r, convert_filepath
            (B ++ pre ++ 0 :: 33 :: 100 :: N :: (List.replicate (k + 1) 64 ++ D ++ 0 :: R))
            (B.length + pre.length + 4 + (k + 1) + D.length + 1)
            (out ++ pre ++ snprintf_0Nd N slot ++ D) ms slot pe = some r →
          r.outpath.length ≤ ms - 1 →
          convert_filepath
            (B ++ pre ++ 64 :: 33 :: 100 :: N :: (List.replicate (k + 1) 64 ++ D ++ 64 :: R))
            B.length out ms slot pe = some r) ∧
      ∃ mem, convert_filepath
          (B ++ pre ++ 64 :: 33 :: 100 :: N :: (List.replicate (k + 1) 64 ++ D ++ 0 :: R))
          B.length out ms slot pe =
        some ⟨0, mem, out ++ pre ++ snprintf_0Nd N slot ++ D, pe⟩) ∧
    (∀ pre hex, pre ≠ [] → (∀ c ∈ pre, c ≠ 0 ∧ c ≠ 64) → HexDigits 8 hex →
      (out ++ pre ++ D).length ≤ ms - 1 →
      ∃ off,
        (∀ r, convert_filepath
              (B ++ pre ++ 0 :: 33 :: 112 :: (hex ++ (List.replicate (k + 1) 64 ++ D ++ 0 :: R)))
              (B.length + pre.length + 11 + (k + 1) + D.length + 1)
              (out ++ pre ++ D) ms slot ⟨true, off, strncpy255 (out ++ pre)⟩ = some r →
            r.outpath.length ≤ ms - 1 →
            convert_filepath
              (B ++ pre ++ 64 :: 33 :: 112 :: (hex ++ (List.replicate (k + 1) 64 ++ D ++ 64 :: R)))
              B.length out ms slot pe = some r) ∧
        ∃ mem, convert_filepath
            (B ++ pre ++ 64 :: 33 :: 112 :: (hex ++ (List.replicate (k + 1) 64 ++ D ++ 0 :: R)))
            B.length out ms slot pe =
          some ⟨0, mem, out ++ pre ++ D, ⟨true, off, strncpy255 (out ++ pre)⟩⟩) := by
  refine ⟨?_, ?_, ?_⟩
  · intro hfit
    have hd : D.take (ms - 1) = D :=
      List.take_of_length_le (by simp only [List.length_append] at hfit; omega)
    have h1 := convert_leading_separator ms slot B D R out k pe hD hDc hR
    have h2 := convert_leading_end ms slot B D R out k pe hDc hR
    rw [hd] at h1 h2
    exact ⟨fun r hr _ => by rw [h1]; exact hr, h2⟩
  · intro pre N hpre hpre2 hN hfit
    simp only [List.length_append] at hfit
    have hp : pre.take (ms - 1) = pre := List.take_of_length_le (by omega)
    have hs : (snprintf_0Nd N slot).take (ms - 1) = snprintf_0Nd N slot :=
      List.take_of_length_le (by omega)
    have hd : D.take (ms - 1) = D := List.take_of_length_le (by omega)
    have h1 := convert_after_slot ms slot B pre D R out N k pe hpre hpre2 hN hD hDc hR
    obtain ⟨mem, h2⟩ := convert_filepath_slot_at ms slot B pre D R N (k + 1) out pe hpre hpre2 hDc
      hN (fun _ => hR)
    rw [hp, hs, hd] at h1 h2
    exact ⟨fun r hr _ => by rw [h1]; exact hr, mem, h2⟩
  · intro pre hex hpre hpre2 hhex hfit
    simp only [List.length_append] at hfit
    have hp : pre.take (ms - 1) = pre := List.take_of_length_le (by omega)
    have hd : D.take (ms - 1) = D := List.take_of_length_le (by omega)
    have h1 := convert_after_embed ms slot B pre D R out hex k pe hpre hpre2 hhex hD hDc hR
    obtain ⟨mem, h2⟩ := convert_filepath_embed_at ms slot B pre D R hex (k + 1) out pe hpre hpre2
      hDc hhex (fun _ => hR)
    rw [hp, hd] at h1 h2
    exact ⟨min (numVal 16 hex) (2 ^ 31 - 1), fun r hr _ => by rw [h1]; exact hr, mem, h2⟩

set_option maxRecDepth 100000 in
/-- Witness for C20: `@!d2@x` expands to `!d2x` and `@!p0000ABCD@x` to
`!p0000ABCDx` with `payload_embed` untouched; `a@!d2@@!d1@b` with slot 1
expands to `a01!d1b`. -/
theorem convert_filepath_unattached_directive_witness :
    (convert_filepath (bytes "@!d2@x" ++ [0, 0]) 0 [] 256 1 ⟨false, 0, []⟩).map
        (fun r => (r.ret, r.outpath, r.payload_embed)) =
      some (0, bytes "!d2x", ⟨false, 0, []⟩) ∧
    (convert_filepath (bytes "@!p0000ABCD@x" ++ [0, 0]) 0 [] 256 1 ⟨false, 0, []⟩).map
        (fun r => (r.ret, r.outpath, r.payload_embed)) =
      some (0, bytes "!p0000ABCDx", ⟨false, 0, []⟩) ∧
    (convert_filepath (bytes "a@!d2@@!d1@b" ++ [0, 0]) 0 [] 256 1 ⟨false, 0, []⟩).map
        (fun r => (r.ret, r.outpath, r.payload_embed)) =
      some (0, bytes "a01!d1b", ⟨false, 0, []⟩) := by
  have h1 := ((convert_filepath_unattached_directive 256 1 [] (bytes "!d2") (bytes "x" ++ [0, 0]) []
    0 ⟨false, 0, []⟩ (by decide) (by decide) (by decide)).1 (by decide)).1
    ⟨0, bytes "@!d2" ++ [0] ++ bytes "x" ++ [0, 0], bytes "!d2x", ⟨false, 0, []⟩⟩
    (by decide) (by decide)
  have h2 := ((convert_filepath_unattached_directive 256 1 [] (bytes "!p0000ABCD")
    (bytes "x" ++ [0, 0]) [] 0 ⟨false, 0, []⟩ (by decide) (by decide) (by decide)).1 (by decide)).1
    ⟨0, bytes "@!p0000ABCD" ++ [0] ++ bytes "x" ++ [0, 0], bytes "!p0000ABCDx", ⟨false, 0, []⟩⟩
    (by decide) (by decide)
  have h3 := ((convert_filepath_unattached_directive 256 1 [] (bytes "!d1") (bytes "b" ++ [0, 0]) []
    1 ⟨false, 0, []⟩ (by decide) (by decide) (by decide)).2.1 (bytes "a") 50
    (by decide) (by decide) (by decide) (by decide)).1
    ⟨0, bytes "a" ++ [0] ++ bytes "!d2@@!d1" ++ [0] ++ bytes "b" ++ [0, 0], bytes "a01!d1b",
      ⟨false, 0, []⟩⟩
    (by decide) (by decide)
  have e1 : convert_filepath (bytes "@!d2@x" ++ [0, 0]) 0 [] 256 1 ⟨false, 0, []⟩ =
      convert_filepath ([] ++ List.replicate (0 + 1) 64 ++ bytes "!d2" ++ 64 :: (bytes "x" ++ [0, 0]))
        ([] : List Nat).length [] 256 1 ⟨false, 0, []⟩ := by decide
  have e2 : convert_filepath (bytes "@!p0000ABCD@x" ++ [0, 0]) 0 [] 256 1 ⟨false, 0, []⟩ =
      convert_filepath
        ([] ++ List.replicate (0 + 1) 64 ++ bytes "!p0000ABCD" ++ 64 :: (bytes "x" ++ [0, 0]))
        ([] : List Nat).length [] 256 1 ⟨false, 0, []⟩ := by decide
  have e3 : convert_filepath (bytes "a@!d2@@!d1@b" ++ [0, 0]) 0 [] 256 1 ⟨false, 0, []⟩ =
      convert_filepath
        ([] ++ bytes "a" ++ 64 :: 33 :: 100 :: 50 ::
          (List.replicate (1 + 1) 64 ++ bytes "!d1" ++ 64 :: (bytes "b" ++ [0, 0])))
        ([] : List Nat).length [] 256 1 ⟨false, 0, []⟩ := by decide
  rw [e1, e2, e3, h1, h2, h3]
  decide

set_option maxRecDepth 100000 in
/-- C20 as stated fails when the text behind the closing `@` of the unattached
directive text begins with `!`: in `@!d2@!d3@x` with slot 1 the text `!d2` is
copied literally and then serves as the literal segment in front of `!d3`, so
a slot number is substituted (`!d2001x`, not `!d2!d3x`); in `@!d2@!p0000ABCD@x`
it serves as the literal in front of the embed directive, and `payload_embed`
is enabled with the path `!d2`. -/
theorem convert_filepath_unattached_then_attached :
    (convert_filepath (bytes "@!d2@!d3@x" ++ [0, 0]) 0 [] 256 1 ⟨false, 0, []⟩).map
        (fun r => (r.ret, r.outpath)) = some (0, bytes "!d2001x") ∧
    bytes "!d2001x" ≠ bytes "!d2!d3x" ∧
    (convert_filepath (bytes "@!d2@!p0000ABCD@x" ++ [0, 0]) 0 [] 256 1 ⟨false, 0, []⟩).map
        (fun r => (r.ret, r.outpath, r.payload_embed.enabled, r.payload_embed.path)) =
      some (0, bytes "!d2x", true, bytes "!d2") := by
  decide

/-! ### The expansion always returns -/

/-- `convert_filepath` returns a result on every buffer and template. -/
theorem convert_filepath_returns (mem : List Nat) (inpath : Nat) (out : List Nat) (ms : Nat)
    (slot : Int) (pe : PayloadEmbed) :
    ∃ r, convert_filepath mem inpath out ms slot pe = some r := by
  obtain ⟨r, hr⟩ := convert_filepath_total mem inpath out ms slot pe
  exact ⟨r, hr _ (le_refl _)⟩

theorem findUpdate_eq_none (v : Nat) (ls : List CfgLine)
    (h : ∀ build code, CfgLine.update build code ∈ ls → numVal 10 build ≠ v) :
    findUpdate v ls = none := by
  induction ls with
  | nil => rfl
  | cons l ls ih =>
    have ih1 := ih (fun b c hm => h b c (by simp [hm]))
    cases l with
    | update build code =>
      have := h build code (by simp)
      simp only [findUpdate, this, if_false]
      exact ih1
    | updateHeader => simpa only [findUpdate] using ih1
    | remasterHeader => simpa only [findUpdate] using ih1
    | remaster key dir label => simpa only [findUpdate] using ih1

theorem findRemaster_eq_none (c : Nat) (ls : List CfgLine)
    (h : ∀ key dir label, CfgLine.remaster key dir label ∈ ls → numVal 16 key ≠ c) :
    findRemaster c ls = none := by
  induction ls with
  | nil => rfl
  | cons l ls ih =>
    have ih1 := ih (fun k d lb hm => h k d lb (by simp [hm]))
    cases l with
    | remaster key dir label =>
      have := h key dir label (by simp)
      simp only [findRemaster, this, if_false]
      exact ih1
    | updateHeader => simpa only [findRemaster] using ih1
    | remasterHeader => simpa only [findRemaster] using ih1
    | update build code => simpa only [findRemaster] using ih1

/-- C13 (amended): with an update title, in a well-formed configuration file
(every line is a section header, an update line `v<build>=<4 hex digits>` or
an entry `<4 hex digits>=<dir>@<label>`) that contains the
`[updatetitle_versions]` header and in which no update line behind that header
has a build number equal to the update's, `load_exploitconfig` returns 3; the
installed remaster version keeps the value it had on entry and no version
directory is looked up (the match of stage 1, the only way into stage 2, is
never taken). -/
theorem load_exploitconfig_update_incompatible (eol : List Nat)
    (heol : eol = [10] ∨ eol = [13, 10]) (pre ls1 : List CfgLine)
    (hwf : ∀ l ∈ pre ++ .updateHeader :: ls1, l.WellFormed) (app v installed0 : Nat)
    (hpre : CfgLine.updateHeader ∉ pre)
    (hno : ∀ build code, CfgLine.update build code ∈ ls1 → numVal 10 build ≠ v) :
    load_exploitconfig (configFile eol (pre ++ .updateHeader :: ls1)) app (some v) installed0 =
      some ⟨3, installed0, none, none⟩ := by
  have hah := afterHeader_skip .updateHeader pre ls1 (fun l hl e => hpre (by rw [← e]; exact hl))
  rw [load_exploitconfig_resolve eol heol _ hwf]
  simp only [resolveVersion, hah, findUpdate_eq_none v ls1 hno]

/-- C14 (amended): in a well-formed configuration file (every line is a
section header, an update line `v<build>=<4 hex digits>` or an entry
`<4 hex digits>=<dir>@<label>`) with the `[remaster_versions]` header in which
no entry behind that header has a key equal to the installed remaster version,
`load_exploitconfig` returns 5, both without an update title (the installed
version is the application's) and after a match in stage 1 (the installed
version is `max(app, code)`). -/
theorem load_exploitconfig_remaster_incompatible (eol : List Nat)
    (heol : eol = [10] ∨ eol = [13, 10]) (pre ls1 : List CfgLine)
    (hwf : ∀ l ∈ pre ++ .remasterHeader :: ls1, l.WellFormed) (app v installed0 : Nat)
    (hpre : CfgLine.remasterHeader ∉ pre) :
    ((∀ key dir label, CfgLine.remaster key dir label ∈ ls1 → numVal 16 key ≠ app) →
      load_exploitconfig (configFile eol (pre ++ .remasterHeader :: ls1)) app none installed0 =
        some ⟨5, app, none, none⟩) ∧
    (∀ lsU code, afterHeader .updateHeader (pre ++ .remasterHeader :: ls1) = some lsU →
      findUpdate v lsU = some code →
      (∀ key dir label, CfgLine.remaster key dir label ∈ ls1 → numVal 16 key ≠ max app code) →
      load_exploitconfig (configFile eol (pre ++ .remasterHeader :: ls1)) app (some v) installed0 =
        some ⟨5, max app code, none, none⟩) := by
  have hah := afterHeader_skip .remasterHeader pre ls1
    (fun l hl e => hpre (by rw [← e]; exact hl))
  constructor
  · intro hno
    rw [load_exploitconfig_resolve eol heol _ hwf]
    simp only [resolveVersion, resolveRemaster, hah, findRemaster_eq_none _ ls1 hno]
  · intro lsU code h1 h2 hno
    rw [load_exploitconfig_resolve eol heol _ hwf]
    simp only [resolveVersion, resolveRemaster, hah, h1, h2, findRemaster_eq_none _ ls1 hno]


theorem hexDigit_spec : ∀ d < 16, isxdigit (hexDigit d) = true ∧ digitVal (hexDigit d) = d := by
  decide

theorem hex4_digits (c : Nat) : HexDigits 4 (hex4 c) := by
  refine ⟨rfl, ?_⟩
  intro x hx
  simp only [hex4, List.mem_cons, List.mem_singleton, List.not_mem_nil, or_false] at hx
  rcases hx with rfl | rfl | rfl | rfl <;> exact (hexDigit_spec _ (Nat.mod_lt _ (by decide))).1

theorem numVal_hex4 (c : Nat) (hc : c < 65536) : numVal 16 (hex4 c) = c := by
  simp only [numVal, hex4, List.foldl_cons, List.foldl_nil,
    (hexDigit_spec _ (Nat.mod_lt (c / 4096) (by decide : 0 < 16))).2,
    (hexDigit_spec _ (Nat.mod_lt (c / 256) (by decide : 0 < 16))).2,
    (hexDigit_spec _ (Nat.mod_lt (c / 16) (by decide : 0 < 16))).2,
    (hexDigit_spec _ (Nat.mod_lt c (by decide : 0 < 16))).2]
  omega

theorem find?_first {α : Type} (p : α → Bool) (before after : List α) (x : α)
    (hb : ∀ r ∈ before, p r = false) (hx : p x = true) :
    (before ++ x :: after).find? p = some x := by
  induction before with
  | nil => simp [hx]
  | cons b bs ih =>
    have := hb b (by simp)
    simp only [List.cons_append, List.find?_cons, this]
    exact ih (fun r hr => hb r (by simp [hr]))

/-- C15 (amended): round trip of a version-directory entry.  For a remaster code
`c < 0x10000` and texts `dir`, `label` (non-empty, at most 63 characters, none
of NUL, `=`, `@`, CR, LF) the line `<hex4 c>=<dir>@<label>`, placed in the
`[remaster_versions]` section behind entries with other codes, is parsed back
to the same triple: `load_exploitconfig` with installed remaster version `c`
(with or without an update title) returns 0 with `dir` and `label`, and
`load_exploitversion` at the index of the line returns 0 with `c` and
`label`. -/
theorem remaster_entry_round_trip (eol : List Nat) (heol : eol = [10] ∨ eol = [13, 10])
    (remasterFirst : Bool) (updates : List (List Nat × List Nat))
    (before after : List (List Nat × List Nat × List Nat))
    (hus : ∀ u ∈ updates, (CfgLine.update u.1 u.2).WellFormed)
    (hb : ∀ r ∈ before, (CfgLine.remaster r.1 r.2.1 r.2.2).WellFormed)
    (ha : ∀ r ∈ after, (CfgLine.remaster r.1 r.2.1 r.2.2).WellFormed)
    (c : Nat) (dir label : List Nat) (hc : c < 65536) (hdir : TextOk dir) (hlabel : TextOk label)
    (hfirst : ∀ r ∈ before, numVal 16 r.1 ≠ c) (installed0 : Nat) :
    load_exploitconfig
        (configFile eol (twoSections remasterFirst updates (before ++ (hex4 c, dir, label) :: after)))
        c none installed0 = some ⟨0, c, some dir, some label⟩ ∧
    (∀ app v u, updates.find? (fun u => numVal 10 u.1 == v) = some u →
      max app (numVal 16 u.2) = c →
      load_exploitconfig
          (configFile eol (twoSections remasterFirst updates (before ++ (hex4 c, dir, label) :: after)))
          app (some v) installed0 = some ⟨0, c, some dir, some label⟩) ∧
    load_exploitversion
        (configFile eol (twoSections remasterFirst updates (before ++ (hex4 c, dir, label) :: after)))
        before.length = some ⟨0, some (c, label)⟩ := by
  have hrs : ∀ r ∈ before ++ (hex4 c, dir, label) :: after,
      (CfgLine.remaster r.1 r.2.1 r.2.2).WellFormed := by
    intro r hr
    simp only [List.mem_append, List.mem_cons] at hr
    rcases hr with hr | rfl | hr
    · exact hb r hr
    · exact ⟨hex4_digits c, hdir, hlabel⟩
    · exact ha r hr
  have hwf := twoSections_wf remasterFirst updates _ hus hrs
  have hne : eol ≠ [] := by rcases heol with rfl | rfl <;> simp
  have hfind : (before ++ (hex4 c, dir, label) :: after).find? (fun r => numVal 16 r.1 == c) =
      some (hex4 c, dir, label) :=
    find?_first _ before after _ (fun r hr => by simpa using hfirst r hr)
      (by simp [numVal_hex4 c hc])
  refine ⟨?_, ?_, ?_⟩
  · rw [load_exploitconfig_resolve eol heol _ hwf]
    simp only [resolveVersion, resolveRemaster, twoSections_afterRemaster, twoSections_findRemaster,
      hfind, Option.map_some']
  · intro app v u hu hmax
    rw [load_exploitconfig_resolve eol heol _ hwf]
    simp only [resolveVersion, resolveRemaster, twoSections_afterUpdate, twoSections_findUpdate, hu,
      twoSections_afterRemaster, twoSections_findRemaster, hmax, hfind, Option.map_some']
  · unfold load_exploitversion
    rw [load_exploitversion_enumerate eol heol _ _ _ _ hwf
      (by have := configFile_length eol hne (twoSections remasterFirst updates
            (before ++ (hex4 c, dir, label) :: after)); omega),
      twoSections_enumerate]
    have hget : (before ++ (hex4 c, dir, label) :: after)[before.length]? =
        some (hex4 c, dir, label) := by
      rw [List.getElem?_append_right (le_refl _)]
      simp
    rw [hget]
    simp only [numVal_hex4 c hc]


set_option maxRecDepth 100000 in
/-- Witness for C13: update build 5, the section lists builds 6 and 7: the
result is 3 and the installed remaster version keeps its entry value 7. -/
theorem load_exploitconfig_update_incompatible_witness :
    load_exploitconfig
        (bytes "[remaster_versions]\n0010=v10@1.0\n[updatetitle_versions]\nv6=0020\nv7=0021\n")
        0x10 (some 5) 7 = some ⟨3, 7, none, none⟩ := by
  have h := load_exploitconfig_update_incompatible [10] (Or.inl rfl)
    [.remasterHeader, .remaster (bytes "0010") (bytes "v10") (bytes "1.0")]
    [.update (bytes "6") (bytes "0020"), .update (bytes "7") (bytes "0021")]
    (by decide) 0x10 5 7 (by decide)
    (by
      intro b c hm
      simp only [List.mem_cons, CfgLine.update.injEq, List.mem_singleton, List.not_mem_nil,
        or_false] at hm
      rcases hm with ⟨rfl, _⟩ | ⟨rfl, _⟩ <;> decide)
  have e : configFile [10] ([.remasterHeader, .remaster (bytes "0010") (bytes "v10") (bytes "1.0")] ++
      .updateHeader :: [.update (bytes "6") (bytes "0020"), .update (bytes "7") (bytes "0021")]) =
      bytes "[remaster_versions]\n0010=v10@1.0\n[updatetitle_versions]\nv6=0020\nv7=0021\n" := by
    decide
  rw [e] at h
  exact h

set_option maxRecDepth 100000 in
/-- Witness for C14: the section lists only code 0x0010; application
remaster 0x0011 without an update title, and application remaster 0x0010 with
update build 5 mapped to 0x0020, both give 5. -/
theorem load_exploitconfig_remaster_incompatible_witness :
    load_exploitconfig
        (bytes "[updatetitle_versions]\nv5=0020\n[remaster_versions]\n0010=v10@1.0\n")
        0x11 none 0 = some ⟨5, 0x11, none, none⟩ ∧
    load_exploitconfig
        (bytes "[updatetitle_versions]\nv5=0020\n[remaster_versions]\n0010=v10@1.0\n")
        0x10 (some 5) 0 = some ⟨5, 0x20, none, none⟩ := by
  have hno : ∀ c : Nat, c ≠ 0x10 → ∀ key dir label,
      CfgLine.remaster key dir label ∈ [CfgLine.remaster (bytes "0010") (bytes "v10") (bytes "1.0")] →
      numVal 16 key ≠ c := by
    intro c hc key dir label hm
    simp only [List.mem_singleton, CfgLine.remaster.injEq] at hm
    obtain ⟨rfl, _, _⟩ := hm
    intro h
    exact hc (h ▸ by decide)
  have h1 := (load_exploitconfig_remaster_incompatible [10] (Or.inl rfl)
    [.updateHeader, .update (bytes "5") (bytes "0020")]
    [.remaster (bytes "0010") (bytes "v10") (bytes "1.0")]
    (by decide) 0x11 5 0 (by decide)).1 (hno 0x11 (by decide))
  have h2 := (load_exploitconfig_remaster_incompatible [10] (Or.inl rfl)
    [.updateHeader, .update (bytes "5") (bytes "0020")]
    [.remaster (bytes "0010") (bytes "v10") (bytes "1.0")]
    (by decide) 0x10 5 0 (by decide)).2
    [.update (bytes "5") (bytes "0020"), .remasterHeader,
      .remaster (bytes "0010") (bytes "v10") (bytes "1.0")] 0x20 (by decide) (by decide)
    (hno 0x20 (by decide))
  have e : configFile [10] ([.updateHeader, .update (bytes "5") (bytes "0020")] ++
      .remasterHeader :: [.remaster (bytes "0010") (bytes "v10") (bytes "1.0")]) =
      bytes "[updatetitle_versions]\nv5=0020\n[remaster_versions]\n0010=v10@1.0\n" := by
    decide
  rw [e] at h1 h2
  exact ⟨h1, h2⟩

set_option maxRecDepth 100000 in
/-- Witness for C15: code 0x00AB with directory `v11` and label `1.1` as the
second entry of the section. -/
theorem remaster_entry_round_trip_witness :
    hex4 0xAB = bytes "00AB" ∧
    load_exploitconfig
        (bytes "[remaster_versions]\n0010=v10@1.0\n00AB=v11@1.1\n[updatetitle_versions]\nv5=0020\n")
        0xAB none 0 = some ⟨0, 0xAB, some (bytes "v11"), some (bytes "1.1")⟩ ∧
    load_exploitversion
        (bytes "[remaster_versions]\n0010=v10@1.0\n00AB=v11@1.1\n[updatetitle_versions]\nv5=0020\n")
        1 = some ⟨0, some (0xAB, bytes "1.1")⟩ := by
  have h := remaster_entry_round_trip [10] (Or.inl rfl) true [(bytes "5", bytes "0020")]
    [(bytes "0010", bytes "v10", bytes "1.0")] [] (by decide) (by decide) (by decide)
    0xAB (bytes "v11") (bytes "1.1") (by decide) (by decide) (by decide) (by decide) 0
  have e : configFile [10] (twoSections true [(bytes "5", bytes "0020")]
      ([(bytes "0010", bytes "v10", bytes "1.0")] ++ (hex4 0xAB, bytes "v11", bytes "1.1") :: [])) =
      bytes "[remaster_versions]\n0010=v10@1.0\n00AB=v11@1.1\n[updatetitle_versions]\nv5=0020\n" := by
    decide
  rw [e] at h
  exact ⟨by decide, h.1, h.2.2⟩

set_option maxRecDepth 100000 in
/-- C13 as stated fails on an update line whose code has more than four hex
digits: in the file `[updatetitle_versions]`, `v5=00201`,
`[remaster_versions]`, `0010=v10@1.0`, `0020=v11@1.1` no line of the form
`v<decimal>=<4 hex>` has build number 5, yet with update build 5 and
application remaster 0x10 the line `v5=00201` is read as code 0x0020, stage 2
is entered and the result is 0 with the directory `v11`, not 3. -/
theorem load_exploitconfig_update_long_code :
    load_exploitconfig
        (bytes "[updatetitle_versions]\nv5=00201\n[remaster_versions]\n0010=v10@1.0\n0020=v11@1.1\n")
        0x10 (some 5) 0 = some ⟨0, 0x20, some (bytes "v11"), some (bytes "1.1")⟩ := by
  decide

set_option maxRecDepth 100000 in
/-- C14 as stated fails on an entry whose key has fewer than four hex digits:
in the file `[remaster_versions]`, `10=v10@1.0` no line has a 4-hex-digit key
equal to the installed remaster version 0x10, yet without an update title and
with application remaster 0x10 the key `10` is read as 0x10 and the result is
0 with the directory `v10`, not 5. -/
theorem load_exploitconfig_short_key :
    load_exploitconfig (bytes "[remaster_versions]\n10=v10@1.0\n") 0x10 none 0 =
      some ⟨0, 0x10, some (bytes "v10"), some (bytes "1.0")⟩ := by
  decide

set_option maxRecDepth 100000 in
/-- C15 as stated fails when an earlier entry of the section has the same
code: with the entries `0010=v10@1.0` and `0010=v11@1.1` the second line is
the one printed from (0x0010, `v11`, `1.1`) and enumeration at its index 1
returns that code and label, but the lookup with installed remaster version
0x10 returns the directory and label of the first line, `v10` and `1.0`. -/
theorem remaster_entry_shadowed :
    hex4 0x10 = bytes "0010" ∧
    load_exploitconfig (bytes "[remaster_versions]\n0010=v10@1.0\n0010=v11@1.1\n") 0x10 none 0 =
      some ⟨0, 0x10, some (bytes "v10"), some (bytes "1.0")⟩ ∧
    load_exploitversion (bytes "[remaster_versions]\n0010=v10@1.0\n0010=v11@1.1\n") 1 =
      some ⟨0, some (0x10, bytes "1.1")⟩ ∧
    (bytes "v10", bytes "1.0") ≠ (bytes "v11", bytes "1.1") := by
  decide

/-! ### Expansion of templates, one part at a time -/

set_option maxRecDepth 100000 in
/-- C10 at the failing input, the manifest line `a=!b`: the source template
`a` has no placeholder at all, but the byte behind its terminator is the `!`
of the destination, so `convert_filepath` inspects `!b` as a directive and
returns 9; the directive fails although its asset exists. -/
theorem convert_filepath_lookahead :
    (convert_filepath (bytes "a" ++ [0] ++ bytes "!b" ++ [0, 0]) 0 [] 256 0 ⟨false, 0, []⟩).map
        (fun r => r.ret) = some 9 ∧
    parsecopy_directive (fun _ => .data [1]) (bytes "v10/common") 0
        (lineBuffer (List.replicate 256 0) (bytes "a=!b") [10]) ⟨false, 0, []⟩ =
      some (.fail 9 ⟨false, 0, []⟩) := by
  decide

/-! ### Failing inputs of `parsecopy_saveconfig` -/
set_option maxRecDepth 100000 in
/-- C17 at the failing input, the manifest `a.bin=data/x.bin`, `foo`,
`b.bin=data/y.bin`: the line `foo` has no `=`-separated value, the loop is left
by `break` with the result 0 of the write before it, and the function returns
0 although the third directive was never applied.  The same line as the first
line of a manifest gives 2. -/
theorem parsecopy_saveconfig_break_keeps_zero :
    (parsecopy_saveconfig
        (assetStore [(bytes "v10/common/config.ini",
            bytes "a.bin=data/x.bin\nfoo\nb.bin=data/y.bin\n"),
          (bytes "v10/common/a.bin", [1]), (bytes "v10/common/b.bin", [2])])
        containerWrite (bytes "v10") 2 1 [] ⟨false, 0, []⟩).map (fun r => (r.ret, r.save)) =
      some (0, [(bytes "data/x.bin", [1])]) ∧
    (parsecopy_saveconfig
        (assetStore [(bytes "v10/common/config.ini", bytes "foo\n"),
          (bytes "v10/common/a.bin", [1]), (bytes "v10/common/b.bin", [2])])
        containerWrite (bytes "v10") 2 1 [] ⟨false, 0, []⟩).map (fun r => (r.ret, r.save)) =
      some (2, []) := by
  decide

set_option maxRecDepth 100000 in
/-- C19 at the failing input, the manifest lines `a=b` and `a=!d2` with slot
1: the source template `a` expands to `a` in the first line and to `a01` in the
second, because the byte behind its terminator is the `!` of the destination;
with both assets in the store the second line copies the asset `a01`, not
`a`. -/
theorem parsecopy_saveconfig_source_depends_on_dest :
    (convert_filepath (lineBuffer (List.replicate 256 0) (bytes "a" ++ [0] ++ bytes "b") [10]) 0 []
        256 1 ⟨false, 0, []⟩).map (fun r => (r.ret, r.outpath)) = some (0, bytes "a") ∧
    (convert_filepath (lineBuffer (List.replicate 256 0) (bytes "a" ++ [0] ++ bytes "!d2") [10]) 0 []
        256 1 ⟨false, 0, []⟩).map (fun r => (r.ret, r.outpath)) = some (0, bytes "a01") ∧
    (parsecopy_saveconfig
        (assetStore [(bytes "v10/common/config.ini", bytes "a=b\n"),
          (bytes "v10/common/a", [1]), (bytes "v10/common/a01", [9])])
        containerWrite (bytes "v10") 2 1 [] ⟨false, 0, []⟩).map (fun r => (r.ret, r.save)) =
      some (0, [(bytes "b", [1])]) ∧
    (parsecopy_saveconfig
        (assetStore [(bytes "v10/common/config.ini", bytes "a=!d2\n"),
          (bytes "v10/common/a", [1]), (bytes "v10/common/a01", [9])])
        containerWrite (bytes "v10") 2 1 [] ⟨false, 0, []⟩).map (fun r => (r.ret, r.save)) =
      some (0, [(bytes "!d2", [9])]) := by
  decide

/-! ### Soundness of the embed size check -/

/-- The 32-bit sum of the size check does not wrap around on any input the
step can receive: the offset comes from `strtol` and is at most `0x7FFFFFFF`,
and a payload held in memory next to the save buffer is shorter than
`0x7FFFFFFD` bytes. -/
theorem embed_sum_no_wrap (offset payload_size : Nat) (hoff : offset ≤ 0x7FFFFFFF)
    (hpay : payload_size < 0x7FFFFFFD) : offset + payload_size + 4 < 2 ^ 32 := by
  norm_num
  omega

/-- The body of the loop of `parsecopy_saveconfig` returns on every line. -/
theorem parsecopy_directive_returns (romfs : List Nat → SourceRead) (savedir : List Nat)
    (slot : Int) (line : List Nat) (pe : PayloadEmbed) :
    ∃ r, parsecopy_directive romfs savedir slot line pe = some r := by
  unfold parsecopy_directive
  simp only
  split
  · exact ⟨_, rfl⟩
  · split
    · exact ⟨_, rfl⟩
    · rename_i namestr _ _ valuestr _
      obtain ⟨c1, h1⟩ := convert_filepath_returns
        (strtok (strtok line (some 0) none 61).mem none (strtok line (some 0) none 61).last 61).mem
        namestr [] 256 slot pe
      simp only [h1]
      split
      · exact ⟨_, rfl⟩
      · split
        · exact ⟨_, rfl⟩
        · split
          · exact ⟨_, rfl⟩
          · obtain ⟨c2, h2⟩ := convert_filepath_returns c1.mem valuestr [] 256 slot c1.payload_embed
            simp only [h2]
            split
            · exact ⟨_, rfl⟩
            · split
              · exact ⟨_, rfl⟩
              · exact ⟨_, rfl⟩

end SaltSploit
